import Mathlib

/-!
# mod_vhost_ldap: the value escaper and the virtual-host lookup

A shallow embedding of `src/mod_vhost_ldap.c`.

Conventions of the embedding

* A C string is the list of the bytes stored at its address, a byte being a `Char`
  (the code only compares bytes with ASCII characters).  Reading stops at the first
  NUL byte or at the end of the list, whichever comes first, so the string a buffer
  denotes is `cstr buffer`.
* A `const char *` that walks through a string is the suffix of the buffer that
  starts at the pointer: `*x` is the head of the suffix, `x + k` is
  `x.drop k`, and `x - input` is `input.length - x.length`.
* The collaborators that live outside the file (the LDAP utility layer, libldap's
  filter escaping, the configuration-tree processor, virtual-host construction)
  are fields of `Env`.
* The side effects of one lookup are recorded, in program order, as a list of
  `Event`s.
-/

namespace ModVhostLdap

/-! ## C strings -/

/-- The terminating byte of a C string. -/
def NUL : Char := Char.ofNat 0

/-- The string a buffer denotes: its bytes up to the first NUL. -/
def cstr : List Char → List Char
  | [] => []
  | c :: cs => if c = NUL then [] else c :: cstr cs

/-- Model of `strcspn(s, reject)`: the length of the longest prefix of the string at `s`
that has no byte of `reject`. -/
def strcspn : List Char → List Char → Nat
  | [], _ => 0
  | c :: cs, reject => if c = NUL ∨ c ∈ reject then 0 else strcspn cs reject + 1

/-- Model of `strcmp(a, b) == 0`. -/
def streq (a b : List Char) : Bool := cstr a = cstr b

/-- Model of `strncmp(a, b, n) == 0`. -/
def strneq (a b : List Char) (n : Nat) : Bool := (cstr a).take n = (cstr b).take n

/-- Model of `apr_pstrcat(pool, a, b, NULL)`. -/
def apr_pstrcat2 (a b : List Char) : List Char := cstr a ++ cstr b

/-- Model of `apr_pstrcat(pool, a, b, c, NULL)`. -/
def apr_pstrcat3 (a b c : List Char) : List Char := cstr a ++ cstr b ++ cstr c

/-- Model of `apr_pstrcat(pool, a, b, c, d, e, NULL)`. -/
def apr_pstrcat5 (a b c d e : List Char) : List Char :=
  cstr a ++ cstr b ++ cstr c ++ cstr d ++ cstr e

/-- Model of `strcasecmp(a, b) == 0`. -/
def strcaseeq (a b : List Char) : Bool :=
  (cstr a).map Char.toLower = (cstr b).map Char.toLower

/-! ## `escape` (lines 393-422) -/

/-- The bytes `escape` prefixes with a backslash: `static const char *const to_escape`. -/
def to_escape : List Char := ['\'', '\\']

/-- The counting loop of `escape` (lines 402-406), started at pointer `y` with `extra`
escapes counted so far.  Returns the final `y` and `extra`. -/
def escape_count : Nat → List Char → Nat → List Char × Nat
  | 0, y, extra => (y, extra)
  | _ + 1, [], extra => ([], extra)
  | fuel + 1, c :: rest, extra =>
    if c = NUL then (c :: rest, extra)
    else
      let k := strcspn rest to_escape + 1
      escape_count fuel ((c :: rest).drop k) (extra + 1)

/-- The copying loop of `escape` (lines 412-418), started at pointer `x` with `output`
holding the bytes written so far (`z` is the end of `output`). -/
def escape_copy : Nat → List Char → List Char → List Char
  | 0, _, output => output
  | _ + 1, [], output => output
  | fuel + 1, c :: rest, output =>
    if c = NUL then output
    else
      let k := strcspn rest to_escape + 1
      escape_copy fuel ((c :: rest).drop k) (output ++ ['\\'] ++ (c :: rest).take k)

/-- True when the byte under the pointer is the terminator (`*x == 0`). -/
def at_end (x : List Char) : Bool :=
  match x with
  | [] => true
  | c :: _ => c = NUL

/-- The number of bytes `escape` asks `apr_palloc` for (line 408), `none` when the input
is returned as it is and nothing is allocated. -/
def escape_alloc (input : List Char) : Option Nat :=
  let x := input.drop (strcspn input to_escape)
  if at_end x then none
  else
    let r := escape_count input.length x 0
    some (input.length - r.1.length + r.2 + 1)

/-- The function `escape`: the string it returns.  Either loop runs at most once per
byte of the input, which is the fuel it is given. -/
def escape (input : List Char) : List Char :=
  let x := input.drop (strcspn input to_escape)
  if at_end x then cstr input
  else escape_copy input.length x (input.take (strcspn input to_escape))

/-! ### What the specification says `escape` computes -/

/-- The specification of the value escaper, read off its words: every quote and every
backslash gets one backslash in front of it, every other byte is copied. -/
def escape_spec : List Char → List Char
  | [] => []
  | c :: cs => if c = '\'' ∨ c = '\\' then '\\' :: c :: escape_spec cs else c :: escape_spec cs

/-- Modelled from the spec: the directive layer reading the inside of a single-quoted
argument (the reader itself belongs to the configuration system, not to this
repository).  A backslash followed by a quote or a backslash stands for that byte, any
other byte stands for itself, and an unescaped quote ends the argument.  Returns the
argument read and what follows the closing quote, or `none` when the closing quote is
missing. -/
def unquote_arg : List Char → Option (List Char × List Char)
  | [] => none
  | [c] => if c = '\'' then some ([], []) else none
  | c :: d :: ds =>
    if c = '\'' then some ([], d :: ds)
    else if c = '\\' ∧ (d = '\'' ∨ d = '\\') then
      (unquote_arg ds).map (fun p => (d :: p.1, p.2))
    else (unquote_arg (d :: ds)).map (fun p => (c :: p.1, p.2))

/-! ## Records and constants -/

/-- The enumeration `mod_vhost_ldap_status_e` (lines 51-53). -/
inductive mod_vhost_ldap_status_e
  | MVL_UNSET
  | MVL_DISABLED
  | MVL_ENABLED
  deriving DecidableEq

/-- The alias-dereference policy `deref_options` of the LDAP utility layer. -/
inductive deref_options
  | never
  | searching
  | finding
  | always
  deriving DecidableEq

/-- The structure `mod_vhost_ldap_config_t` (lines 55-78).  A `char *` field that may be
`NULL` is an `Option`. -/
structure mod_vhost_ldap_config_t where
  enabled : mod_vhost_ldap_status_e
  url : Option (List Char)
  host : Option (List Char)
  port : Int
  basedn : Option (List Char)
  scope : Int
  filter : Option (List Char)
  deref : deref_options
  binddn : Option (List Char)
  bindpw : Option (List Char)
  have_deref : Int
  have_ldap_url : Int
  secure : Int
  fallback : Option (List Char)

/-- The structure `mod_vhost_ldap_request_t` (lines 80-88). -/
structure mod_vhost_ldap_request_t where
  dn : Option (List Char)
  name : Option (List Char)
  home : Option (List Char)
  directory : Option (List Char)
  uid : Option (List Char)
  username : Option (List Char)
  gid : Option (List Char)

/-- The array `attributes` (lines 90-91), without its terminating null pointer. -/
def attributes : List (List Char) :=
  ["scriptsVhostName".toList, "homeDirectory".toList, "scriptsVhostDirectory".toList,
   "uidNumber".toList, "uid".toList, "gidNumber".toList]

/-- The constant `USERDIR` (line 45). -/
def USERDIR : List Char := "web_scripts".toList

/-- The constant `MAX_FAILURES` (line 47). -/
def MAX_FAILURES : Nat := 5

/-- The hook status `DECLINED` of the host runtime (`httpd.h`), whose value is -1. -/
def DECLINED : Int := -1

/-- The hook status `OK` of the host runtime (`httpd.h`), whose value is 0. -/
def OK : Int := 0

/-- The status `HTTP_BAD_REQUEST` of the host runtime (`httpd.h`). -/
def HTTP_BAD_REQUEST : Int := 400

/-- The status `HTTP_INTERNAL_SERVER_ERROR` of the host runtime (`httpd.h`). -/
def HTTP_INTERNAL_SERVER_ERROR : Int := 500

/-- The status `HTTP_GATEWAY_TIME_OUT` of the host runtime (`httpd.h`). -/
def HTTP_GATEWAY_TIME_OUT : Int := 504

/-- The result code of a directory search, by the classes the lookup tells apart.
`LDAP_SERVER_DOWN` stands for every code `AP_LDAP_IS_SERVER_DOWN` accepts and `other` for
every code that is none of the named ones. -/
inductive ldap_result
  | LDAP_SUCCESS
  | LDAP_NO_SUCH_OBJECT
  | LDAP_SERVER_DOWN
  | LDAP_TIMEOUT
  | LDAP_CONNECT_ERROR
  | other (code : Nat)
  deriving DecidableEq

/-- What `util_ldap_cache_getuserdn` hands back: its result code, the entry's DN and the
value array `vals`, one slot per requested attribute, a slot being `NULL` when the entry
lacks the attribute; the array itself may be `NULL`. -/
structure search_result where
  result : ldap_result
  dn : Option (List Char)
  vals : Option (List (Option (List Char)))

/-- A `server_rec`, known by its identity only. -/
structure server_rec where
  id : Nat
  deriving DecidableEq

/-- The collaborators of the lookup that are not part of this file. -/
structure Env where
  /-- The macro `MAX_STRING_LEN` of the host runtime, the size of `filtbuf`. -/
  FILTER_LENGTH : Nat
  /-- The new virtual host built from the serving server, `none` on error. -/
  ap_init_virtual_host : server_rec → Option server_rec
  /-- The filter escaping of the directory library: `none` for a non-zero return, else
  the `bv_val` of the escaped value, which may be `NULL`. -/
  ldap_bv2escaped_filter_value : List Char → Option (Option (List Char))
  /-- The answer of the directory to the search number `n` (counted from 0 within
  the lookup) made with the given filter. -/
  util_ldap_cache_getuserdn : Nat → List Char → search_result
  /-- The status of the directive number `n` (counted from 0 within the lookup)
  processed with the given name and arguments. -/
  ap_process_config_tree : Nat → List Char → List Char → Int

/-- The side effects of a lookup. -/
inductive Event
  /-- A call of `util_ldap_connection_find` (line 519). -/
  | connection_find
  /-- A call of `util_ldap_cache_getuserdn` (line 545) for the candidate `hostname` with
  the filter in `filtbuf`. -/
  | search (hostname filtbuf : List Char)
  /-- A call of `util_ldap_connection_close` (line 548). -/
  | connection_close
  /-- A call of `apr_sleep` (line 560) for that many seconds. -/
  | sleep (seconds : Nat)
  /-- The search hostname is replaced by the configured fallback (line 588). -/
  | fallback (hostname : List Char)
  /-- A call of `reconfigure_directive`. -/
  | directive (dir args : List Char)
  /-- The new virtual host is finalised and stored in `*serverp` (lines 724-725). -/
  | fixup_virtual_host
  deriving DecidableEq

/-- What the caller sees of a lookup: the status returned, the value of `*serverp` and
the side effects in the order they happened. -/
structure lookup_result where
  code : Int
  serverp : server_rec
  trace : List Event
  deriving DecidableEq

/-! ## `reconfigure_directive` and the directives of a found entry -/

/-- The function `reconfigure_directive` (lines 424-432), as directive number `n`. -/
def reconfigure_directive (env : Env) (n : Nat) (dir args : List Char) : Int :=
  env.ap_process_config_tree n dir args

/-- The body of the attribute loop (lines 617-649): `val` is stored in the field the
name `attr` selects. -/
def map_attribute (reqc : mod_vhost_ldap_request_t) (attr : List Char)
    (val : Option (List Char)) : mod_vhost_ldap_request_t :=
  if strcaseeq attr "uidNumber".toList then { reqc with uid := val }
  else if strcaseeq attr "uid".toList then { reqc with username := val }
  else if strcaseeq attr "gidNumber".toList then { reqc with gid := val }
  else if strcaseeq attr "homeDirectory".toList then { reqc with home := val }
  else if strcaseeq attr "scriptsVhostDirectory".toList then { reqc with directory := val }
  else if strcaseeq attr "scriptsVhostName".toList then { reqc with name := val }
  else reqc

/-- The attribute loop (lines 615-650) from index `i` on, `attrs` being the attribute
names not yet visited; `vals[i]` is duplicated with `apr_pstrdup`, which keeps `NULL`. -/
def map_attributes (vals : List (Option (List Char))) :
    Nat → List (List Char) → mod_vhost_ldap_request_t → mod_vhost_ldap_request_t
  | _, [], reqc => reqc
  | i, a :: attrs, reqc =>
    map_attributes vals (i + 1) attrs (map_attribute reqc a ((vals.get? i).join.map cstr))

/-- Lines 609-651: the request record filled from the DN and the values of a search. -/
def load_request (dn : Option (List Char)) (vals : Option (List (Option (List Char)))) :
    mod_vhost_ldap_request_t :=
  let reqc : mod_vhost_ldap_request_t :=
    { dn := dn.map cstr, name := none, home := none, directory := none,
      uid := none, username := none, gid := none }
  match vals with
  | some vals => map_attributes vals 0 attributes reqc
  | none => reqc

/-- One `if ((code = reconfigure_directive(pool, server, dir, args)) != 0) return code;`
as directive number `n`, followed by the code `rest`. -/
def apply_directive (env : Env) (serverp : server_rec) (n : Nat) (dir args : List Char)
    (tr : List Event) (rest : List Event → lookup_result) : lookup_result :=
  if reconfigure_directive env n dir args ≠ 0 then
    ⟨reconfigure_directive env n dir args, serverp, tr ++ [Event.directive dir args]⟩
  else rest (tr ++ [Event.directive dir args])

/-- Lines 721-727: the last directive, then the new virtual host replaces `*serverp`. -/
def finish_vhost (env : Env) (serverp server : server_rec) (n : Nat) (tr : List Event) :
    lookup_result :=
  apply_directive env serverp n "VhostLDAPEnabled".toList "off".toList tr fun tr =>
  ⟨OK, server, tr ++ [Event.fixup_virtual_host]⟩

/-- Lines 684-719, entered with `reqc->uid` not `NULL`. -/
def suexec_directives (env : Env) (serverp server : server_rec)
    (uid : List Char) (gid username : Option (List Char)) (tr : List Event) : lookup_result :=
  match gid with
  | none => ⟨HTTP_INTERNAL_SERVER_ERROR, serverp, tr⟩
  | some gid =>
    apply_directive env serverp 2 "SuexecUserGroup".toList
      (apr_pstrcat5 "'#".toList (escape uid) "' '#".toList (escape gid) "'".toList) tr fun tr =>
    apply_directive env serverp 3 "UserDir".toList
      (apr_pstrcat3 "'".toList (escape USERDIR) "'".toList) tr fun tr =>
    apply_directive env serverp 4 "UserDir".toList "disabled".toList tr fun tr =>
    match username with
    | none => ⟨HTTP_INTERNAL_SERVER_ERROR, serverp, tr⟩
    | some username =>
      apply_directive env serverp 5 "UserDir".toList
        (apr_pstrcat3 "enabled '".toList (escape username) "'".toList) tr fun tr =>
      finish_vhost env serverp server 6 tr

/-- Lines 675-678: the document root `docroot`. -/
def docroot (home directory : List Char) : List Char :=
  if streq directory ".".toList then apr_pstrcat2 home "/web_scripts".toList
  else apr_pstrcat3 home "/web_scripts/".toList directory

/-- Lines 663-727: the request record is checked and applied to the new virtual host. -/
def configure_vhost (env : Env) (serverp server : server_rec)
    (reqc : mod_vhost_ldap_request_t) (tr : List Event) : lookup_result :=
  match reqc.name with
  | none => ⟨HTTP_INTERNAL_SERVER_ERROR, serverp, tr⟩
  | some name =>
    match reqc.home with
    | none => ⟨HTTP_INTERNAL_SERVER_ERROR, serverp, tr⟩
    | some home =>
      match reqc.directory with
      | none => ⟨HTTP_INTERNAL_SERVER_ERROR, serverp, tr⟩
      | some directory =>
        apply_directive env serverp 0 "ServerName".toList
          (apr_pstrcat3 "'".toList (escape name) "'".toList) tr fun tr =>
        apply_directive env serverp 1 "DocumentRoot".toList
          (apr_pstrcat3 "'".toList (escape (docroot home directory)) "'".toList) tr fun tr =>
        match reqc.uid with
        | some uid => suexec_directives env serverp server uid reqc.gid reqc.username tr
        | none => finish_vhost env serverp server 2 tr

/-! ## `mod_vhost_ldap_lookup_vhost` (lines 468-728) -/

/-- The argument `%s` of `apr_snprintf` prints: the string, or `(null)` for `NULL`. -/
def fmt_s : Option (List Char) → List Char
  | some s => cstr s
  | none => "(null)".toList

/-- Line 542: `apr_snprintf` into `filtbuf`, which keeps at most `FILTER_LENGTH - 1`
bytes of the formatted text. -/
def build_filter (FILTER_LENGTH : Nat) (filter shostname : Option (List Char)) : List Char :=
  ("(&(".toList ++ fmt_s filter ++ ")(|(scriptsVhostName=".toList ++ fmt_s shostname
    ++ ")(scriptsVhostAlias=".toList ++ fmt_s shostname ++ ")))".toList).take (FILTER_LENGTH - 1)

/-- Lines 571-574: the next wildcard candidate after `hostname` was not found. -/
def wildcard (hostname : List Char) : List Char :=
  let hostname := if strneq hostname "*.".toList 2 then hostname.drop 2 else hostname
  let hostname := hostname.drop (strcspn hostname ".".toList)
  apr_pstrcat2 "*".toList hostname

/-- Lines 551-553: the results the lookup retries. -/
def is_transient (result : ldap_result) : Bool :=
  result = ldap_result.LDAP_SERVER_DOWN ∨ result = ldap_result.LDAP_TIMEOUT ∨
    result = ldap_result.LDAP_CONNECT_ERROR

/-- The labels of `mod_vhost_ldap_lookup_vhost`.  The variable `hostname` is read only
after the label `fallback`, so it travels with that label. -/
inductive Label
  | start_over
  | fallback (hostname : List Char)
  | null

/-- The local variables of `mod_vhost_ldap_lookup_vhost` that live across a jump,
together with the number of searches made and the side effects so far.  The `int`
counters only grow, by one per visit of the line that increments them. -/
structure Locals where
  failures : Nat
  is_fallback : Nat
  sleep0 : Nat
  sleep1 : Nat
  searches : Nat
  trace : List Event

/-- How the code after a label ends: with a `goto` or with a `return`. -/
inductive Step
  | goto (label : Label) (st : Locals)
  | ret (r : lookup_result)

/-- The code of `mod_vhost_ldap_lookup_vhost` from a label to the next `goto` or
`return` (lines 516-728); falling through into the label `fallback` counts as a jump
to it. -/
def lookup_step (env : Env) (conf : mod_vhost_ldap_config_t) (host : Option (List Char))
    (serverp server : server_rec) : Label → Locals → Step
  | Label.start_over, st =>
    match conf.host with
    | none => Step.ret ⟨HTTP_INTERNAL_SERVER_ERROR, serverp, st.trace⟩
    | some _ =>
      let st := { st with trace := st.trace ++ [Event.connection_find] }
      match host with
      | none => Step.goto Label.null st
      | some hostname =>
        if at_end hostname then Step.goto Label.null st
        else Step.goto (Label.fallback hostname) st
  | Label.fallback hostname, st =>
    match env.ldap_bv2escaped_filter_value (cstr hostname) with
    | none => Step.goto Label.null st
    | some shostname =>
      let filtbuf := build_filter env.FILTER_LENGTH conf.filter shostname
      let r := env.util_ldap_cache_getuserdn st.searches filtbuf
      let st := { st with searches := st.searches + 1,
                          trace := st.trace ++ [Event.search hostname filtbuf,
                                                Event.connection_close] }
      if is_transient r.result then
        let sleep := st.sleep0 + st.sleep1
        if st.failures < MAX_FAILURES then
          Step.goto Label.start_over
            { st with failures := st.failures + 1, sleep0 := st.sleep1, sleep1 := sleep,
                      trace := st.trace ++ [Event.sleep sleep] }
        else Step.ret ⟨HTTP_GATEWAY_TIME_OUT, serverp, st.trace⟩
      else if r.result = ldap_result.LDAP_NO_SUCH_OBJECT then
        if !streq hostname "*".toList then Step.goto (Label.fallback (wildcard hostname)) st
        else Step.goto Label.null st
      else if r.result ≠ ldap_result.LDAP_SUCCESS then
        Step.ret ⟨HTTP_INTERNAL_SERVER_ERROR, serverp, st.trace⟩
      else Step.ret (configure_vhost env serverp server (load_request r.dn r.vals) st.trace)
  | Label.null, st =>
    match conf.fallback with
    | some fallback =>
      if st.is_fallback ≤ 0 then
        Step.goto (Label.fallback fallback)
          { st with is_fallback := st.is_fallback + 1,
                    trace := st.trace ++ [Event.fallback fallback] }
      else Step.ret ⟨HTTP_BAD_REQUEST, serverp, st.trace⟩
    | none => Step.ret ⟨HTTP_BAD_REQUEST, serverp, st.trace⟩

/-- The body of `mod_vhost_ldap_lookup_vhost` run from a label on, every jump costing one
unit of fuel; `none` when the fuel runs out. -/
def lookup_from (env : Env) (conf : mod_vhost_ldap_config_t) (host : Option (List Char))
    (serverp server : server_rec) : Nat → Label → Locals → Option lookup_result
  | 0, _, _ => none
  | fuel + 1, label, st =>
    match lookup_step env conf host serverp server label st with
    | Step.ret r => some r
    | Step.goto label st => lookup_from env conf host serverp server fuel label st

/-- The length of an optional string, 0 for `NULL`. -/
def opt_length : Option (List Char) → Nat
  | some s => s.length
  | none => 0

/-- A bound on the jumps of one pass from `start_over` to a return or the next
`start_over`: the candidates of the requested host, those of the fallback, and the
labels in between. -/
def pass_bound (conf : mod_vhost_ldap_config_t) (host : Option (List Char)) : Nat :=
  opt_length host + opt_length conf.fallback + 10

/-- The fuel `mod_vhost_ldap_lookup_vhost` runs with: one pass per allowed failure
and one more. -/
def lookup_fuel (conf : mod_vhost_ldap_config_t) (host : Option (List Char)) : Nat :=
  (MAX_FAILURES + 1) * pass_bound conf host + 1

/-- The values of the locals on entry (lines 475-487). -/
def initial_locals : Locals :=
  { failures := 0, is_fallback := 0, sleep0 := 0, sleep1 := 1, searches := 0, trace := [] }

/-- The function `mod_vhost_ldap_lookup_vhost` (lines 468-728) called with `host` and
`*serverp = serverp`.  The result is `none` only if the fuel did not suffice, which
`lookup_returns` excludes. -/
def mod_vhost_ldap_lookup_vhost (env : Env) (conf : mod_vhost_ldap_config_t)
    (host : Option (List Char)) (serverp : server_rec) : Option lookup_result :=
  if conf.enabled ≠ mod_vhost_ldap_status_e.MVL_ENABLED ∨ conf.have_ldap_url = 0 then
    some ⟨DECLINED, serverp, []⟩
  else
    match env.ap_init_virtual_host serverp with
    | none => some ⟨HTTP_INTERNAL_SERVER_ERROR, serverp, []⟩
    | some server =>
      lookup_from env conf host serverp server (lookup_fuel conf host) Label.start_over
        initial_locals

/-! ## Termination measure and observations on a trace -/

/-- A bound on the number of wildcard candidates that can still follow `hostname`. -/
def host_measure (hostname : List Char) : Nat :=
  if streq hostname "*".toList then 0
  else if strneq hostname "*.".toList 2 then hostname.length
  else hostname.length + 2

/-- A bound on the jumps from the label `null` to a return or the next `start_over`. -/
def null_cost (conf : mod_vhost_ldap_config_t) (st : Locals) : Nat :=
  if st.is_fallback = 0 then
    match conf.fallback with
    | some fallback => host_measure fallback + 3
    | none => 1
  else 1

/-- A bound on the jumps the lookup can still make from a label. -/
def lookup_measure (conf : mod_vhost_ldap_config_t) (host : Option (List Char)) :
    Label → Locals → Nat
  | Label.start_over, st =>
    pass_bound conf host + (MAX_FAILURES - st.failures) * pass_bound conf host
  | Label.fallback hostname, st =>
    host_measure hostname + 1 + null_cost conf st
      + (MAX_FAILURES - st.failures) * pass_bound conf host
  | Label.null, st => null_cost conf st + (MAX_FAILURES - st.failures) * pass_bound conf host

/-- The candidate hostnames searched, in order. -/
def searched_hostnames : List Event → List (List Char)
  | [] => []
  | Event.search hostname _ :: tr => hostname :: searched_hostnames tr
  | _ :: tr => searched_hostnames tr

/-- The durations of the sleeps taken, in order. -/
def sleeps : List Event → List Nat
  | [] => []
  | Event.sleep seconds :: tr => seconds :: sleeps tr
  | _ :: tr => sleeps tr

/-- The fallback hostnames substituted, in order. -/
def fallbacks : List Event → List (List Char)
  | [] => []
  | Event.fallback hostname :: tr => hostname :: fallbacks tr
  | _ :: tr => fallbacks tr

/-- The directives processed, in order. -/
def directives : List Event → List (List Char × List Char)
  | [] => []
  | Event.directive dir args :: tr => (dir, args) :: directives tr
  | _ :: tr => directives tr

/-- The events the configuration of a found entry produces. -/
def is_config_event : Event → Bool
  | Event.directive _ _ => true
  | Event.fixup_virtual_host => true
  | _ => false

/-- The trace of `r` is `tr` followed by configuration events only. -/
def config_extends (tr : List Event) (r : lookup_result) : Prop :=
  ∃ ds, r.trace = tr ++ ds ∧ ∀ e ∈ ds, is_config_event e = true

/-! ## Example configuration and directory answers -/

/-- A configuration as `VhostLDAPEnabled on` and `VhostLDAPURL ldap://ldap.example.com/...`
leave it, without a fallback hostname. -/
def example_conf : mod_vhost_ldap_config_t :=
  { enabled := mod_vhost_ldap_status_e.MVL_ENABLED,
    url := some "ldap://ldap.example.com/ou=VirtualHosts,dc=example,dc=com".toList,
    host := some "ldap.example.com".toList, port := 389,
    basedn := some "ou=VirtualHosts,dc=example,dc=com".toList, scope := 2,
    filter := some "objectClass=scriptsVhost".toList, deref := deref_options.always,
    binddn := none, bindpw := none, have_deref := 0, have_ldap_url := 1, secure := 0,
    fallback := none }

/-- The example configuration with `VhostLDAPFallback default.example.com`. -/
def example_conf_fallback : mod_vhost_ldap_config_t :=
  { example_conf with fallback := some "default.example.com".toList }

/-- The answer of a directory that has no entry for the filter. -/
def not_found : search_result := ⟨ldap_result.LDAP_NO_SUCH_OBJECT, none, none⟩

/-- The answer of the utility layer when the directory server is down. -/
def server_down : search_result := ⟨ldap_result.LDAP_SERVER_DOWN, none, none⟩

/-- The entry of the end-to-end example of the specification. -/
def example_entry : search_result :=
  ⟨ldap_result.LDAP_SUCCESS, some "scriptsVhostName=foo.example.com,ou=VirtualHosts".toList,
   some [some "foo.example.com".toList, some "/mit/foo".toList, some ".".toList,
         some "1234".toList, some "foo".toList, some "5678".toList]⟩

/-- Filter escaping as the directory library does it on the bytes a hostname can hold:
`*`, `(`, `)` and the backslash become a backslash and two hexadecimal digits, the empty
value has no buffer. -/
def example_filter_escape (value : List Char) : Option (Option (List Char)) :=
  if value = [] then some none
  else some (some (value.flatMap fun c =>
    if c = '*' then "\\2A".toList
    else if c = '(' then "\\28".toList
    else if c = ')' then "\\29".toList
    else if c = '\\' then "\\5C".toList
    else [c]))

/-- The answer of a directory server that refuses the bind (`LDAP_INVALID_CREDENTIALS`,
code 49). -/
def bind_refused : search_result := ⟨ldap_result.other 49, none, none⟩

/-- A successful answer without a value array. -/
def entry_without_values : search_result :=
  ⟨ldap_result.LDAP_SUCCESS, some "scriptsVhostName=foo.example.com,ou=VirtualHosts".toList,
   none⟩

/-- A successful answer whose entry lacks `homeDirectory`. -/
def entry_without_home : search_result :=
  ⟨ldap_result.LDAP_SUCCESS, some "scriptsVhostName=foo.example.com,ou=VirtualHosts".toList,
   some [some "foo.example.com".toList, none, some ".".toList,
         some "1234".toList, some "foo".toList, some "5678".toList]⟩

/-- A successful answer whose entry has `uidNumber` but lacks `gidNumber`. -/
def entry_without_gid : search_result :=
  ⟨ldap_result.LDAP_SUCCESS, some "scriptsVhostName=foo.example.com,ou=VirtualHosts".toList,
   some [some "foo.example.com".toList, some "/mit/foo".toList, some ".".toList,
         some "1234".toList, some "foo".toList, none]⟩

/-- A successful answer whose entry has `uidNumber` but lacks `uid`. -/
def entry_without_username : search_result :=
  ⟨ldap_result.LDAP_SUCCESS, some "scriptsVhostName=foo.example.com,ou=VirtualHosts".toList,
   some [some "foo.example.com".toList, some "/mit/foo".toList, some ".".toList,
         some "1234".toList, none, some "5678".toList]⟩

/-- An environment in which search number `n` is answered by `answers n`, every
directive is accepted and the new virtual host is the server 1. -/
def example_env (answers : Nat → search_result) : Env :=
  { FILTER_LENGTH := 8192,
    ap_init_virtual_host := fun _ => some ⟨1⟩,
    ldap_bv2escaped_filter_value := example_filter_escape,
    util_ldap_cache_getuserdn := fun n _ => answers n,
    ap_process_config_tree := fun _ _ _ => 0 }

/-- An environment whose directory answers a search by its filter alone. -/
def directory_env (directory : List Char → search_result) : Env :=
  { FILTER_LENGTH := 8192,
    ap_init_virtual_host := fun _ => some ⟨1⟩,
    ldap_bv2escaped_filter_value := example_filter_escape,
    util_ldap_cache_getuserdn := fun _ filter => directory filter,
    ap_process_config_tree := fun _ _ _ => 0 }

/-- A directory whose only entry is the one of the example, stored under the name
`*.example.com`. -/
def example_directory (filter : List Char) : search_result :=
  if filter = ("(&(objectClass=scriptsVhost)(|(scriptsVhostName=\\2A.example.com)"
      ++ "(scriptsVhostAlias=\\2A.example.com)))").toList then example_entry
  else not_found

/-! ## The wildcard chain -/

/-- The candidates the lookup goes through from `hostname` on while every search
answers no-such-object: each candidate is the `wildcard` of the one before, and `*` is
the last one.  At most `fuel` candidates are listed. -/
def wildcard_chain : Nat → List Char → List (List Char)
  | 0, _ => []
  | fuel + 1, hostname =>
    hostname :: (if streq hostname "*".toList then [] else wildcard_chain fuel (wildcard hostname))

/-- The filter the lookup composes for a candidate (line 542). -/
def candidate_filter (env : Env) (conf : mod_vhost_ldap_config_t) (hostname : List Char) :
    List Char :=
  match env.ldap_bv2escaped_filter_value (cstr hostname) with
  | some shostname => build_filter env.FILTER_LENGTH conf.filter shostname
  | none => []

/-- The events of searching the given candidates one after the other. -/
def search_events (env : Env) (conf : mod_vhost_ldap_config_t) : List (List Char) → List Event
  | [] => []
  | c :: cs =>
    Event.search c (candidate_filter env conf c) :: Event.connection_close
      :: search_events env conf cs

/-- The locals after `k` more searches that produced the events `evs`. -/
def advance (st : Locals) (k : Nat) (evs : List Event) : Locals :=
  { st with searches := st.searches + k, trace := st.trace ++ evs }

/-- The labels `l1, ..., ln` of a hostname joined by dots. -/
def join_labels : List (List Char) → List Char
  | [] => []
  | [l] => l
  | l :: l' :: ls => l ++ '.' :: join_labels (l' :: ls)

/-- The wildcard forms `*.li.....ln` of the non-empty suffixes of a list of labels,
longest first. -/
def suffix_wildcards : List (List Char) → List (List Char)
  | [] => []
  | l :: ls => ('*' :: '.' :: join_labels (l :: ls)) :: suffix_wildcards ls

/-- The candidates the specification names for the host `l1.l2.....ln`: the exact
host, then `*.l2.....ln`, each shorter suffix down to `*.ln`, then `*`. -/
def spec_candidates : List (List Char) → List (List Char)
  | [] => []
  | l :: ls => join_labels (l :: ls) :: (suffix_wildcards ls ++ [['*']])

/-- The events of a trace that follow the substitution of the fallback hostname. -/
def after_fallback : List Event → List Event
  | [] => []
  | Event.fallback _ :: tr => tr
  | _ :: tr => after_fallback tr

/-- A label of a hostname: not empty, and free of dots and of NUL. -/
def valid_label (l : List Char) : Prop := l ≠ [] ∧ NUL ∉ l ∧ '.' ∉ l

/-- The request record has what a virtual host needs: name, home and directory, and
with a uid also a gid and a username. -/
def valid_request (reqc : mod_vhost_ldap_request_t) : Prop :=
  reqc.name ≠ none ∧ reqc.home ≠ none ∧ reqc.directory ≠ none ∧
    (reqc.uid ≠ none → reqc.gid ≠ none ∧ reqc.username ≠ none)

/-- Every directive is accepted by the configuration system. -/
def accepts_all (env : Env) : Prop := ∀ n dir args, env.ap_process_config_tree n dir args = 0

instance : DecidablePred valid_label := fun l => by
  unfold valid_label
  infer_instance

instance : DecidablePred valid_request := fun reqc => by
  unfold valid_request
  infer_instance

/-! ## Retries on a trace -/

/-- For every sleep of a trace, in order: the candidate whose search came last before
the sleep (`last` when there was none) and the candidate of the first search after it,
if there is one. -/
def retries_from (last : List Char) : List Event → List (List Char × Option (List Char))
  | [] => []
  | Event.search hostname _ :: tr => retries_from hostname tr
  | Event.sleep _ :: tr => (last, (searched_hostnames tr).head?) :: retries_from last tr
  | _ :: tr => retries_from last tr

/-- The retries of a whole trace. -/
def retries (tr : List Event) : List (List Char × Option (List Char)) := retries_from [] tr

/-- The first hostname of the list, if there is one, is `host`. -/
def first_is (host : List Char) (l : List (List Char)) : Prop :=
  ∀ x, l.head? = some x → x = host

/-- Every search that comes first after a sleep is for `host`. -/
def retries_for (host : List Char) : List Event → Prop
  | [] => True
  | Event.sleep _ :: tr => first_is host (searched_hostnames tr) ∧ retries_for host tr
  | _ :: tr => retries_for host tr

/-- Some sleep of the trace has no search after it yet. -/
def pending : List Event → Bool
  | [] => false
  | Event.sleep _ :: tr => (searched_hostnames tr).isEmpty || pending tr
  | _ :: tr => pending tr

/-! ## The outcome of a search -/

/-- The results after which the lookup goes on to another search or to the label `null`:
the transient ones and no-such-object. -/
def continues (result : ldap_result) : Bool :=
  is_transient result || decide (result = ldap_result.LDAP_NO_SUCH_OBJECT)

/-- The results that are neither success, nor no-such-object, nor transient. -/
def is_fatal (result : ldap_result) : Bool :=
  !continues result && !decide (result = ldap_result.LDAP_SUCCESS)

/-- The number of searches recorded in a trace. -/
def search_count (tr : List Event) : Nat := (searched_hostnames tr).length

/-- What the result of each search of a finished lookup means for the lookup, `server`
being the new virtual host.  No directive comes before a search.  A search with a fatal
result is followed by its close only, and the lookup returns
`HTTP_INTERNAL_SERVER_ERROR` with `*serverp` as it was.  A search that succeeds is
followed by the configuration of its entry, which is what the lookup returns. -/
def search_outcome (env : Env) (serverp server : server_rec) (r : lookup_result) : Prop :=
  ∀ pre h f post, r.trace = pre ++ Event.search h f :: post →
    directives pre = [] ∧
    (is_fatal (env.util_ldap_cache_getuserdn (search_count pre) f).result = true →
      post = [Event.connection_close] ∧ r.code = HTTP_INTERNAL_SERVER_ERROR ∧
        r.serverp = serverp) ∧
    ((env.util_ldap_cache_getuserdn (search_count pre) f).result = ldap_result.LDAP_SUCCESS →
      r = configure_vhost env serverp server
        (load_request (env.util_ldap_cache_getuserdn (search_count pre) f).dn
          (env.util_ldap_cache_getuserdn (search_count pre) f).vals)
        (pre ++ [Event.search h f, Event.connection_close]))

/-- The locals of a lookup that is still running: `searches` counts the searches of the
trace, no directive has been processed, and every search so far had a result after which
the lookup goes on. -/
def searches_continue (env : Env) (st : Locals) : Prop :=
  st.searches = search_count st.trace ∧ directives st.trace = [] ∧
    ∀ pre h f post, st.trace = pre ++ Event.search h f :: post →
      continues (env.util_ldap_cache_getuserdn (search_count pre) f).result = true

/-- The server reference of `r` is the new virtual host `server`, stored by one more
`fixup_virtual_host` than the `base` there were, when the status is `OK`; otherwise it is
`serverp` and no `fixup_virtual_host` was added. -/
def replaced_iff_ok (serverp server : server_rec) (base : Nat) (r : lookup_result) : Prop :=
  (r.code = OK → r.serverp = server ∧ r.trace.count Event.fixup_virtual_host = base + 1) ∧
    (r.code ≠ OK → r.serverp = serverp ∧ r.trace.count Event.fixup_virtual_host = base)

/-- The statuses `ap_process_config_tree` of the host server has: `OK` for a directive
it accepted and `HTTP_INTERNAL_SERVER_ERROR` for one in error. -/
def directive_contract (env : Env) : Prop :=
  ∀ n dir args, env.ap_process_config_tree n dir args = OK ∨
    env.ap_process_config_tree n dir args = HTTP_INTERNAL_SERVER_ERROR

/-- The status of a lookup that stopped on an incomplete entry: never `OK`, and 500 when
the configuration system keeps to its statuses. -/
def incomplete_status (env : Env) (r : lookup_result) : Prop :=
  r.code ≠ OK ∧ (directive_contract env → r.code = HTTP_INTERNAL_SERVER_ERROR)

/-! ### What the specification says of the directives -/

/-- The document root as the specification words it: `<home>/web_scripts` if the
relative directory is `.`, else `<home>/web_scripts/<relative directory>`. -/
def spec_docroot (home directory : List Char) : List Char :=
  if directory = ".".toList then home ++ "/web_scripts".toList
  else home ++ "/web_scripts/".toList ++ directory

/-- The directives the specification lists for the record of a virtual host, in its
order, each with its argument string: values are escaped and put between single
quotes; the four directives of the user come only with a uid. -/
def spec_directives (reqc : mod_vhost_ldap_request_t) : List (List Char × List Char) :=
  [("ServerName".toList, "'".toList ++ escape (reqc.name.getD []) ++ "'".toList),
   ("DocumentRoot".toList,
     "'".toList ++ escape (spec_docroot (reqc.home.getD []) (reqc.directory.getD []))
       ++ "'".toList)] ++
  (match reqc.uid with
   | some uid =>
     [("SuexecUserGroup".toList,
        "'#".toList ++ escape uid ++ "' '#".toList ++ escape (reqc.gid.getD []) ++ "'".toList),
      ("UserDir".toList, "'web_scripts'".toList),
      ("UserDir".toList, "disabled".toList),
      ("UserDir".toList, "enabled '".toList ++ escape (reqc.username.getD []) ++ "'".toList)]
   | none => []) ++
  [("VhostLDAPEnabled".toList, "off".toList)]

/-- The directives of `r` are those of `tr` followed by the first `k` of `ds` for some
`k`, and by all of `ds` when the status is `OK`. -/
def applied (tr : List Event) (ds : List (List Char × List Char)) (r : lookup_result) : Prop :=
  ∃ k, directives r.trace = directives tr ++ ds.take k ∧ (r.code = OK → ds.length ≤ k)

/-- No string of the request record holds a NUL. -/
def nul_free_request (reqc : mod_vhost_ldap_request_t) : Prop :=
  (∀ s, reqc.name = some s → NUL ∉ s) ∧ (∀ s, reqc.home = some s → NUL ∉ s) ∧
  (∀ s, reqc.directory = some s → NUL ∉ s) ∧ (∀ s, reqc.uid = some s → NUL ∉ s) ∧
  (∀ s, reqc.username = some s → NUL ∉ s) ∧ (∀ s, reqc.gid = some s → NUL ∉ s)

/-- The lookup `r` is the configuration of the entry a search found: the search is in
the trace, it succeeded, and `r` is what `configure_vhost` makes of its entry. -/
def found_by (env : Env) (serverp server : server_rec) (r : lookup_result)
    (pre : List Event) (h f : List Char) : Prop :=
  (env.util_ldap_cache_getuserdn (search_count pre) f).result = ldap_result.LDAP_SUCCESS ∧
    r = configure_vhost env serverp server
      (load_request (env.util_ldap_cache_getuserdn (search_count pre) f).dn
        (env.util_ldap_cache_getuserdn (search_count pre) f).vals)
      (pre ++ [Event.search h f, Event.connection_close])

/-! ### Server configurations (lines 156-203, 324-333) -/

/-- The function `mod_vhost_ldap_merge_server_config` (lines 156-203): the configuration
of a child server merged with that of its parent. -/
def mod_vhost_ldap_merge_server_config (parent child : mod_vhost_ldap_config_t) :
    mod_vhost_ldap_config_t :=
  { enabled :=
      if child.enabled = mod_vhost_ldap_status_e.MVL_UNSET then parent.enabled
      else child.enabled,
    have_ldap_url := if child.have_ldap_url ≠ 0 then child.have_ldap_url else parent.have_ldap_url,
    url := if child.have_ldap_url ≠ 0 then child.url else parent.url,
    host := if child.have_ldap_url ≠ 0 then child.host else parent.host,
    port := if child.have_ldap_url ≠ 0 then child.port else parent.port,
    basedn := if child.have_ldap_url ≠ 0 then child.basedn else parent.basedn,
    scope := if child.have_ldap_url ≠ 0 then child.scope else parent.scope,
    filter := if child.have_ldap_url ≠ 0 then child.filter else parent.filter,
    secure := if child.have_ldap_url ≠ 0 then child.secure else parent.secure,
    have_deref := if child.have_deref ≠ 0 then child.have_deref else parent.have_deref,
    deref := if child.have_deref ≠ 0 then child.deref else parent.deref,
    binddn := if child.binddn.isSome then child.binddn else parent.binddn,
    bindpw := if child.bindpw.isSome then child.bindpw else parent.bindpw,
    fallback := if child.fallback.isSome then child.fallback else parent.fallback }

/-- The function `mod_vhost_ldap_set_enabled` (lines 324-333), the handler of the flag
directive `VhostLDAPEnabled`: `enabled` is the flag, non-zero for `on`. -/
def mod_vhost_ldap_set_enabled (conf : mod_vhost_ldap_config_t) (enabled : Int) :
    mod_vhost_ldap_config_t :=
  { conf with enabled :=
      if enabled ≠ 0 then mod_vhost_ldap_status_e.MVL_ENABLED
      else mod_vhost_ldap_status_e.MVL_DISABLED }

/-- Every search of the trace was made with the filter line 542 composes for its
candidate from the value the directory library escaped. -/
def filters_composed (env : Env) (conf : mod_vhost_ldap_config_t) (tr : List Event) : Prop :=
  ∀ h f, Event.search h f ∈ tr →
    ∃ shostname, env.ldap_bv2escaped_filter_value (cstr h) = some shostname ∧
      f = build_filter env.FILTER_LENGTH conf.filter shostname

/-- The text line 542 formats, before `apr_snprintf` cuts it to the size of `filtbuf`. -/
def filter_text (filter shostname : Option (List Char)) : List Char :=
  "(&(".toList ++ fmt_s filter ++ ")(|(scriptsVhostName=".toList ++ fmt_s shostname
    ++ ")(scriptsVhostAlias=".toList ++ fmt_s shostname ++ ")))".toList

/-- The example configuration with a configured filter of 8192 bytes. -/
def example_conf_long_filter : mod_vhost_ldap_config_t :=
  { example_conf with filter := some (List.replicate 8192 'x') }

/-! ### The buffer of `escape` -/

/-- The number of bytes of a string that `escape` prefixes with a backslash. -/
def escape_occurrences (s : List Char) : Nat := s.countP fun c => c = '\'' ∨ c = '\\'

/-- The offsets of `output` written by the copying loop of `escape` (lines 412-418) and
by the terminator after it (line 419), in the order written; `z` is the offset the
pointer `z` has in `output`.  An iteration writes the backslash at `z` and the `k` bytes
of `memcpy(z, x, k)` after it. -/
def escape_loop_writes : Nat → List Char → Nat → List Nat
  | 0, _, z => [z]
  | _ + 1, [], z => [z]
  | fuel + 1, c :: rest, z =>
    if c = NUL then [z]
    else
      let k := strcspn rest to_escape + 1
      z :: List.range' (z + 1) k ++ escape_loop_writes fuel ((c :: rest).drop k) (z + 1 + k)

/-- The offsets of `output` that `escape` writes, in the order written: those of
`memcpy(output, input, x - input)` (line 410), then those of the loop and of the
terminator; `none` when the input is returned and nothing is written. -/
def escape_writes (input : List Char) : Option (List Nat) :=
  let x := input.drop (strcspn input to_escape)
  if at_end x then none
  else some (List.range (strcspn input to_escape)
    ++ escape_loop_writes input.length x (strcspn input to_escape))

/-- The lookup `r` ended on a directive the configuration system refused: the last event
of the trace is that directive, and the status returned is the non-zero status the
directive got. -/
def refused_last (env : Env) (r : lookup_result) : Prop :=
  ∃ dir args, r.trace.getLast? = some (Event.directive dir args) ∧
    r.code = reconfigure_directive env ((directives r.trace).length - 1) dir args ∧ r.code ≠ 0

/-- The example environment with a configuration system that refuses the directive
number `refused` with `status` and accepts every other one. -/
def refusing_env (answers : Nat → search_result) (refused : Nat) (status : Int) : Env :=
  { FILTER_LENGTH := 8192,
    ap_init_virtual_host := fun _ => some ⟨1⟩,
    ldap_bv2escaped_filter_value := example_filter_escape,
    util_ldap_cache_getuserdn := fun n _ => answers n,
    ap_process_config_tree := fun n _ _ => if n = refused then status else 0 }

/-! ### The retry budget -/

/-- The number of searches of a trace that ended in a transient failure, the first search
of the trace being search number `i` of the lookup. -/
def transient_failures (env : Env) : Nat → List Event → Nat
  | _, [] => 0
  | i, Event.search _ filtbuf :: tr =>
    (if is_transient (env.util_ldap_cache_getuserdn i filtbuf).result then 1 else 0)
      + transient_failures env (i + 1) tr
  | i, _ :: tr => transient_failures env i tr

/-- The locals of a running lookup account for its trace: `searches` counts the
searches, `failures` the transient failures among them, which are at most
`MAX_FAILURES`, and every transient failure so far was followed by a sleep. -/
def within_budget (env : Env) (st : Locals) : Prop :=
  st.searches = search_count st.trace ∧ st.failures = transient_failures env 0 st.trace ∧
    st.failures ≤ MAX_FAILURES ∧ (sleeps st.trace).length = st.failures

/-- How a finished lookup used its retry budget: either it saw a sixth transient
failure, slept five times and returned `HTTP_GATEWAY_TIME_OUT`; or it saw at most five,
slept once after each, and did not return `HTTP_GATEWAY_TIME_OUT`, unless it ended on a
refused directive that got that status. -/
def budget_outcome (env : Env) (r : lookup_result) : Prop :=
  (transient_failures env 0 r.trace = MAX_FAILURES + 1 ∧ r.code = HTTP_GATEWAY_TIME_OUT ∧
      (sleeps r.trace).length = MAX_FAILURES) ∨
    (transient_failures env 0 r.trace ≤ MAX_FAILURES ∧
      (sleeps r.trace).length = transient_failures env 0 r.trace ∧
      (r.code = HTTP_GATEWAY_TIME_OUT → refused_last env r))

/-! ### The measure of the wildcard step -/

/-- The number of dots of a hostname. -/
def dots (hostname : List Char) : Nat := (cstr hostname).count '.'

/-- The measure the wildcard step decreases: 0 for `*`, the number of dots for a hostname
that starts with `*.`, and one more for any other hostname. -/
def dot_measure (hostname : List Char) : Nat :=
  if streq hostname "*".toList then 0
  else if strneq hostname "*.".toList 2 then dots hostname
  else dots hostname + 1

/-! ### What the specification says of the directory connection -/

/-- The state of the directory connection of a lookup: none held, one acquired and not
yet searched on, or one searched on and not yet released. -/
inductive connection_state
  | idle
  | acquired
  | searched
  deriving DecidableEq

/-- The acquire-search-release discipline as the specification words it, checked along
a trace from a connection state on: a connection is acquired (`connection_find`) only
when none is held, a search is made only on a connection acquired for it and not
searched on before, a release (`connection_close`) releases a held connection, a sleep
is taken only with no connection held, and none is held at the end. -/
def acquire_search_release : connection_state → List Event → Bool
  | s, [] => s = connection_state.idle
  | s, Event.connection_find :: tr =>
    s = connection_state.idle && acquire_search_release connection_state.acquired tr
  | s, Event.search _ _ :: tr =>
    s = connection_state.acquired && acquire_search_release connection_state.searched tr
  | s, Event.connection_close :: tr =>
    s ≠ connection_state.idle && acquire_search_release connection_state.idle tr
  | s, Event.sleep _ :: tr =>
    s = connection_state.idle && acquire_search_release s tr
  | s, _ :: tr => acquire_search_release s tr

/-- The events of a trace that concern the directory connection. -/
def connection_events (tr : List Event) : List Event :=
  tr.filter fun e =>
    match e with
    | Event.connection_find => true
    | Event.search _ _ => true
    | Event.connection_close => true
    | Event.sleep _ => true
    | _ => false

/-- What holds of the locals whenever the lookup stands at the label `l`: they account
for the trace (`within_budget`), no directive has been processed, `sleep0` and `sleep1`
are the Fibonacci numbers the number of failures selects, the sleeps taken are the first
ones of 1, 2, 3, 5, 8, and past `start_over` the LDAP host is configured. -/
def sound_locals (env : Env) (conf : mod_vhost_ldap_config_t) (l : Label) (st : Locals) :
    Prop :=
  within_budget env st ∧ directives st.trace = [] ∧
    st.sleep0 = Nat.fib st.failures ∧ st.sleep1 = Nat.fib (st.failures + 1) ∧
    sleeps st.trace = ([1, 2, 3, 5, 8] : List Nat).take st.failures ∧
    (l ≠ Label.start_over → conf.host ≠ none)

/-! ## Theorems -/

theorem NUL_ne_quote : NUL ≠ '\'' := by decide

theorem NUL_ne_backslash : NUL ≠ '\\' := by decide

theorem mem_to_escape (c : Char) : c ∈ to_escape ↔ (c = '\'' ∨ c = '\\') := by
  simp [to_escape]

theorem cstr_of_nul_free (s : List Char) (h : NUL ∉ s) : cstr s = s := by
  induction s with
  | nil => rfl
  | cons c cs ih =>
    have hc : c ≠ NUL := fun e => h (by simp [e])
    have hcs : NUL ∉ cs := fun e => h (by simp [e])
    simp [cstr, hc, ih hcs]

theorem strcspn_le (s reject : List Char) : strcspn s reject ≤ s.length := by
  induction s with
  | nil => simp [strcspn]
  | cons c cs ih =>
    by_cases hc : c = NUL ∨ c ∈ reject
    · simp [strcspn, hc]
    · simp [strcspn, hc, ih]

/-- The run `strcspn` skips holds no byte to escape, so the specification copies it. -/
theorem escape_spec_split (s : List Char) (h : NUL ∉ s) :
    escape_spec s = s.take (strcspn s to_escape) ++ escape_spec (s.drop (strcspn s to_escape)) := by
  induction s with
  | nil => simp [strcspn, escape_spec]
  | cons c cs ih =>
    have hc : c ≠ NUL := fun e => h (by simp [e])
    have hcs : NUL ∉ cs := fun e => h (by simp [e])
    by_cases hm : c = '\'' ∨ c = '\\'
    · have : c = NUL ∨ c ∈ to_escape := Or.inr ((mem_to_escape c).2 hm)
      simp [strcspn, this]
    · have hn : ¬ (c = NUL ∨ c ∈ to_escape) := by
        rw [mem_to_escape]; tauto
      simp only [strcspn, hn, if_false, List.take_succ_cons, List.drop_succ_cons, escape_spec, hm,
        List.cons_append]
      rw [← ih hcs]

/-- Where `strcspn` stops in a NUL-free string is the end or a byte to escape. -/
theorem strcspn_stop (s : List Char) (h : NUL ∉ s) :
    s.drop (strcspn s to_escape) = [] ∨
      ∃ c rest, s.drop (strcspn s to_escape) = c :: rest ∧ (c = '\'' ∨ c = '\\') := by
  induction s with
  | nil => simp [strcspn]
  | cons c cs ih =>
    have hc : c ≠ NUL := fun e => h (by simp [e])
    have hcs : NUL ∉ cs := fun e => h (by simp [e])
    by_cases hm : c = '\'' ∨ c = '\\'
    · have : c = NUL ∨ c ∈ to_escape := Or.inr ((mem_to_escape c).2 hm)
      right
      exact ⟨c, cs, by simp [strcspn, this], hm⟩
    · have hn : ¬ (c = NUL ∨ c ∈ to_escape) := by
        rw [mem_to_escape]; tauto
      simpa [strcspn, hn] using ih hcs

theorem nul_free_drop (s : List Char) (n : Nat) (h : NUL ∉ s) : NUL ∉ s.drop n :=
  fun e => h (List.mem_of_mem_drop e)

/-- The copying loop, started at the end or at a byte to escape with enough fuel, appends
the specified escaping of what is left. -/
theorem escape_copy_spec (fuel : Nat) : ∀ (x output : List Char), NUL ∉ x → x.length ≤ fuel →
    (x = [] ∨ ∃ c rest, x = c :: rest ∧ (c = '\'' ∨ c = '\\')) →
    escape_copy fuel x output = output ++ escape_spec x := by
  induction fuel with
  | zero =>
    intro x output _ hl _
    have : x = [] := List.length_eq_zero.mp (Nat.le_zero.mp hl)
    subst this
    simp [escape_copy, escape_spec]
  | succ n ih =>
    intro x output hx hl hs
    rcases hs with rfl | ⟨c, rest, rfl, hm⟩
    · simp [escape_copy, escape_spec]
    · have hc : c ≠ NUL := fun e => hx (by simp [e])
      have hrest : NUL ∉ rest := fun e => hx (by simp [e])
      have hlen : (rest.drop (strcspn rest to_escape)).length ≤ n := by
        simp only [List.length_cons] at hl
        simp only [List.length_drop]
        omega
      simp only [escape_copy, hc, if_false, List.drop_succ_cons, List.take_succ_cons]
      rw [ih _ _ (nul_free_drop _ _ hrest) hlen (strcspn_stop rest hrest)]
      simp only [escape_spec, hm, if_true]
      rw [escape_spec_split rest hrest]
      simp

theorem escape_eq_spec (s : List Char) (h : NUL ∉ s) : escape s = escape_spec s := by
  unfold escape
  rcases strcspn_stop s h with hd | ⟨c, rest, hd, hm⟩
  · have ht : s.take (strcspn s to_escape) = s := by
      have := List.take_append_drop (strcspn s to_escape) s
      rw [hd, List.append_nil] at this
      exact this
    have hs := escape_spec_split s h
    rw [hd, ht] at hs
    simp only [hd, at_end, if_true, cstr_of_nul_free s h]
    simpa [escape_spec] using hs.symm
  · have hc : c ≠ NUL := by
      rcases hm with rfl | rfl
      · exact fun e => NUL_ne_quote e.symm
      · exact fun e => NUL_ne_backslash e.symm
    have hx : NUL ∉ c :: rest := hd ▸ nul_free_drop s _ h
    have hl : (c :: rest).length ≤ s.length := by
      rw [← hd, List.length_drop]
      omega
    simp only [hd, at_end, hc, decide_False, Bool.false_eq_true, if_false]
    rw [escape_copy_spec s.length (c :: rest) _ hx hl (Or.inr ⟨c, rest, rfl, hm⟩)]
    rw [← hd]
    exact (escape_spec_split s h).symm

theorem escape_spec_id (s : List Char) (h : ∀ c ∈ s, c ≠ '\'' ∧ c ≠ '\\') : escape_spec s = s := by
  induction s with
  | nil => rfl
  | cons c cs ih =>
    have hc : ¬ (c = '\'' ∨ c = '\\') := by
      have := h c (by simp)
      tauto
    simp [escape_spec, hc, ih (fun d hd => h d (by simp [hd]))]

theorem unquote_escape_spec (s rest : List Char) :
    unquote_arg (escape_spec s ++ '\'' :: rest) = some (s, rest) := by
  induction s with
  | nil => cases rest <;> simp [escape_spec, unquote_arg]
  | cons c cs ih =>
    by_cases hm : c = '\'' ∨ c = '\\'
    · simp [escape_spec, hm, unquote_arg, ih]
    · have h1 : c ≠ '\'' := fun e => hm (Or.inl e)
      have h2 : c ≠ '\\' := fun e => hm (Or.inr e)
      have hne : ∃ d ds, escape_spec cs ++ '\'' :: rest = d :: ds := by
        cases h : escape_spec cs ++ '\'' :: rest with
        | nil => simp at h
        | cons d ds => exact ⟨d, ds, rfl⟩
      obtain ⟨d, ds, hd⟩ := hne
      simp only [escape_spec, hm, if_false, List.cons_append]
      rw [hd, unquote_arg, ← hd, ih]
      simp [h1, h2]

/-- C1: for a NUL-free string `s`, `escape s` is `s` with one backslash put in front of
every quote and every backslash and every other byte copied in order; a string with
neither comes back as it is. -/
theorem escape_inserts_backslashes (s : List Char) (h : NUL ∉ s) :
    escape s = escape_spec s ∧ ((∀ c ∈ s, c ≠ '\'' ∧ c ≠ '\\') → escape s = s) :=
  ⟨escape_eq_spec s h, fun hs => (escape_eq_spec s h).trans (escape_spec_id s hs)⟩

/-- C1, witness: `it's\path` becomes `it\'s\\path`, and `web_scripts` comes back as
it is. -/
theorem escape_inserts_backslashes_witness :
    NUL ∉ "it's\\path".toList ∧
      escape "it's\\path".toList = "it\\'s\\\\path".toList ∧
      escape "web_scripts".toList = "web_scripts".toList :=
  ⟨by decide,
   (escape_inserts_backslashes "it's\\path".toList (by decide)).1.trans (by decide),
   (escape_inserts_backslashes "web_scripts".toList (by decide)).2 (by decide)⟩

/-- C2: round trip.  For a NUL-free string `s`, the directive layer reading
`escape s` followed by the closing quote reads back exactly `s` and stops at that closing
quote, so no quote inside `escape s` ends the argument early. -/
theorem escape_round_trip (s : List Char) (h : NUL ∉ s) (rest : List Char) :
    unquote_arg (escape s ++ '\'' :: rest) = some (s, rest) := by
  rw [escape_eq_spec s h]
  exact unquote_escape_spec s rest

/-- C2, witness: the round trip of `it's\path`. -/
theorem escape_round_trip_witness :
    NUL ∉ "it's\\path".toList ∧
      unquote_arg (escape "it's\\path".toList ++ '\'' :: " next".toList)
        = some ("it's\\path".toList, " next".toList) :=
  ⟨by decide, escape_round_trip "it's\\path".toList (by decide) " next".toList⟩


/-! ### The lookup loop: fuel and termination -/

theorem lookup_from_mono (env : Env) (conf : mod_vhost_ldap_config_t) (host : Option (List Char))
    (serverp server : server_rec) (n : Nat) : ∀ (label : Label) (st : Locals) (r : lookup_result),
    lookup_from env conf host serverp server n label st = some r →
    ∀ k, lookup_from env conf host serverp server (n + k) label st = some r := by
  induction n with
  | zero => intro label st r h; simp [lookup_from] at h
  | succ n ih =>
    intro label st r h k
    rw [Nat.add_right_comm]
    simp only [lookup_from] at h ⊢
    cases hs : lookup_step env conf host serverp server label st with
    | ret r' => rw [hs] at h; exact h
    | goto l' st' => rw [hs] at h; exact ih l' st' r h k

theorem lookup_from_agree (env : Env) (conf : mod_vhost_ldap_config_t) (host : Option (List Char))
    (serverp server : server_rec) (n m : Nat) (label : Label) (st : Locals)
    (r r' : lookup_result)
    (h : lookup_from env conf host serverp server n label st = some r)
    (h' : lookup_from env conf host serverp server m label st = some r') : r = r' := by
  have h1 := lookup_from_mono env conf host serverp server n label st r h m
  have h2 := lookup_from_mono env conf host serverp server m label st r' h' n
  rw [Nat.add_comm] at h2
  rw [h1] at h2
  exact Option.some.inj h2

theorem cstr_length_le (s : List Char) : (cstr s).length ≤ s.length := by
  induction s with
  | nil => simp [cstr]
  | cons c cs ih =>
    by_cases hc : c = NUL
    · simp [cstr, hc]
    · simp [cstr, hc, ih]

/-- After `strcspn` the string is at its end or at a byte of `reject`. -/
theorem cstr_drop_strcspn (s reject : List Char) :
    cstr (s.drop (strcspn s reject)) = [] ∨
      ∃ c t, cstr (s.drop (strcspn s reject)) = c :: t ∧ c ∈ reject := by
  induction s with
  | nil => simp [strcspn, cstr]
  | cons c cs ih =>
    by_cases hc : c = NUL
    · simp [strcspn, hc, cstr]
    · by_cases hm : c ∈ reject
      · right
        exact ⟨c, cstr cs, by simp [strcspn, hm, cstr, hc], hm⟩
      · simpa [strcspn, hc, hm] using ih

theorem cstr_idem (s : List Char) : cstr (cstr s) = cstr s := by
  induction s with
  | nil => simp [cstr]
  | cons c cs ih =>
    by_cases hc : c = NUL
    · simp [cstr, hc]
    · simp [cstr, hc, ih]

theorem streq_star (h : List Char) : streq h "*".toList = decide (cstr h = ['*']) := rfl

theorem strneq_star_dot (h : List Char) :
    strneq h "*.".toList 2 = decide ((cstr h).take 2 = ['*', '.']) := rfl

theorem mem_dot (c : Char) : c ∈ ".".toList ↔ c = '.' := by
  have : ".".toList = ['.'] := rfl
  simp [this]

theorem host_measure_eq (h : List Char) :
    host_measure h = if cstr h = ['*'] then 0
      else if (cstr h).take 2 = ['*', '.'] then h.length else h.length + 2 := by
  unfold host_measure
  rw [streq_star, strneq_star_dot]
  simp

theorem wildcard_eq (h : List Char) :
    wildcard h = '*' :: cstr
      ((if (cstr h).take 2 = ['*', '.'] then h.drop 2 else h).drop
        (strcspn (if (cstr h).take 2 = ['*', '.'] then h.drop 2 else h) ".".toList)) := by
  unfold wildcard apr_pstrcat2
  rw [strneq_star_dot]
  have : cstr "*".toList = ['*'] := by decide
  rw [this]
  simp

theorem take_two_length (h : List Char) (hs : (cstr h).take 2 = ['*', '.']) : 2 ≤ h.length := by
  have h2 : ((cstr h).take 2).length = 2 := by rw [hs]; rfl
  have h3 := cstr_length_le h
  rw [List.length_take] at h2
  omega

theorem host_measure_pos (h : List Char) (hne : cstr h ≠ ['*']) : 0 < host_measure h := by
  rw [host_measure_eq, if_neg hne]
  by_cases hs : (cstr h).take 2 = ['*', '.']
  · rw [if_pos hs]; have := take_two_length h hs; omega
  · rw [if_neg hs]; omega

/-- The measure of `'*' :: cstr q` where `q` is where `strcspn` stopped looking for a dot. -/
theorem host_measure_wild (p : List Char) :
    host_measure ('*' :: cstr (p.drop (strcspn p ".".toList))) ≤ p.length + 1 := by
  have hs : ('*' : Char) ≠ NUL := by decide
  have hd : ('.' : Char) ≠ NUL := by decide
  have hlen := cstr_length_le (p.drop (strcspn p ".".toList))
  have hidem := cstr_idem (p.drop (strcspn p ".".toList))
  rw [List.length_drop] at hlen
  rcases cstr_drop_strcspn p ".".toList with he | ⟨c, t, he, hc⟩
  · rw [he, host_measure_eq]
    simp [cstr, hs]
  · rw [he] at hlen hidem ⊢
    have hc' : c = '.' := (mem_dot c).1 hc
    subst hc'
    have ht : cstr t = t := by simpa [cstr, hd] using hidem
    rw [host_measure_eq]
    simp only [List.length_cons] at hlen
    simp [cstr, hs, hd, ht]
    omega

theorem wildcard_measure (h : List Char) (hne : cstr h ≠ ['*']) :
    host_measure (wildcard h) < host_measure h := by
  rw [wildcard_eq]
  by_cases hs : (cstr h).take 2 = ['*', '.']
  · have hl := take_two_length h hs
    have := host_measure_wild (h.drop 2)
    rw [List.length_drop] at this
    rw [if_pos hs, host_measure_eq h, if_neg hne, if_pos hs]
    omega
  · have := host_measure_wild h
    rw [if_neg hs, host_measure_eq h, if_neg hne, if_neg hs]
    omega

theorem host_measure_le (h : List Char) : host_measure h ≤ h.length + 2 := by
  rw [host_measure_eq]
  split_ifs <;> omega

theorem null_cost_le (conf : mod_vhost_ldap_config_t) (st : Locals) :
    null_cost conf st ≤ opt_length conf.fallback + 5 := by
  unfold null_cost
  split_ifs
  · cases hf : conf.fallback with
    | none => simp
    | some fb =>
      have := host_measure_le fb
      simp only [opt_length]
      omega
  · omega

theorem lookup_step_decreases (env : Env) (conf : mod_vhost_ldap_config_t)
    (host : Option (List Char)) (serverp server : server_rec) (label label' : Label)
    (st st' : Locals)
    (h : lookup_step env conf host serverp server label st = Step.goto label' st') :
    lookup_measure conf host label' st' < lookup_measure conf host label st := by
  cases label with
  | start_over =>
    simp only [lookup_step] at h
    cases hh : conf.host with
    | none => simp [hh] at h
    | some ch =>
      simp only [hh] at h
      have hn := null_cost_le conf st
      cases hhost : host with
      | none =>
        subst hhost
        simp only [Step.goto.injEq] at h
        obtain ⟨rfl, rfl⟩ := h
        simp only [lookup_measure, pass_bound, opt_length, null_cost] at hn ⊢
        omega
      | some hostname =>
        subst hhost
        simp only at h
        split_ifs at h
        · simp only [Step.goto.injEq] at h
          obtain ⟨rfl, rfl⟩ := h
          simp only [lookup_measure, pass_bound, opt_length, null_cost] at hn ⊢
          omega
        · simp only [Step.goto.injEq] at h
          obtain ⟨rfl, rfl⟩ := h
          have := host_measure_le hostname
          simp only [lookup_measure, pass_bound, opt_length, null_cost] at hn ⊢
          omega
  | fallback hostname =>
    simp only [lookup_step] at h
    cases he : env.ldap_bv2escaped_filter_value (cstr hostname) with
    | none =>
      simp only [he, Step.goto.injEq] at h
      obtain ⟨rfl, rfl⟩ := h
      simp only [lookup_measure]
      omega
    | some shostname =>
      simp only [he] at h
      split_ifs at h with h1 h2 h3 h4 h5
      · simp only [Step.goto.injEq] at h
        obtain ⟨rfl, rfl⟩ := h
        simp only [lookup_measure]
        have e : MAX_FAILURES - st.failures = (MAX_FAILURES - (st.failures + 1)) + 1 := by
          simp only at h2; omega
        rw [e, Nat.add_mul, Nat.one_mul]
        omega
      · simp only [Step.goto.injEq] at h
        obtain ⟨rfl, rfl⟩ := h
        have hne : cstr hostname ≠ ['*'] := by
          intro hc
          rw [streq_star] at h4
          simp [hc] at h4
        have := wildcard_measure hostname hne
        simp only [lookup_measure, null_cost]
        omega
      · simp only [Step.goto.injEq] at h
        obtain ⟨rfl, rfl⟩ := h
        simp only [lookup_measure, null_cost]
        omega
  | null =>
    simp only [lookup_step] at h
    cases hf : conf.fallback with
    | none => simp [hf] at h
    | some fb =>
      simp only [hf] at h
      split_ifs at h with h1
      simp only [Step.goto.injEq] at h
      obtain ⟨rfl, rfl⟩ := h
      have h0 : st.is_fallback = 0 := by omega
      simp only [lookup_measure, null_cost, hf, h0]
      simp

theorem lookup_from_terminates (env : Env) (conf : mod_vhost_ldap_config_t)
    (host : Option (List Char)) (serverp server : server_rec) (n : Nat) :
    ∀ (label : Label) (st : Locals), lookup_measure conf host label st < n →
    ∃ r, lookup_from env conf host serverp server n label st = some r := by
  induction n with
  | zero => intro label st h; omega
  | succ n ih =>
    intro label st h
    simp only [lookup_from]
    cases hs : lookup_step env conf host serverp server label st with
    | ret r => exact ⟨r, rfl⟩
    | goto l' st' =>
      have := lookup_step_decreases env conf host serverp server label l' st st' hs
      exact ih l' st' (by omega)

/-- The lookup always returns: the fuel it runs with is never used up. -/
theorem lookup_returns (env : Env) (conf : mod_vhost_ldap_config_t)
    (host : Option (List Char)) (serverp : server_rec) :
    ∃ r, mod_vhost_ldap_lookup_vhost env conf host serverp = some r := by
  unfold mod_vhost_ldap_lookup_vhost
  split_ifs
  · exact ⟨_, rfl⟩
  · cases hi : env.ap_init_virtual_host serverp with
    | none => exact ⟨_, rfl⟩
    | some server =>
      apply lookup_from_terminates
      simp [lookup_measure, lookup_fuel, initial_locals, Nat.add_mul]
      omega

/-- To know what the lookup returns it is enough to run its loop with any fuel that
reaches a return. -/
theorem lookup_eq_of_run (env : Env) (conf : mod_vhost_ldap_config_t)
    (host : Option (List Char)) (serverp server : server_rec) (r : lookup_result) (n : Nat)
    (hen : conf.enabled = mod_vhost_ldap_status_e.MVL_ENABLED) (hurl : conf.have_ldap_url ≠ 0)
    (hinit : env.ap_init_virtual_host serverp = some server)
    (h : lookup_from env conf host serverp server n Label.start_over initial_locals = some r) :
    mod_vhost_ldap_lookup_vhost env conf host serverp = some r := by
  obtain ⟨r', hr'⟩ := lookup_returns env conf host serverp
  have hr := hr'
  unfold mod_vhost_ldap_lookup_vhost at hr
  rw [if_neg (by simp [hen, hurl]), hinit] at hr
  have := lookup_from_agree env conf host serverp server _ _ _ _ _ _ hr h
  rw [hr', this]

/-- What the lookup returns when it gets past its guards is what its loop returns. -/
theorem lookup_run_of_eq (env : Env) (conf : mod_vhost_ldap_config_t)
    (host : Option (List Char)) (serverp server : server_rec) (r : lookup_result)
    (hen : conf.enabled = mod_vhost_ldap_status_e.MVL_ENABLED) (hurl : conf.have_ldap_url ≠ 0)
    (hinit : env.ap_init_virtual_host serverp = some server)
    (h : mod_vhost_ldap_lookup_vhost env conf host serverp = some r) :
    lookup_from env conf host serverp server (lookup_fuel conf host) Label.start_over
      initial_locals = some r := by
  unfold mod_vhost_ldap_lookup_vhost at h
  rw [if_neg (by simp [hen, hurl]), hinit] at h
  exact h

/-- Invariant rule for the lookup loop: a property of labels and locals that every
jump keeps, and that makes every return satisfy `P`, makes the result satisfy `P`. -/
theorem lookup_from_induct (env : Env) (conf : mod_vhost_ldap_config_t)
    (host : Option (List Char)) (serverp server : server_rec)
    (P : lookup_result → Prop) (I : Label → Locals → Prop)
    (hret : ∀ l st r, I l st → lookup_step env conf host serverp server l st = Step.ret r → P r)
    (hgoto : ∀ l st l' st', I l st →
      lookup_step env conf host serverp server l st = Step.goto l' st' → I l' st')
    (n : Nat) : ∀ (l : Label) (st : Locals) (r : lookup_result), I l st →
      lookup_from env conf host serverp server n l st = some r → P r := by
  induction n with
  | zero => intro l st r _ h; simp [lookup_from] at h
  | succ n ih =>
    intro l st r hI h
    simp only [lookup_from] at h
    cases hs : lookup_step env conf host serverp server l st with
    | ret r' =>
      rw [hs] at h
      have : r' = r := Option.some.inj h
      subst this
      exact hret l st r' hI hs
    | goto l' st' =>
      rw [hs] at h
      exact ih l' st' r (hgoto l st l' st' hI hs) h

theorem sleeps_append (a b : List Event) : sleeps (a ++ b) = sleeps a ++ sleeps b := by
  induction a with
  | nil => simp [sleeps]
  | cons e a ih => cases e <;> simp [sleeps, ih]

theorem searched_hostnames_append (a b : List Event) :
    searched_hostnames (a ++ b) = searched_hostnames a ++ searched_hostnames b := by
  induction a with
  | nil => simp [searched_hostnames]
  | cons e a ih => cases e <;> simp [searched_hostnames, ih]

theorem fallbacks_append (a b : List Event) : fallbacks (a ++ b) = fallbacks a ++ fallbacks b := by
  induction a with
  | nil => simp [fallbacks]
  | cons e a ih => cases e <;> simp [fallbacks, ih]

theorem directives_append (a b : List Event) :
    directives (a ++ b) = directives a ++ directives b := by
  induction a with
  | nil => simp [directives]
  | cons e a ih => cases e <;> simp [directives, ih]

theorem config_events_observed (ds : List Event) (h : ∀ e ∈ ds, is_config_event e = true) :
    sleeps ds = [] ∧ searched_hostnames ds = [] ∧ fallbacks ds = [] := by
  induction ds with
  | nil => simp [sleeps, searched_hostnames, fallbacks]
  | cons e ds ih =>
    have he := h e (by simp)
    have := ih (fun e' he' => h e' (by simp [he']))
    cases e <;> simp_all [is_config_event, sleeps, searched_hostnames, fallbacks]

/-- Case rule for one directive: a property of the result holds if it holds when the
directive fails and when the code after it runs. -/
theorem apply_directive_cases (Q : lookup_result → Prop) (env : Env) (serverp : server_rec)
    (n : Nat) (dir args : List Char) (tr : List Event) (rest : List Event → lookup_result)
    (hfail : ∀ code : Int, code ≠ 0 → Q ⟨code, serverp, tr ++ [Event.directive dir args]⟩)
    (hrest : reconfigure_directive env n dir args = 0 → Q (rest (tr ++ [Event.directive dir args]))) :
    Q (apply_directive env serverp n dir args tr rest) := by
  unfold apply_directive
  split_ifs with h
  · exact hfail _ h
  · exact hrest (by simpa using h)

theorem config_extends_refl (code : Int) (serverp : server_rec) (tr : List Event) :
    config_extends tr ⟨code, serverp, tr⟩ := ⟨[], by simp, by simp⟩

theorem config_extends_one (code : Int) (serverp : server_rec) (tr : List Event) (e : Event)
    (he : is_config_event e = true) : config_extends tr ⟨code, serverp, tr ++ [e]⟩ :=
  ⟨[e], rfl, by simp [he]⟩

theorem config_extends_step (tr : List Event) (e : Event) (he : is_config_event e = true)
    (r : lookup_result) (h : config_extends (tr ++ [e]) r) : config_extends tr r := by
  obtain ⟨ds, h1, h2⟩ := h
  refine ⟨e :: ds, by simp [h1], ?_⟩
  intro x hx
  rcases List.mem_cons.1 hx with rfl | hx
  · exact he
  · exact h2 x hx

theorem config_extends_directive (tr : List Event) (dir args : List Char) (r : lookup_result)
    (h : config_extends (tr ++ [Event.directive dir args]) r) : config_extends tr r :=
  config_extends_step tr (Event.directive dir args) rfl r h

theorem finish_vhost_trace (env : Env) (serverp server : server_rec) (n : Nat) (tr : List Event) :
    config_extends tr (finish_vhost env serverp server n tr) := by
  unfold finish_vhost
  apply apply_directive_cases (config_extends tr)
  · intro code _
    exact config_extends_one _ _ _ _ rfl
  · intro _
    exact config_extends_directive _ _ _ _ (config_extends_one _ _ _ _ rfl)

theorem suexec_directives_trace (env : Env) (serverp server : server_rec) (uid : List Char)
    (gid username : Option (List Char)) (tr : List Event) :
    config_extends tr (suexec_directives env serverp server uid gid username tr) := by
  unfold suexec_directives
  cases gid with
  | none => exact config_extends_refl _ _ _
  | some gid =>
    simp only
    apply apply_directive_cases (config_extends tr)
    · intro code _
      exact config_extends_one _ _ _ _ rfl
    · intro _
      apply config_extends_directive
      apply apply_directive_cases (config_extends _)
      · intro code _
        exact config_extends_one _ _ _ _ rfl
      · intro _
        apply config_extends_directive
        apply apply_directive_cases (config_extends _)
        · intro code _
          exact config_extends_one _ _ _ _ rfl
        · intro _
          apply config_extends_directive
          cases username with
          | none => exact config_extends_refl _ _ _
          | some username =>
            simp only
            apply apply_directive_cases (config_extends _)
            · intro code _
              exact config_extends_one _ _ _ _ rfl
            · intro _
              apply config_extends_directive
              exact finish_vhost_trace _ _ _ _ _

theorem configure_vhost_trace (env : Env) (serverp server : server_rec)
    (reqc : mod_vhost_ldap_request_t) (tr : List Event) :
    config_extends tr (configure_vhost env serverp server reqc tr) := by
  unfold configure_vhost
  cases reqc.name with
  | none => exact config_extends_refl _ _ _
  | some name =>
    cases reqc.home with
    | none => exact config_extends_refl _ _ _
    | some home =>
      cases reqc.directory with
      | none => exact config_extends_refl _ _ _
      | some directory =>
        simp only
        apply apply_directive_cases (config_extends tr)
        · intro code _
          exact config_extends_one _ _ _ _ rfl
        · intro _
          apply config_extends_directive
          apply apply_directive_cases (config_extends _)
          · intro code _
            exact config_extends_one _ _ _ _ rfl
          · intro _
            apply config_extends_directive
            cases reqc.uid with
            | none => exact finish_vhost_trace _ _ _ _ _
            | some uid => exact suexec_directives_trace _ _ _ _ _ _ _

theorem config_extends_observed (tr : List Event) (r : lookup_result)
    (h : config_extends tr r) :
    sleeps r.trace = sleeps tr ∧ searched_hostnames r.trace = searched_hostnames tr ∧
      fallbacks r.trace = fallbacks tr := by
  obtain ⟨ds, h1, h2⟩ := h
  obtain ⟨a, b, c⟩ := config_events_observed ds h2
  rw [h1, sleeps_append, searched_hostnames_append, fallbacks_append, a, b, c]
  simp

theorem is_transient_not_found : is_transient ldap_result.LDAP_NO_SUCH_OBJECT = false := by decide

theorem is_transient_success : is_transient ldap_result.LDAP_SUCCESS = false := by decide

theorem at_end_iff (h : List Char) : at_end h = true ↔ cstr h = [] := by
  cases h with
  | nil => simp [at_end, cstr]
  | cons c cs =>
    by_cases hc : c = NUL
    · simp [at_end, cstr, hc]
    · simp [at_end, cstr, hc]

/-- C6: a lookup under a configuration that is not enabled, or that has no LDAP URL,
returns `DECLINED` for every hostname, without any search, sleep or directive, and
leaves `*serverp` as it was. -/
theorem lookup_declined (env : Env) (conf : mod_vhost_ldap_config_t)
    (host : Option (List Char)) (serverp : server_rec)
    (h : conf.enabled ≠ mod_vhost_ldap_status_e.MVL_ENABLED ∨ conf.have_ldap_url = 0) :
    mod_vhost_ldap_lookup_vhost env conf host serverp = some ⟨DECLINED, serverp, []⟩ := by
  unfold mod_vhost_ldap_lookup_vhost
  rw [if_pos h]

/-- When every search answers no-such-object and no fallback is configured, the loop
can only return `HTTP_BAD_REQUEST`, with `*serverp` as it was. -/
theorem lookup_from_not_found (env : Env) (conf : mod_vhost_ldap_config_t)
    (host : Option (List Char)) (serverp server : server_rec)
    (hhost : conf.host ≠ none) (hfb : conf.fallback = none)
    (hnf : ∀ n f, (env.util_ldap_cache_getuserdn n f).result = ldap_result.LDAP_NO_SUCH_OBJECT)
    (n : Nat) (l : Label) (st : Locals) (r : lookup_result)
    (h : lookup_from env conf host serverp server n l st = some r) :
    r.code = HTTP_BAD_REQUEST ∧ r.serverp = serverp := by
  refine lookup_from_induct env conf host serverp server
    (fun r => r.code = HTTP_BAD_REQUEST ∧ r.serverp = serverp) (fun _ _ => True)
    ?_ ?_ n l st r trivial h
  · intro l st r _ hs
    cases l with
    | start_over =>
      simp only [lookup_step] at hs
      cases hh : conf.host with
      | none => exact absurd hh hhost
      | some ch =>
        simp only [hh] at hs
        cases host with
        | none => simp at hs
        | some hostname =>
          simp only at hs
          split_ifs at hs
    | fallback hostname =>
      simp only [lookup_step] at hs
      cases he : env.ldap_bv2escaped_filter_value (cstr hostname) with
      | none => simp [he] at hs
      | some shostname =>
        simp only [he, hnf, is_transient_not_found] at hs
        simp at hs
        split_ifs at hs
    | null =>
      simp only [lookup_step, hfb] at hs
      cases hs
      exact ⟨rfl, rfl⟩
  · intro _ _ _ _ _ _
    trivial

/-- C7: for a non-empty requested hostname, with the engine enabled and configured, no
fallback hostname and every search answering no-such-object, the lookup returns
`HTTP_BAD_REQUEST` (400) and `*serverp` is unchanged. -/
theorem lookup_not_found (env : Env) (conf : mod_vhost_ldap_config_t)
    (host : List Char) (serverp server : server_rec)
    (_hne : cstr host ≠ [])
    (hen : conf.enabled = mod_vhost_ldap_status_e.MVL_ENABLED) (hurl : conf.have_ldap_url ≠ 0)
    (hhost : conf.host ≠ none)
    (hinit : env.ap_init_virtual_host serverp = some server)
    (hfb : conf.fallback = none)
    (hnf : ∀ n f, (env.util_ldap_cache_getuserdn n f).result = ldap_result.LDAP_NO_SUCH_OBJECT) :
    ∃ r, mod_vhost_ldap_lookup_vhost env conf (some host) serverp = some r ∧
      r.code = HTTP_BAD_REQUEST ∧ r.code = 400 ∧ r.serverp = serverp := by
  obtain ⟨r, hr⟩ := lookup_returns env conf (some host) serverp
  have hrun := lookup_run_of_eq env conf (some host) serverp server r hen hurl hinit hr
  have := lookup_from_not_found env conf (some host) serverp server hhost hfb hnf _ _ _ _ hrun
  exact ⟨r, hr, this.1, this.1, this.2⟩

/-- The sleeps of the loop: the `k`-th sleep lasts `fib (k + 1)` seconds. -/
theorem lookup_from_sleeps (env : Env) (conf : mod_vhost_ldap_config_t)
    (host : Option (List Char)) (serverp server : server_rec)
    (n : Nat) (l : Label) (st : Locals) (r : lookup_result)
    (hst : st.failures ≤ 5 ∧ sleeps st.trace = ([1, 2, 3, 5, 8] : List Nat).take st.failures ∧
      st.sleep0 = Nat.fib st.failures ∧ st.sleep1 = Nat.fib (st.failures + 1))
    (h : lookup_from env conf host serverp server n l st = some r) :
    ∃ k, k ≤ 5 ∧ sleeps r.trace = ([1, 2, 3, 5, 8] : List Nat).take k := by
  refine lookup_from_induct env conf host serverp server
    (fun r => ∃ k, k ≤ 5 ∧ sleeps r.trace = ([1, 2, 3, 5, 8] : List Nat).take k)
    (fun _ st => st.failures ≤ 5 ∧ sleeps st.trace = ([1, 2, 3, 5, 8] : List Nat).take st.failures ∧
      st.sleep0 = Nat.fib st.failures ∧ st.sleep1 = Nat.fib (st.failures + 1))
    ?_ ?_ n l st r hst h
  · intro l st r ⟨hf, hsl, _, _⟩ hs
    cases l with
    | start_over =>
      simp only [lookup_step] at hs
      cases hh : conf.host with
      | none =>
        simp only [hh] at hs
        cases hs
        exact ⟨_, hf, hsl⟩
      | some ch =>
        simp only [hh] at hs
        cases host with
        | none => simp at hs
        | some hostname =>
          simp only at hs
          split_ifs at hs
    | fallback hostname =>
      simp only [lookup_step] at hs
      cases he : env.ldap_bv2escaped_filter_value (cstr hostname) with
      | none => simp [he] at hs
      | some shostname =>
        simp only [he] at hs
        split_ifs at hs
        · cases hs
          exact ⟨_, hf, by simp [sleeps_append, sleeps, hsl]⟩
        · cases hs
          exact ⟨_, hf, by simp [sleeps_append, sleeps, hsl]⟩
        · cases hs
          have := config_extends_observed _ _ (configure_vhost_trace env serverp server
            (load_request
              (env.util_ldap_cache_getuserdn st.searches
                (build_filter env.FILTER_LENGTH conf.filter shostname)).dn
              (env.util_ldap_cache_getuserdn st.searches
                (build_filter env.FILTER_LENGTH conf.filter shostname)).vals)
            (st.trace ++ [Event.search hostname
                (build_filter env.FILTER_LENGTH conf.filter shostname), Event.connection_close]))
          exact ⟨_, hf, by rw [this.1]; simp [sleeps_append, sleeps, hsl]⟩
    | null =>
      simp only [lookup_step] at hs
      cases hfb : conf.fallback with
      | none =>
        simp only [hfb] at hs
        cases hs
        exact ⟨_, hf, hsl⟩
      | some fb =>
        simp only [hfb] at hs
        split_ifs at hs
        cases hs
        exact ⟨_, hf, hsl⟩
  · intro l st l' st' ⟨hf, hsl, h0, h1⟩ hs
    cases l with
    | start_over =>
      simp only [lookup_step] at hs
      cases hh : conf.host with
      | none => simp [hh] at hs
      | some ch =>
        simp only [hh] at hs
        cases host with
        | none =>
          simp only [Step.goto.injEq] at hs
          obtain ⟨_, rfl⟩ := hs
          exact ⟨hf, by simp [sleeps_append, sleeps, hsl], h0, h1⟩
        | some hostname =>
          simp only at hs
          split_ifs at hs <;>
          · simp only [Step.goto.injEq] at hs
            obtain ⟨_, rfl⟩ := hs
            exact ⟨hf, by simp [sleeps_append, sleeps, hsl], h0, h1⟩
    | fallback hostname =>
      simp only [lookup_step] at hs
      cases he : env.ldap_bv2escaped_filter_value (cstr hostname) with
      | none =>
        simp only [he, Step.goto.injEq] at hs
        obtain ⟨_, rfl⟩ := hs
        exact ⟨hf, hsl, h0, h1⟩
      | some shostname =>
        simp only [he] at hs
        split_ifs at hs with _ hlt
        · simp only [Step.goto.injEq] at hs
          obtain ⟨_, rfl⟩ := hs
          simp only [MAX_FAILURES] at hlt
          simp only [sleeps_append, sleeps, hsl, h0, h1, List.append_nil]
          generalize st.failures = f at hlt ⊢
          interval_cases f <;> simp [Nat.fib_add_two]
        · simp only [Step.goto.injEq] at hs
          obtain ⟨_, rfl⟩ := hs
          exact ⟨hf, by simp [sleeps_append, sleeps, hsl], h0, h1⟩
        · simp only [Step.goto.injEq] at hs
          obtain ⟨_, rfl⟩ := hs
          exact ⟨hf, by simp [sleeps_append, sleeps, hsl], h0, h1⟩
    | null =>
      simp only [lookup_step] at hs
      cases hfb : conf.fallback with
      | none => simp [hfb] at hs
      | some fb =>
        simp only [hfb] at hs
        split_ifs at hs
        simp only [Step.goto.injEq] at hs
        obtain ⟨_, rfl⟩ := hs
        exact ⟨hf, by simp [sleeps_append, sleeps, hsl], h0, h1⟩

theorem advance_zero (st : Locals) : advance st 0 [] = st := by
  cases st; simp [advance]

theorem advance_advance (st : Locals) (j k : Nat) (a b : List Event) :
    advance (advance st j a) k b = advance st (j + k) (a ++ b) := by
  simp [advance, Nat.add_assoc]

theorem wildcard_chain_succ (fuel : Nat) (c : List Char) :
    wildcard_chain (fuel + 1) c =
      c :: (if cstr c = ['*'] then [] else wildcard_chain fuel (wildcard c)) := by
  rw [wildcard_chain, streq_star]
  by_cases h : cstr c = ['*'] <;> simp [h]

/-- The step at `fallback` when the search answers no-such-object for a candidate other
than `*`. -/
theorem step_miss (env : Env) (conf : mod_vhost_ldap_config_t) (host : Option (List Char))
    (serverp server : server_rec) (c : List Char) (st : Locals)
    (hesc : env.ldap_bv2escaped_filter_value (cstr c) ≠ none)
    (hnf : (env.util_ldap_cache_getuserdn st.searches (candidate_filter env conf c)).result
      = ldap_result.LDAP_NO_SUCH_OBJECT)
    (hstar : cstr c ≠ ['*']) :
    lookup_step env conf host serverp server (Label.fallback c) st =
      Step.goto (Label.fallback (wildcard c)) (advance st 1 (search_events env conf [c])) := by
  have hs : streq c "*".toList = false := by rw [streq_star]; simp [hstar]
  cases he : env.ldap_bv2escaped_filter_value (cstr c) with
  | none => exact absurd he hesc
  | some sh =>
    simp only [candidate_filter, he] at hnf
    simp only [lookup_step, he, hnf, is_transient_not_found, hs, advance, search_events,
      candidate_filter]
    simp

/-- The step at `fallback` when the search answers no-such-object for `*`. -/
theorem step_miss_star (env : Env) (conf : mod_vhost_ldap_config_t) (host : Option (List Char))
    (serverp server : server_rec) (c : List Char) (st : Locals)
    (hesc : env.ldap_bv2escaped_filter_value (cstr c) ≠ none)
    (hnf : (env.util_ldap_cache_getuserdn st.searches (candidate_filter env conf c)).result
      = ldap_result.LDAP_NO_SUCH_OBJECT)
    (hstar : cstr c = ['*']) :
    lookup_step env conf host serverp server (Label.fallback c) st =
      Step.goto Label.null (advance st 1 (search_events env conf [c])) := by
  have hs : streq c "*".toList = true := by rw [streq_star]; simp [hstar]
  cases he : env.ldap_bv2escaped_filter_value (cstr c) with
  | none => exact absurd he hesc
  | some sh =>
    simp only [candidate_filter, he] at hnf
    simp only [lookup_step, he, hnf, is_transient_not_found, hs, advance, search_events,
      candidate_filter]
    simp

/-- The step at `fallback` when the search succeeds. -/
theorem step_hit (env : Env) (conf : mod_vhost_ldap_config_t) (host : Option (List Char))
    (serverp server : server_rec) (c : List Char) (st : Locals)
    (hesc : env.ldap_bv2escaped_filter_value (cstr c) ≠ none)
    (hok : (env.util_ldap_cache_getuserdn st.searches (candidate_filter env conf c)).result
      = ldap_result.LDAP_SUCCESS) :
    lookup_step env conf host serverp server (Label.fallback c) st =
      Step.ret (configure_vhost env serverp server
        (load_request (env.util_ldap_cache_getuserdn st.searches (candidate_filter env conf c)).dn
          (env.util_ldap_cache_getuserdn st.searches (candidate_filter env conf c)).vals)
        (st.trace ++ search_events env conf [c])) := by
  cases he : env.ldap_bv2escaped_filter_value (cstr c) with
  | none => exact absurd he hesc
  | some sh =>
    simp only [candidate_filter, he] at hok
    simp only [lookup_step, he, hok, is_transient_success, search_events, candidate_filter]
    simp

theorem lookup_from_goto (env : Env) (conf : mod_vhost_ldap_config_t) (host : Option (List Char))
    (serverp server : server_rec) (n : Nat) (l l' : Label) (st st' : Locals)
    (h : lookup_step env conf host serverp server l st = Step.goto l' st') :
    lookup_from env conf host serverp server (n + 1) l st =
      lookup_from env conf host serverp server n l' st' := by
  simp only [lookup_from, h]

theorem lookup_from_ret (env : Env) (conf : mod_vhost_ldap_config_t) (host : Option (List Char))
    (serverp server : server_rec) (n : Nat) (l : Label) (st : Locals) (r : lookup_result)
    (h : lookup_step env conf host serverp server l st = Step.ret r) :
    lookup_from env conf host serverp server (n + 1) l st = some r := by
  simp only [lookup_from, h]

theorem search_events_append (env : Env) (conf : mod_vhost_ldap_config_t)
    (a b : List (List Char)) :
    search_events env conf (a ++ b) = search_events env conf a ++ search_events env conf b := by
  induction a with
  | nil => simp [search_events]
  | cons c cs ih => simp [search_events, ih]

theorem searched_search_events (env : Env) (conf : mod_vhost_ldap_config_t)
    (cs : List (List Char)) : searched_hostnames (search_events env conf cs) = cs := by
  induction cs with
  | nil => simp [search_events, searched_hostnames]
  | cons c cs ih => simp [search_events, searched_hostnames, ih]

/-- While the searches answer no-such-object the loop walks down the wildcard chain:
after `k` misses it is at the `k`-th candidate of the chain. -/
theorem run_misses (env : Env) (conf : mod_vhost_ldap_config_t) (host : Option (List Char))
    (serverp server : server_rec)
    (hesc : ∀ h, env.ldap_bv2escaped_filter_value h ≠ none) (k : Nat) :
    ∀ (fuel : Nat) (c ck : List Char) (st : Locals) (n : Nat),
    (wildcard_chain fuel c).get? k = some ck →
    (∀ j cj, j < k → (wildcard_chain fuel c).get? j = some cj →
      (env.util_ldap_cache_getuserdn (st.searches + j) (candidate_filter env conf cj)).result
        = ldap_result.LDAP_NO_SUCH_OBJECT) →
    lookup_from env conf host serverp server (n + k) (Label.fallback c) st =
      lookup_from env conf host serverp server n (Label.fallback ck)
        (advance st k (search_events env conf ((wildcard_chain fuel c).take k))) := by
  induction k with
  | zero =>
    intro fuel c ck st n hk _
    cases fuel with
    | zero => simp [wildcard_chain] at hk
    | succ fuel =>
      rw [wildcard_chain_succ] at hk
      simp only [List.get?_cons_zero, Option.some.injEq] at hk
      subst hk
      simp [search_events, advance_zero]
  | succ k ih =>
    intro fuel c ck st n hk hnf
    cases fuel with
    | zero => simp [wildcard_chain] at hk
    | succ fuel =>
      rw [wildcard_chain_succ] at hk hnf ⊢
      simp only [List.get?_cons_succ] at hk
      by_cases hstar : cstr c = ['*']
      · simp [hstar] at hk
      · rw [if_neg hstar] at hk hnf ⊢
        have h0 := step_miss env conf host serverp server c st (hesc _)
          (by simpa using hnf 0 c (Nat.succ_pos k) rfl) hstar
        rw [← Nat.add_assoc, lookup_from_goto env conf host serverp server _ _ _ _ _ h0]
        rw [ih fuel (wildcard c) ck _ n hk
          (fun j cj hj hcj => by
            have := hnf (j + 1) cj (Nat.succ_lt_succ hj) (by simpa using hcj)
            simpa [advance, Nat.add_assoc, Nat.add_comm 1 j] using this)]
        rw [advance_advance, ← search_events_append]
        simp [Nat.add_comm 1 k]

/-- When every search answers no-such-object the loop walks the whole wildcard chain
and arrives at the label `null`. -/
theorem run_all_miss (env : Env) (conf : mod_vhost_ldap_config_t) (host : Option (List Char))
    (serverp server : server_rec)
    (hesc : ∀ h, env.ldap_bv2escaped_filter_value h ≠ none)
    (hnf : ∀ n f, (env.util_ldap_cache_getuserdn n f).result = ldap_result.LDAP_NO_SUCH_OBJECT)
    (fuel : Nat) : ∀ (c : List Char) (st : Locals) (n : Nat), host_measure c < fuel →
    lookup_from env conf host serverp server (n + (wildcard_chain fuel c).length)
        (Label.fallback c) st =
      lookup_from env conf host serverp server n Label.null
        (advance st (wildcard_chain fuel c).length
          (search_events env conf (wildcard_chain fuel c))) := by
  induction fuel with
  | zero => intro c st n h; omega
  | succ fuel ih =>
    intro c st n hm
    rw [wildcard_chain_succ]
    by_cases hstar : cstr c = ['*']
    · have h0 := step_miss_star env conf host serverp server c st (hesc _)
        (hnf _ _) hstar
      rw [if_pos hstar]
      simp only [List.length_singleton]
      rw [lookup_from_goto env conf host serverp server _ _ _ _ _ h0]
    · have hw := wildcard_measure c hstar
      have h0 := step_miss env conf host serverp server c st (hesc _)
        (hnf _ _) hstar
      rw [if_neg hstar]
      simp only [List.length_cons]
      rw [← Nat.add_assoc, lookup_from_goto env conf host serverp server _ _ _ _ _ h0]
      rw [ih (wildcard c) _ n (by omega), advance_advance]
      simp [search_events, Nat.add_comm 1]

theorem join_labels_cons (l : List Char) (ls : List (List Char)) :
    join_labels (l :: ls) = l ++ (if ls = [] then [] else '.' :: join_labels ls) := by
  cases ls with
  | nil => simp [join_labels]
  | cons l' ls => simp [join_labels]

theorem join_labels_nul_free (ls : List (List Char)) (h : ∀ l ∈ ls, valid_label l) :
    NUL ∉ join_labels ls := by
  induction ls with
  | nil => simp [join_labels]
  | cons l ls ih =>
    have hl := h l (by simp)
    have := ih (fun x hx => h x (by simp [hx]))
    have hd : NUL ≠ '.' := by decide
    rw [join_labels_cons]
    by_cases hls : ls = []
    · simp [hls, hl.2.1]
    · simp [hls, hl.2.1, this, hd]

/-- In a label followed by nothing or by a dot, `strcspn` for the dot stops at the end
of the label. -/
theorem strcspn_label (l t : List Char) (hn : NUL ∉ l) (hd : '.' ∉ l)
    (ht : t = [] ∨ ∃ t', t = '.' :: t') : strcspn (l ++ t) ".".toList = l.length := by
  induction l with
  | nil =>
    rcases ht with rfl | ⟨t', rfl⟩
    · simp [strcspn]
    · simp [strcspn, mem_dot]
  | cons c cs ih =>
    have hc : c ≠ NUL := fun e => hn (by simp [e])
    have hc' : c ≠ '.' := fun e => hd (by simp [e])
    have h1 : NUL ∉ cs := fun e => hn (by simp [e])
    have h2 : '.' ∉ cs := fun e => hd (by simp [e])
    have := ih h1 h2
    simpa [strcspn, hc, mem_dot, hc'] using this

/-- The wildcard candidate after the exact host `l1.l2.....ln`, `l1` not being `*`. -/
theorem wildcard_exact (l1 l2 : List Char) (ls : List (List Char))
    (h : ∀ l ∈ l1 :: l2 :: ls, valid_label l) (hstar : l1 ≠ ['*']) :
    wildcard (join_labels (l1 :: l2 :: ls)) = '*' :: '.' :: join_labels (l2 :: ls) := by
  have hl1 := h l1 (by simp)
  have hnf := join_labels_nul_free (l1 :: l2 :: ls) h
  have hnf2 := join_labels_nul_free (l2 :: ls) (fun x hx => h x (by simp at hx ⊢; tauto))
  have hdot : NUL ≠ '.' := by decide
  have htake : ¬ (cstr (join_labels (l1 :: l2 :: ls))).take 2 = ['*', '.'] := by
    rw [cstr_of_nul_free _ hnf]
    simp only [join_labels]
    obtain ⟨hne, _, hd⟩ := hl1
    cases l1 with
    | nil => exact absurd rfl hne
    | cons c cs =>
      cases cs with
      | nil =>
        simp only [List.cons_append, List.nil_append, List.take_succ_cons, List.take_zero]
        intro e
        simp only [List.cons.injEq, and_true] at e
        exact hstar (by simp [e])
      | cons c' cs' =>
        simp only [List.cons_append, List.take_succ_cons, List.take_zero]
        intro e
        simp only [List.cons.injEq, and_true] at e
        exact hd (by simp [e.2])
  rw [wildcard_eq, if_neg htake]
  have hs := strcspn_label l1 ('.' :: join_labels (l2 :: ls)) hl1.2.1 hl1.2.2
    (Or.inr ⟨_, rfl⟩)
  simp only [join_labels] at hs ⊢
  rw [hs, List.drop_left]
  rw [cstr_of_nul_free _ (by simp [hdot, hnf2])]

/-- The wildcard candidate after `*.l.ls`: `*` when `l` was the last label. -/
theorem wildcard_star (l : List Char) (ls : List (List Char))
    (h : ∀ x ∈ l :: ls, valid_label x) :
    wildcard ('*' :: '.' :: join_labels (l :: ls)) =
      if ls = [] then ['*'] else '*' :: '.' :: join_labels ls := by
  have hl := h l (by simp)
  have hnf := join_labels_nul_free (l :: ls) h
  have hnf2 := join_labels_nul_free ls (fun x hx => h x (by simp [hx]))
  have hdot : NUL ≠ '.' := by decide
  have hst : NUL ≠ '*' := by decide
  have hc : cstr ('*' :: '.' :: join_labels (l :: ls)) = '*' :: '.' :: join_labels (l :: ls) :=
    cstr_of_nul_free _ (by simp [hdot, hst, hnf])
  rw [wildcard_eq, hc]
  simp only [List.take_succ_cons, List.take_zero, if_true, List.drop_succ_cons, List.drop_zero]
  rw [join_labels_cons]
  by_cases hls : ls = []
  · have hs := strcspn_label l [] hl.2.1 hl.2.2 (Or.inl rfl)
    simp only [hls, if_true] at hs ⊢
    rw [hs]
    simp [cstr]
  · have hs := strcspn_label l ('.' :: join_labels ls) hl.2.1 hl.2.2 (Or.inr ⟨_, rfl⟩)
    simp only [hls, if_false] at hs ⊢
    rw [hs, List.drop_left]
    rw [cstr_of_nul_free _ (by simp [hdot, hnf2])]

theorem cstr_star_dot_ne (t : List Char) (hn : NUL ∉ t) : cstr ('*' :: '.' :: t) ≠ ['*'] := by
  have hdot : NUL ≠ '.' := by decide
  have hst : NUL ≠ '*' := by decide
  rw [cstr_of_nul_free _ (by simp [hdot, hst, hn])]
  simp

/-- The chain of the code from `*.l.ls` on is the one the specification lists. -/
theorem wildcard_chain_suffixes (ls : List (List Char)) :
    ls ≠ [] → (∀ x ∈ ls, valid_label x) →
    wildcard_chain (ls.length + 1) ('*' :: '.' :: join_labels ls) =
      suffix_wildcards ls ++ [['*']] := by
  induction ls with
  | nil => intro h; exact absurd rfl h
  | cons l ls ih =>
    intro _ h
    have hnf := join_labels_nul_free (l :: ls) h
    rw [List.length_cons, wildcard_chain_succ, if_neg (cstr_star_dot_ne _ hnf),
      wildcard_star l ls h]
    by_cases hls : ls = []
    · subst hls
      have : cstr ['*'] = ['*'] := by decide
      simp [wildcard_chain_succ, this, suffix_wildcards]
    · rw [if_neg hls, ih hls (fun x hx => h x (by simp [hx]))]
      simp [suffix_wildcards]

/-- The chain of the code from the exact host `l1.l2.....ln` on is the one the
specification lists, when `l1` is not `*`. -/
theorem wildcard_chain_spec (l1 l2 : List Char) (ls : List (List Char))
    (h : ∀ l ∈ l1 :: l2 :: ls, valid_label l) (hstar : l1 ≠ ['*']) :
    wildcard_chain (ls.length + 3) (join_labels (l1 :: l2 :: ls)) =
      spec_candidates (l1 :: l2 :: ls) := by
  have hnf := join_labels_nul_free (l1 :: l2 :: ls) h
  have hne : cstr (join_labels (l1 :: l2 :: ls)) ≠ ['*'] := by
    rw [cstr_of_nul_free _ hnf]
    intro e
    have hl : (join_labels (l1 :: l2 :: ls)).length = 1 := by rw [e]; rfl
    have h1 := (h l1 (by simp)).1
    simp only [join_labels, List.length_append, List.length_cons] at hl
    have : 0 < l1.length := List.length_pos.mpr h1
    omega
  rw [wildcard_chain_succ, if_neg hne, wildcard_exact l1 l2 ls h hstar]
  have := wildcard_chain_suffixes (l2 :: ls) (by simp) (fun x hx => h x (by simp at hx ⊢; tauto))
  simp only [List.length_cons] at this
  rw [this]
  simp [spec_candidates]

theorem apply_directive_accepted (env : Env) (serverp : server_rec) (n : Nat)
    (dir args : List Char) (tr : List Event) (rest : List Event → lookup_result)
    (h : accepts_all env) :
    apply_directive env serverp n dir args tr rest = rest (tr ++ [Event.directive dir args]) := by
  unfold apply_directive reconfigure_directive
  rw [h n dir args]
  simp

/-- A valid request record whose directives are all accepted yields `OK` and the new
virtual host. -/
theorem configure_vhost_ok (env : Env) (serverp server : server_rec)
    (reqc : mod_vhost_ldap_request_t) (tr : List Event)
    (hv : valid_request reqc) (ha : accepts_all env) :
    (configure_vhost env serverp server reqc tr).code = OK ∧
      (configure_vhost env serverp server reqc tr).serverp = server := by
  obtain ⟨h1, h2, h3, h4⟩ := hv
  unfold configure_vhost
  cases hn : reqc.name with
  | none => exact absurd hn h1
  | some name =>
    cases hh : reqc.home with
    | none => exact absurd hh h2
    | some home =>
      cases hd : reqc.directory with
      | none => exact absurd hd h3
      | some directory =>
        simp only [apply_directive_accepted _ _ _ _ _ _ _ ha]
        cases hu : reqc.uid with
        | none =>
          simp [finish_vhost, apply_directive_accepted _ _ _ _ _ _ _ ha]
        | some uid =>
          have h5 := h4 (by simp [hu])
          cases hg : reqc.gid with
          | none => exact absurd hg h5.1
          | some gid =>
            cases hun : reqc.username with
            | none => exact absurd hun h5.2
            | some username =>
              simp [suexec_directives, finish_vhost, apply_directive_accepted _ _ _ _ _ _ _ ha]

theorem at_end_join_labels (l : List Char) (ls : List (List Char)) (h : valid_label l) :
    at_end (join_labels (l :: ls)) = false := by
  obtain ⟨hne, hn, _⟩ := h
  rw [join_labels_cons]
  cases l with
  | nil => exact absurd rfl hne
  | cons c cs =>
    have hc : c ≠ NUL := fun e => hn (by simp [e])
    simp [at_end, hc]

/-- The step at `start_over` for a non-empty requested hostname. -/
theorem step_start_over (env : Env) (conf : mod_vhost_ldap_config_t) (host : List Char)
    (serverp server : server_rec) (st : Locals)
    (hhost : conf.host ≠ none) (hne : at_end host = false) :
    lookup_step env conf (some host) serverp server Label.start_over st =
      Step.goto (Label.fallback host) (advance st 0 [Event.connection_find]) := by
  cases hh : conf.host with
  | none => exact absurd hh hhost
  | some ch => simp [lookup_step, hh, hne, advance]

/-- The step at `start_over` for a requested hostname that is `NULL` or empty. -/
theorem step_start_over_empty (env : Env) (conf : mod_vhost_ldap_config_t)
    (host : Option (List Char)) (serverp server : server_rec) (st : Locals)
    (hhost : conf.host ≠ none) (hempty : ∀ h, host = some h → at_end h = true) :
    lookup_step env conf host serverp server Label.start_over st =
      Step.goto Label.null (advance st 0 [Event.connection_find]) := by
  cases hh : conf.host with
  | none => exact absurd hh hhost
  | some ch =>
    cases host with
    | none => simp [lookup_step, hh, advance]
    | some h => simp [lookup_step, hh, hempty h rfl, advance]

/-- The step at `null` the first time, with a fallback hostname configured. -/
theorem step_null_fallback (env : Env) (conf : mod_vhost_ldap_config_t)
    (host : Option (List Char)) (serverp server : server_rec) (st : Locals) (fb : List Char)
    (hfb : conf.fallback = some fb) (h0 : st.is_fallback = 0) :
    lookup_step env conf host serverp server Label.null st =
      Step.goto (Label.fallback fb)
        { st with is_fallback := 1, trace := st.trace ++ [Event.fallback fb] } := by
  simp [lookup_step, hfb, h0]

/-- The step at `null` once the fallback has been used, or without a fallback. -/
theorem step_null_return (env : Env) (conf : mod_vhost_ldap_config_t)
    (host : Option (List Char)) (serverp server : server_rec) (st : Locals)
    (h : conf.fallback = none ∨ 0 < st.is_fallback) :
    lookup_step env conf host serverp server Label.null st =
      Step.ret ⟨HTTP_BAD_REQUEST, serverp, st.trace⟩ := by
  cases hfb : conf.fallback with
  | none => simp [lookup_step, hfb]
  | some fb =>
    rcases h with h | h
    · rw [hfb] at h; cases h
    · have : ¬ st.is_fallback ≤ 0 := by omega
      simp [lookup_step, hfb, this]

/-- The fallback hostname is substituted at most once in a run of the loop. -/
theorem lookup_from_fallbacks (env : Env) (conf : mod_vhost_ldap_config_t)
    (host : Option (List Char)) (serverp server : server_rec)
    (n : Nat) (l : Label) (st : Locals) (r : lookup_result)
    (hst : (fallbacks st.trace).length ≤ st.is_fallback ∧ st.is_fallback ≤ 1)
    (h : lookup_from env conf host serverp server n l st = some r) :
    (fallbacks r.trace).length ≤ 1 := by
  refine lookup_from_induct env conf host serverp server
    (fun r => (fallbacks r.trace).length ≤ 1)
    (fun _ st => (fallbacks st.trace).length ≤ st.is_fallback ∧ st.is_fallback ≤ 1)
    ?_ ?_ n l st r hst h
  · intro l st r ⟨h1, h2⟩ hs
    cases l with
    | start_over =>
      simp only [lookup_step] at hs
      cases hh : conf.host with
      | none =>
        simp only [hh] at hs
        cases hs
        exact le_trans h1 h2
      | some ch =>
        simp only [hh] at hs
        cases host with
        | none => simp at hs
        | some hostname =>
          simp only at hs
          split_ifs at hs
    | fallback hostname =>
      simp only [lookup_step] at hs
      cases he : env.ldap_bv2escaped_filter_value (cstr hostname) with
      | none => simp [he] at hs
      | some shostname =>
        simp only [he] at hs
        split_ifs at hs
        · cases hs
          simp only [fallbacks_append, fallbacks, List.append_nil]
          exact le_trans h1 h2
        · cases hs
          simp only [fallbacks_append, fallbacks, List.append_nil]
          exact le_trans h1 h2
        · cases hs
          rw [(config_extends_observed _ _ (configure_vhost_trace env serverp server _ _)).2.2]
          simp only [fallbacks_append, fallbacks, List.append_nil]
          exact le_trans h1 h2
    | null =>
      simp only [lookup_step] at hs
      cases hfb : conf.fallback with
      | none =>
        simp only [hfb] at hs
        cases hs
        exact le_trans h1 h2
      | some fb =>
        simp only [hfb] at hs
        split_ifs at hs
        cases hs
        exact le_trans h1 h2
  · intro l st l' st' ⟨h1, h2⟩ hs
    cases l with
    | start_over =>
      simp only [lookup_step] at hs
      cases hh : conf.host with
      | none => simp [hh] at hs
      | some ch =>
        simp only [hh] at hs
        cases host with
        | none =>
          simp only [Step.goto.injEq] at hs
          obtain ⟨_, rfl⟩ := hs
          exact ⟨by simpa [fallbacks_append, fallbacks] using h1, h2⟩
        | some hostname =>
          simp only at hs
          split_ifs at hs <;>
          · simp only [Step.goto.injEq] at hs
            obtain ⟨_, rfl⟩ := hs
            exact ⟨by simpa [fallbacks_append, fallbacks] using h1, h2⟩
    | fallback hostname =>
      simp only [lookup_step] at hs
      cases he : env.ldap_bv2escaped_filter_value (cstr hostname) with
      | none =>
        simp only [he, Step.goto.injEq] at hs
        obtain ⟨_, rfl⟩ := hs
        exact ⟨h1, h2⟩
      | some shostname =>
        simp only [he] at hs
        split_ifs at hs <;>
        · simp only [Step.goto.injEq] at hs
          obtain ⟨_, rfl⟩ := hs
          exact ⟨by simpa [fallbacks_append, fallbacks] using h1, h2⟩
    | null =>
      simp only [lookup_step] at hs
      cases hfb : conf.fallback with
      | none => simp [hfb] at hs
      | some fb =>
        simp only [hfb] at hs
        split_ifs at hs with h0
        simp only [Step.goto.injEq] at hs
        obtain ⟨_, rfl⟩ := hs
        have : (fallbacks st.trace).length = 0 := by omega
        simp only [fallbacks_append, fallbacks, List.length_append, this, List.length_singleton]
        omega

/-- The fallback hostname is substituted at most once in a lookup, whatever the
directory answers. -/
theorem lookup_fallback_once (env : Env) (conf : mod_vhost_ldap_config_t)
    (host : Option (List Char)) (serverp : server_rec) :
    ∃ r, mod_vhost_ldap_lookup_vhost env conf host serverp = some r ∧
      (fallbacks r.trace).length ≤ 1 := by
  obtain ⟨r, hr⟩ := lookup_returns env conf host serverp
  refine ⟨r, hr, ?_⟩
  unfold mod_vhost_ldap_lookup_vhost at hr
  split_ifs at hr
  · cases hr; simp [fallbacks]
  · cases hi : env.ap_init_virtual_host serverp with
    | none => rw [hi] at hr; cases hr; simp [fallbacks]
    | some server =>
      rw [hi] at hr
      exact lookup_from_fallbacks env conf host serverp server _ _ _ r
        (by simp [initial_locals, fallbacks]) hr

theorem fallbacks_search_events (env : Env) (conf : mod_vhost_ldap_config_t)
    (cs : List (List Char)) : fallbacks (search_events env conf cs) = [] := by
  induction cs with
  | nil => simp [search_events, fallbacks]
  | cons c cs ih => simp [search_events, fallbacks, ih]

theorem after_fallback_append (a b : List Event) (x : List Char) (h : fallbacks a = []) :
    after_fallback (a ++ Event.fallback x :: b) = b := by
  induction a with
  | nil => simp [after_fallback]
  | cons e a ih =>
    cases e <;> simp_all [after_fallback, fallbacks]

/-- With enough fuel the wildcard chain ends with `*`. -/
theorem wildcard_chain_complete (fuel : Nat) : ∀ (c : List Char), host_measure c < fuel →
    ∃ pre last, wildcard_chain fuel c = pre ++ [last] ∧ cstr last = ['*'] := by
  induction fuel with
  | zero => intro c h; omega
  | succ fuel ih =>
    intro c hm
    rw [wildcard_chain_succ]
    by_cases hstar : cstr c = ['*']
    · exact ⟨[], c, by simp [hstar], hstar⟩
    · have hw := wildcard_measure c hstar
      obtain ⟨pre, last, h1, h2⟩ := ih (wildcard c) (by omega)
      exact ⟨c :: pre, last, by simp [hstar, h1], h2⟩

/-- The wildcard chain has one candidate exactly when it starts at `*`. -/
theorem wildcard_chain_length_one (c : List Char) :
    (wildcard_chain (host_measure c + 1) c).length = 1 ↔ cstr c = ['*'] := by
  rw [wildcard_chain_succ]
  by_cases hstar : cstr c = ['*']
  · simp [hstar]
  · have hw := wildcard_measure c hstar
    obtain ⟨pre, last, h1, _⟩ := wildcard_chain_complete (host_measure c) (wildcard c) hw
    simp [hstar, h1]

/-- From the label `null` on, the first time and with every search answering
no-such-object: the fallback hostname and its wildcard chain are searched, then the
lookup returns `HTTP_BAD_REQUEST`. -/
theorem run_null_all_miss (env : Env) (conf : mod_vhost_ldap_config_t)
    (host : Option (List Char)) (serverp server : server_rec) (fb : List Char) (st : Locals)
    (hfb : conf.fallback = some fb) (h0 : st.is_fallback = 0)
    (hesc : ∀ h, env.ldap_bv2escaped_filter_value h ≠ none)
    (hnf : ∀ n f, (env.util_ldap_cache_getuserdn n f).result = ldap_result.LDAP_NO_SUCH_OBJECT) :
    lookup_from env conf host serverp server
        (1 + (wildcard_chain (host_measure fb + 1) fb).length + 1) Label.null st =
      some ⟨HTTP_BAD_REQUEST, serverp, st.trace ++ Event.fallback fb ::
        search_events env conf (wildcard_chain (host_measure fb + 1) fb)⟩ := by
  have h1 := step_null_fallback env conf host serverp server st fb hfb h0
  rw [lookup_from_goto env conf host serverp server _ _ _ _ _ h1]
  rw [run_all_miss env conf host serverp server hesc hnf _ fb _ 1 (Nat.lt_succ_self _)]
  rw [lookup_from_ret env conf host serverp server 0 _ _ _
    (step_null_return env conf host serverp server _ (Or.inr (by simp [advance])))]
  simp [advance]

/-- The step at `fallback` when the search fails transiently and a retry is left. -/
theorem step_retry (env : Env) (conf : mod_vhost_ldap_config_t) (host : Option (List Char))
    (serverp server : server_rec) (c : List Char) (st : Locals)
    (hesc : env.ldap_bv2escaped_filter_value (cstr c) ≠ none)
    (htr : is_transient (env.util_ldap_cache_getuserdn st.searches
      (candidate_filter env conf c)).result = true)
    (hlt : st.failures < MAX_FAILURES) :
    lookup_step env conf host serverp server (Label.fallback c) st =
      Step.goto Label.start_over
        { failures := st.failures + 1, is_fallback := st.is_fallback,
          sleep0 := st.sleep1, sleep1 := st.sleep0 + st.sleep1, searches := st.searches + 1,
          trace := st.trace ++ search_events env conf [c]
            ++ [Event.sleep (st.sleep0 + st.sleep1)] } := by
  cases he : env.ldap_bv2escaped_filter_value (cstr c) with
  | none => exact absurd he hesc
  | some sh =>
    simp only [candidate_filter, he] at htr
    simp only [lookup_step, he, htr, hlt, search_events, candidate_filter]
    simp

/-- The step at `fallback` when the search fails transiently and no retry is left. -/
theorem step_timeout (env : Env) (conf : mod_vhost_ldap_config_t) (host : Option (List Char))
    (serverp server : server_rec) (c : List Char) (st : Locals)
    (hesc : env.ldap_bv2escaped_filter_value (cstr c) ≠ none)
    (htr : is_transient (env.util_ldap_cache_getuserdn st.searches
      (candidate_filter env conf c)).result = true)
    (hge : MAX_FAILURES ≤ st.failures) :
    lookup_step env conf host serverp server (Label.fallback c) st =
      Step.ret ⟨HTTP_GATEWAY_TIME_OUT, serverp, st.trace ++ search_events env conf [c]⟩ := by
  have hlt : ¬ st.failures < MAX_FAILURES := by omega
  cases he : env.ldap_bv2escaped_filter_value (cstr c) with
  | none => exact absurd he hesc
  | some sh =>
    simp only [candidate_filter, he] at htr
    simp only [lookup_step, he, htr, hlt, search_events, candidate_filter]
    simp

/-- For a non-empty requested hostname, when every search fails transiently, the lookup
searches the requested hostname 6 times, sleeps 5 times and returns
`HTTP_GATEWAY_TIME_OUT`. -/
theorem retry_exhaustion (env : Env) (conf : mod_vhost_ldap_config_t)
    (host : List Char) (serverp server : server_rec)
    (hne : cstr host ≠ [])
    (hen : conf.enabled = mod_vhost_ldap_status_e.MVL_ENABLED) (hurl : conf.have_ldap_url ≠ 0)
    (hhost : conf.host ≠ none)
    (hinit : env.ap_init_virtual_host serverp = some server)
    (hesc : env.ldap_bv2escaped_filter_value (cstr host) ≠ none)
    (htr : ∀ n f, is_transient (env.util_ldap_cache_getuserdn n f).result = true) :
    ∃ r, mod_vhost_ldap_lookup_vhost env conf (some host) serverp = some r ∧
      r.code = HTTP_GATEWAY_TIME_OUT ∧ r.serverp = serverp ∧
      searched_hostnames r.trace = List.replicate 6 host ∧
      sleeps r.trace = [1, 2, 3, 5, 8] := by
  have hne' : at_end host = false := by
    cases hae : at_end host with
    | false => rfl
    | true => exact absurd ((at_end_iff host).1 hae) hne
  obtain ⟨r, hr⟩ := lookup_returns env conf (some host) serverp
  have hrun := lookup_run_of_eq env conf (some host) serverp server r hen hurl hinit hr
  obtain ⟨k, hk, hsl⟩ := lookup_from_sleeps env conf (some host) serverp server _ _ _ r
    (by simp [initial_locals, sleeps]) hrun
  have key := lookup_from_induct env conf (some host) serverp server
    (fun r => r.code = HTTP_GATEWAY_TIME_OUT ∧ r.serverp = serverp ∧
      searched_hostnames r.trace = List.replicate 6 host ∧ (sleeps r.trace).length = 5)
    (fun l st => st.failures ≤ 5 ∧ searched_hostnames st.trace = List.replicate st.failures host ∧
      (sleeps st.trace).length = st.failures ∧ (l = Label.start_over ∨ l = Label.fallback host))
    ?_ ?_ _ _ _ r (by simp [initial_locals, searched_hostnames, sleeps]) hrun
  · obtain ⟨h1, h2, h3, h4⟩ := key
    refine ⟨r, hr, h1, h2, h3, ?_⟩
    rw [hsl] at h4 ⊢
    have : k = 5 := by
      simp only [List.length_take, List.length_cons, List.length_nil] at h4
      omega
    rw [this]
    rfl
  · intro l st r ⟨hf, hs, hsl, hl⟩ hstep
    rcases hl with rfl | rfl
    · rw [step_start_over env conf host serverp server st hhost hne'] at hstep
      cases hstep
    · by_cases hlt : st.failures < MAX_FAILURES
      · rw [step_retry env conf (some host) serverp server host st hesc (htr _ _) hlt] at hstep
        cases hstep
      · have hge : MAX_FAILURES ≤ st.failures := by omega
        rw [step_timeout env conf (some host) serverp server host st hesc (htr _ _) hge] at hstep
        cases hstep
        have h5 : st.failures = 5 := by simp only [MAX_FAILURES] at hge; omega
        refine ⟨rfl, rfl, ?_, ?_⟩
        · simp only [searched_hostnames_append, searched_search_events, hs, h5]
          rfl
        · simp only [sleeps_append, List.length_append, hsl, h5]
          simp [search_events, sleeps]
  · intro l st l' st' ⟨hf, hs, hsl, hl⟩ hstep
    rcases hl with rfl | rfl
    · rw [step_start_over env conf host serverp server st hhost hne'] at hstep
      simp only [Step.goto.injEq] at hstep
      obtain ⟨rfl, rfl⟩ := hstep
      exact ⟨hf, by simpa [advance, searched_hostnames_append, searched_hostnames] using hs,
        by simpa [advance, sleeps_append, sleeps] using hsl, Or.inr rfl⟩
    · by_cases hlt : st.failures < MAX_FAILURES
      · rw [step_retry env conf (some host) serverp server host st hesc (htr _ _) hlt] at hstep
        simp only [Step.goto.injEq] at hstep
        obtain ⟨rfl, rfl⟩ := hstep
        simp only [MAX_FAILURES] at hlt
        refine ⟨by simp only; omega, ?_, ?_, Or.inl rfl⟩
        · simp only [searched_hostnames_append, searched_search_events, hs, searched_hostnames,
            List.append_nil]
          rw [List.replicate_succ']
        · simp only [sleeps_append, List.length_append, hsl]
          simp [search_events, sleeps]
      · have hge : MAX_FAILURES ≤ st.failures := by omega
        rw [step_timeout env conf (some host) serverp server host st hesc (htr _ _) hge] at hstep
        cases hstep

/-- For a non-empty requested hostname, when the first 5 searches fail transiently and
the 6th finds a valid entry, the lookup searches the requested hostname 6 times, sleeps 5
times, all before the last search, and returns `OK` with the new virtual host. -/
theorem retry_success (env : Env) (conf : mod_vhost_ldap_config_t)
    (host : List Char) (serverp server : server_rec)
    (hne : cstr host ≠ [])
    (hen : conf.enabled = mod_vhost_ldap_status_e.MVL_ENABLED) (hurl : conf.have_ldap_url ≠ 0)
    (hhost : conf.host ≠ none)
    (hinit : env.ap_init_virtual_host serverp = some server)
    (hesc : env.ldap_bv2escaped_filter_value (cstr host) ≠ none)
    (htr : ∀ n f, n < 5 → is_transient (env.util_ldap_cache_getuserdn n f).result = true)
    (hhit : (env.util_ldap_cache_getuserdn 5 (candidate_filter env conf host)).result
      = ldap_result.LDAP_SUCCESS)
    (hvalid : valid_request
      (load_request (env.util_ldap_cache_getuserdn 5 (candidate_filter env conf host)).dn
        (env.util_ldap_cache_getuserdn 5 (candidate_filter env conf host)).vals))
    (hacc : accepts_all env) :
    ∃ r, mod_vhost_ldap_lookup_vhost env conf (some host) serverp = some r ∧
      r.code = OK ∧ r.serverp = server ∧
      searched_hostnames r.trace = List.replicate 6 host ∧
      sleeps r.trace = [1, 2, 3, 5, 8] ∧
      ∃ tr, sleeps tr = [1, 2, 3, 5, 8] ∧ config_extends (tr ++ search_events env conf [host]) r := by
  have hne' : at_end host = false := by
    cases hae : at_end host with
    | false => rfl
    | true => exact absurd ((at_end_iff host).1 hae) hne
  obtain ⟨r, hr⟩ := lookup_returns env conf (some host) serverp
  have hrun := lookup_run_of_eq env conf (some host) serverp server r hen hurl hinit hr
  obtain ⟨k, hk, hsl⟩ := lookup_from_sleeps env conf (some host) serverp server _ _ _ r
    (by simp [initial_locals, sleeps]) hrun
  have key := lookup_from_induct env conf (some host) serverp server
    (fun r => r.code = OK ∧ r.serverp = server ∧
      searched_hostnames r.trace = List.replicate 6 host ∧ (sleeps r.trace).length = 5 ∧
      ∃ tr, sleeps tr = sleeps r.trace ∧ config_extends (tr ++ search_events env conf [host]) r)
    (fun l st => st.failures ≤ 5 ∧ st.searches = st.failures ∧
      searched_hostnames st.trace = List.replicate st.failures host ∧
      (sleeps st.trace).length = st.failures ∧ (l = Label.start_over ∨ l = Label.fallback host))
    ?_ ?_ _ _ _ r (by simp [initial_locals, searched_hostnames, sleeps]) hrun
  · obtain ⟨h1, h2, h3, h4, tr, h5, h6⟩ := key
    have hk5 : k = 5 := by
      rw [hsl] at h4
      simp only [List.length_take, List.length_cons, List.length_nil] at h4
      omega
    have hs5 : sleeps r.trace = [1, 2, 3, 5, 8] := by rw [hsl, hk5]; rfl
    exact ⟨r, hr, h1, h2, h3, hs5, tr, h5.trans hs5, h6⟩
  · intro l st r ⟨hf, hse, hs, hsl, hl⟩ hstep
    rcases hl with rfl | rfl
    · rw [step_start_over env conf host serverp server st hhost hne'] at hstep
      cases hstep
    · by_cases hlt : st.failures < MAX_FAILURES
      · have hlt5 : st.searches < 5 := by simp only [MAX_FAILURES] at hlt; omega
        rw [step_retry env conf (some host) serverp server host st hesc (htr _ _ hlt5) hlt]
          at hstep
        cases hstep
      · have h5 : st.failures = 5 := by simp only [MAX_FAILURES] at hlt; omega
        have hs5 : st.searches = 5 := by omega
        rw [step_hit env conf (some host) serverp server host st hesc (by rw [hs5]; exact hhit)]
          at hstep
        cases hstep
        rw [hs5]
        have hobs := config_extends_observed _ _ (configure_vhost_trace env serverp server
          (load_request (env.util_ldap_cache_getuserdn 5 (candidate_filter env conf host)).dn
            (env.util_ldap_cache_getuserdn 5 (candidate_filter env conf host)).vals)
          (st.trace ++ search_events env conf [host]))
        have hok := configure_vhost_ok env serverp server
          (load_request (env.util_ldap_cache_getuserdn 5 (candidate_filter env conf host)).dn
            (env.util_ldap_cache_getuserdn 5 (candidate_filter env conf host)).vals)
          (st.trace ++ search_events env conf [host]) hvalid hacc
        refine ⟨hok.1, hok.2, ?_, ?_, st.trace, ?_, configure_vhost_trace _ _ _ _ _⟩
        · rw [hobs.2.1, searched_hostnames_append, searched_search_events, hs, h5]
          rfl
        · rw [hobs.1, sleeps_append, List.length_append, hsl, h5]
          simp [search_events, sleeps]
        · rw [hobs.1, sleeps_append]
          simp [search_events, sleeps]
  · intro l st l' st' ⟨hf, hse, hs, hsl, hl⟩ hstep
    rcases hl with rfl | rfl
    · rw [step_start_over env conf host serverp server st hhost hne'] at hstep
      simp only [Step.goto.injEq] at hstep
      obtain ⟨rfl, rfl⟩ := hstep
      exact ⟨hf, by simpa [advance] using hse,
        by simpa [advance, searched_hostnames_append, searched_hostnames] using hs,
        by simpa [advance, sleeps_append, sleeps] using hsl, Or.inr rfl⟩
    · by_cases hlt : st.failures < MAX_FAILURES
      · have hlt5 : st.searches < 5 := by simp only [MAX_FAILURES] at hlt; omega
        rw [step_retry env conf (some host) serverp server host st hesc (htr _ _ hlt5) hlt]
          at hstep
        simp only [Step.goto.injEq] at hstep
        obtain ⟨rfl, rfl⟩ := hstep
        simp only [MAX_FAILURES] at hlt
        refine ⟨by simp only; omega, by simp only; omega, ?_, ?_, Or.inl rfl⟩
        · simp only [searched_hostnames_append, searched_search_events, hs, searched_hostnames,
            List.append_nil]
          rw [List.replicate_succ']
        · simp only [sleeps_append, List.length_append, hsl]
          simp [search_events, sleeps]
      · have h5 : st.failures = 5 := by simp only [MAX_FAILURES] at hlt; omega
        have hs5 : st.searches = 5 := by omega
        rw [step_hit env conf (some host) serverp server host st hesc (by rw [hs5]; exact hhit)]
          at hstep
        cases hstep

theorem first_is_append (host : List Char) (a b : List (List Char)) :
    first_is host (a ++ b) ↔ first_is host a ∧ (a = [] → first_is host b) := by
  cases a with
  | nil => simp [first_is]
  | cons x a => simp [first_is]

theorem pending_append (a b : List Event) :
    pending (a ++ b) = (pending b || (pending a && (searched_hostnames b).isEmpty)) := by
  induction a with
  | nil => simp [pending]
  | cons e a ih =>
    cases e <;> simp only [List.cons_append, pending, List.append_eq, ih, searched_hostnames_append]
    · cases hp : pending b <;> cases ha : pending a <;>
        cases hb : (searched_hostnames b).isEmpty <;>
        cases hsa : (searched_hostnames a).isEmpty <;>
        simp_all [List.isEmpty_iff]

theorem retries_for_append (host : List Char) (a b : List Event) :
    retries_for host (a ++ b) ↔ retries_for host a ∧ retries_for host b ∧
      (pending a = true → first_is host (searched_hostnames b)) := by
  induction a with
  | nil => simp [retries_for, pending]
  | cons e a ih =>
    cases e <;> simp only [List.cons_append, retries_for, pending, List.append_eq, ih]
    · rw [searched_hostnames_append, first_is_append]
      simp only [Bool.or_eq_true, List.isEmpty_iff]
      constructor
      · rintro ⟨⟨h1, h2⟩, h3, h4, h5⟩
        refine ⟨⟨h1, h3⟩, h4, ?_⟩
        rintro (h | h)
        · exact h2 h
        · exact h5 h
      · rintro ⟨⟨h1, h3⟩, h4, h5⟩
        exact ⟨⟨h1, fun h => h5 (Or.inl h)⟩, h3, h4, fun h => h5 (Or.inr h)⟩

theorem config_events_retries (host : List Char) (ds : List Event)
    (h : ∀ e ∈ ds, is_config_event e = true) : retries_for host ds := by
  induction ds with
  | nil => simp [retries_for]
  | cons e ds ih =>
    have he := h e (by simp)
    have := ih (fun e' he' => h e' (by simp [he']))
    cases e <;> simp_all [is_config_event, retries_for]

/-- What `retries_for` says about the pairs of `retries_from`. -/
theorem retries_from_of_retries_for (host : List Char) (tr : List Event) :
    retries_for host tr → ∀ (last : List Char) (p : List Char × Option (List Char)),
      p ∈ retries_from last tr → ∀ x, p.2 = some x → x = host := by
  induction tr with
  | nil => intro _ last p hp; simp [retries_from] at hp
  | cons e tr ih =>
    intro h last p hp x hx
    cases e with
    | sleep s =>
      simp only [retries_for] at h
      simp only [retries_from, List.mem_cons] at hp
      rcases hp with rfl | hp
      · exact h.1 x hx
      · exact ih h.2 last p hp x hx
    | search hn f =>
      simp only [retries_for] at h
      simp only [retries_from] at hp
      exact ih h hn p hp x hx
    | connection_find =>
      simp only [retries_for] at h
      simp only [retries_from] at hp
      exact ih h last p hp x hx
    | connection_close =>
      simp only [retries_for] at h
      simp only [retries_from] at hp
      exact ih h last p hp x hx
    | fallback hn =>
      simp only [retries_for] at h
      simp only [retries_from] at hp
      exact ih h last p hp x hx
    | directive d a =>
      simp only [retries_for] at h
      simp only [retries_from] at hp
      exact ih h last p hp x hx
    | fixup_virtual_host =>
      simp only [retries_for] at h
      simp only [retries_from] at hp
      exact ih h last p hp x hx

theorem retries_for_search (host c f : List Char) (tr : List Event)
    (h : retries_for host tr) (hp : pending tr = true → c = host) :
    retries_for host (tr ++ [Event.search c f, Event.connection_close]) ∧
      pending (tr ++ [Event.search c f, Event.connection_close]) = false := by
  constructor
  · rw [retries_for_append]
    refine ⟨h, by simp [retries_for], ?_⟩
    intro hpt x hx
    simp only [searched_hostnames, List.head?_cons, Option.some.injEq] at hx
    rw [← hx]
    exact hp hpt
  · rw [pending_append]
    simp [pending, searched_hostnames]

theorem retries_for_quiet (host : List Char) (tr : List Event) (e : Event)
    (he : retries_for host [e]) (hs : searched_hostnames [e] = [])
    (h : retries_for host tr) : retries_for host (tr ++ [e]) := by
  rw [retries_for_append]
  refine ⟨h, he, ?_⟩
  intro _
  rw [hs]
  intro x hx
  simp at hx

/-- After every sleep of a run of the loop for the non-empty hostname `host`, the first
search that follows is for `host`. -/
theorem lookup_from_retries (env : Env) (conf : mod_vhost_ldap_config_t)
    (host : List Char) (serverp server : server_rec)
    (hne : at_end host = false)
    (hesc : env.ldap_bv2escaped_filter_value (cstr host) ≠ none)
    (n : Nat) (l : Label) (st : Locals) (r : lookup_result)
    (hst : retries_for host st.trace ∧
      (pending st.trace = true → l = Label.start_over ∨ l = Label.fallback host))
    (h : lookup_from env conf (some host) serverp server n l st = some r) :
    retries_for host r.trace := by
  refine lookup_from_induct env conf (some host) serverp server
    (fun r => retries_for host r.trace)
    (fun l st => retries_for host st.trace ∧
      (pending st.trace = true → l = Label.start_over ∨ l = Label.fallback host))
    ?_ ?_ n l st r hst h
  · intro l st r ⟨h1, h2⟩ hs
    cases l with
    | start_over =>
      simp only [lookup_step] at hs
      cases hh : conf.host with
      | none =>
        simp only [hh] at hs
        cases hs
        exact h1
      | some ch =>
        simp only [hh] at hs
        split_ifs at hs
    | fallback c =>
      have hc : pending st.trace = true → c = host := by
        intro hp
        rcases h2 hp with h | h
        · cases h
        · cases h; rfl
      simp only [lookup_step] at hs
      cases he : env.ldap_bv2escaped_filter_value (cstr c) with
      | none => simp [he] at hs
      | some shostname =>
        have hsr := retries_for_search host c
          (build_filter env.FILTER_LENGTH conf.filter shostname) st.trace h1 hc
        simp only [he] at hs
        split_ifs at hs
        · cases hs
          exact hsr.1
        · cases hs
          exact hsr.1
        · cases hs
          obtain ⟨ds, hds, hall⟩ := configure_vhost_trace env serverp server
            (load_request
              (env.util_ldap_cache_getuserdn st.searches
                (build_filter env.FILTER_LENGTH conf.filter shostname)).dn
              (env.util_ldap_cache_getuserdn st.searches
                (build_filter env.FILTER_LENGTH conf.filter shostname)).vals)
            (st.trace ++ [Event.search c
                (build_filter env.FILTER_LENGTH conf.filter shostname), Event.connection_close])
          rw [hds, retries_for_append]
          refine ⟨hsr.1, config_events_retries host ds hall, ?_⟩
          intro hp
          rw [hsr.2] at hp
          cases hp
    | null =>
      simp only [lookup_step] at hs
      cases hfb : conf.fallback with
      | none =>
        simp only [hfb] at hs
        cases hs
        exact h1
      | some fb =>
        simp only [hfb] at hs
        split_ifs at hs
        cases hs
        exact h1
  · intro l st l' st' ⟨h1, h2⟩ hs
    cases l with
    | start_over =>
      simp only [lookup_step] at hs
      cases hh : conf.host with
      | none => simp [hh] at hs
      | some ch =>
        simp only [hh, hne] at hs
        simp only [Bool.false_eq_true, if_false, Step.goto.injEq] at hs
        obtain ⟨rfl, rfl⟩ := hs
        exact ⟨retries_for_quiet host _ _ (by simp [retries_for]) (by simp [searched_hostnames]) h1,
          fun _ => Or.inr rfl⟩
    | fallback c =>
      have hc : pending st.trace = true → c = host := by
        intro hp
        rcases h2 hp with h | h
        · cases h
        · cases h; rfl
      simp only [lookup_step] at hs
      cases he : env.ldap_bv2escaped_filter_value (cstr c) with
      | none =>
        simp only [he, Step.goto.injEq] at hs
        obtain ⟨rfl, rfl⟩ := hs
        refine ⟨h1, fun hp => ?_⟩
        have := hc hp
        subst this
        exact absurd he hesc
      | some shostname =>
        have hsr := retries_for_search host c
          (build_filter env.FILTER_LENGTH conf.filter shostname) st.trace h1 hc
        simp only [he] at hs
        split_ifs at hs
        · simp only [Step.goto.injEq] at hs
          obtain ⟨rfl, rfl⟩ := hs
          exact ⟨retries_for_quiet host _ _ (by simp [retries_for, first_is, searched_hostnames])
            (by simp [searched_hostnames]) hsr.1, fun _ => Or.inl rfl⟩
        · simp only [Step.goto.injEq] at hs
          obtain ⟨rfl, rfl⟩ := hs
          exact ⟨hsr.1, fun hp => by rw [hsr.2] at hp; cases hp⟩
        · simp only [Step.goto.injEq] at hs
          obtain ⟨rfl, rfl⟩ := hs
          exact ⟨hsr.1, fun hp => by rw [hsr.2] at hp; cases hp⟩
    | null =>
      have hnp : pending st.trace = false := by
        cases hp : pending st.trace with
        | false => rfl
        | true => rcases h2 hp with h | h <;> cases h
      simp only [lookup_step] at hs
      cases hfb : conf.fallback with
      | none => simp [hfb] at hs
      | some fb =>
        simp only [hfb] at hs
        split_ifs at hs
        simp only [Step.goto.injEq] at hs
        obtain ⟨rfl, rfl⟩ := hs
        refine ⟨retries_for_quiet host _ _ (by simp [retries_for])
          (by simp [searched_hostnames]) h1, fun hp => ?_⟩
        rw [pending_append, hnp] at hp
        simp [pending] at hp

theorem example_filter_escape_some (value : List Char) : example_filter_escape value ≠ none := by
  unfold example_filter_escape
  split_ifs <;> simp

theorem example_env_accepts_all (answers : Nat → search_result) :
    accepts_all (example_env answers) := fun _ _ _ => rfl

theorem example_entry_valid :
    valid_request (load_request example_entry.dn example_entry.vals) := by decide

/-- C4, the failing input: an empty requested hostname with the fallback
`default.example.com` and a directory server that is down.  The only search, the one for
the fallback hostname, fails transiently; the lookup sleeps once, starts over, and
returns `HTTP_BAD_REQUEST` after that single search, where the specification has 6
searches, 5 sleeps and `HTTP_GATEWAY_TIME_OUT`. -/
theorem retry_skips_fallback :
    mod_vhost_ldap_lookup_vhost (example_env fun _ => server_down) example_conf_fallback
        (some []) ⟨0⟩
      = some ⟨HTTP_BAD_REQUEST, ⟨0⟩,
          [Event.connection_find, Event.fallback "default.example.com".toList,
           Event.search "default.example.com".toList
             ("(&(objectClass=scriptsVhost)(|(scriptsVhostName=default.example.com)"
               ++ "(scriptsVhostAlias=default.example.com)))").toList,
           Event.connection_close, Event.sleep 1, Event.connection_find]⟩ := by
  decide

/-- C5, counterexample: with the directory server down the five sleeps last 1, 2, 3, 5
and 8 seconds, not 0, 1, 1, 2 and 3. -/
theorem backoff_sleeps_counterexample :
    (mod_vhost_ldap_lookup_vhost (example_env fun _ => server_down) example_conf
        (some "foo.example.com".toList) ⟨0⟩).map (fun r => sleeps r.trace)
      = some [1, 2, 3, 5, 8] ∧
    (mod_vhost_ldap_lookup_vhost (example_env fun _ => server_down) example_conf
        (some "foo.example.com".toList) ⟨0⟩).map (fun r => sleeps r.trace)
      ≠ some [0, 1, 1, 2, 3] := by
  decide

/-- C6, witness: `VhostLDAPEnabled off`. -/
theorem lookup_declined_witness :
    ({ example_conf with enabled := mod_vhost_ldap_status_e.MVL_DISABLED }).enabled
        ≠ mod_vhost_ldap_status_e.MVL_ENABLED ∧
      mod_vhost_ldap_lookup_vhost (example_env fun _ => example_entry)
          { example_conf with enabled := mod_vhost_ldap_status_e.MVL_DISABLED }
          (some "foo.example.com".toList) ⟨0⟩
        = some ⟨DECLINED, ⟨0⟩, []⟩ :=
  ⟨by decide,
   lookup_declined (example_env fun _ => example_entry)
    { example_conf with enabled := mod_vhost_ldap_status_e.MVL_DISABLED }
    (some "foo.example.com".toList) ⟨0⟩ (Or.inl (by decide))⟩

/-- C7, witness: `foo.example.com` in an empty directory. -/
theorem lookup_not_found_witness :
    cstr "foo.example.com".toList ≠ [] ∧
      ∃ r, mod_vhost_ldap_lookup_vhost (example_env fun _ => not_found) example_conf
          (some "foo.example.com".toList) ⟨0⟩ = some r ∧
        r.code = HTTP_BAD_REQUEST ∧ r.code = 400 ∧ r.serverp = ⟨0⟩ :=
  ⟨by decide,
   lookup_not_found (example_env fun _ => not_found) example_conf "foo.example.com".toList
    ⟨0⟩ ⟨1⟩ (by decide) rfl (by decide) (by decide) rfl rfl (fun _ _ => rfl)⟩

/-- C9, counterexample: with the fallback `default.example.com` and nothing found, four
searches follow the substitution of the fallback hostname, not one. -/
theorem fallback_chain_not_found_counterexample :
    (mod_vhost_ldap_lookup_vhost (example_env fun _ => not_found) example_conf_fallback
        none ⟨0⟩).map (fun r => searched_hostnames (after_fallback r.trace))
      = some ["default.example.com".toList, "*.example.com".toList, "*.com".toList,
              "*".toList] ∧
    (mod_vhost_ldap_lookup_vhost (example_env fun _ => not_found) example_conf_fallback
        none ⟨0⟩).map (fun r => (searched_hostnames (after_fallback r.trace)).length)
      ≠ some 1 := by
  decide

/-- C10, counterexample: for `a.b`, when the search for the wildcard candidate `*.b` fails
transiently, the next search is for `a.b`, not for `*.b` again. -/
theorem retry_starts_over_counterexample :
    (mod_vhost_ldap_lookup_vhost
        (example_env fun n => if n = 1 then server_down else not_found) example_conf
        (some "a.b".toList) ⟨0⟩).map (fun r => (searched_hostnames r.trace, retries r.trace))
      = some (["a.b".toList, "*.b".toList, "a.b".toList, "*.b".toList, "*".toList],
              [("*.b".toList, some "a.b".toList)]) := by
  decide

/-! ### The outcome of a search -/

theorem append_split (e : Event) (rest post : List Event) :
    ∀ (tr pre : List Event), tr ++ rest = pre ++ e :: post →
    (∃ post', tr = pre ++ e :: post') ∨ (∃ pre', pre = tr ++ pre' ∧ rest = pre' ++ e :: post) := by
  intro tr
  induction tr with
  | nil => intro pre h; exact Or.inr ⟨pre, rfl, h⟩
  | cons x tr ih =>
    intro pre h
    cases pre with
    | nil =>
      simp only [List.cons_append, List.nil_append, List.cons.injEq] at h
      exact Or.inl ⟨tr, by simp [h.1]⟩
    | cons y pre =>
      simp only [List.cons_append, List.cons.injEq] at h
      rcases ih pre h.2 with ⟨post', hp⟩ | ⟨pre', hp1, hp2⟩
      · exact Or.inl ⟨post', by simp [h.1, hp]⟩
      · exact Or.inr ⟨pre', by simp [h.1, hp1], hp2⟩

theorem config_events_no_search (ds pre post : List Event) (h f : List Char)
    (hds : ∀ e ∈ ds, is_config_event e = true) : ds ≠ pre ++ Event.search h f :: post := by
  intro e
  have := hds (Event.search h f) (by rw [e]; simp)
  simp [is_config_event] at this

/-- Where a search event can sit in a trace that ends with a search, its close and
configuration events. -/
theorem search_split (tr ds pre post : List Event) (c f0 h f : List Char)
    (hds : ∀ e ∈ ds, is_config_event e = true)
    (heq : tr ++ (Event.search c f0 :: Event.connection_close :: ds)
      = pre ++ Event.search h f :: post) :
    (∃ post', tr = pre ++ Event.search h f :: post') ∨
      (pre = tr ∧ h = c ∧ f = f0 ∧ post = Event.connection_close :: ds) := by
  rcases append_split _ _ _ tr pre heq with h1 | ⟨pre', hp1, hp2⟩
  · exact Or.inl h1
  · right
    cases pre' with
    | nil =>
      simp only [List.nil_append, List.cons.injEq, Event.search.injEq] at hp2
      exact ⟨by simpa using hp1, hp2.1.1.symm, hp2.1.2.symm, hp2.2.symm⟩
    | cons x pre'' =>
      simp only [List.cons_append, List.cons.injEq] at hp2
      cases pre'' with
      | nil => simp at hp2
      | cons y p3 =>
        simp only [List.cons_append, List.cons.injEq] at hp2
        exact absurd hp2.2.2 (config_events_no_search ds p3 post h f hds)

theorem directives_initial (pre post : List Event) (h : directives (pre ++ post) = []) :
    directives pre = [] := by
  rw [directives_append] at h
  exact (List.append_eq_nil.mp h).1

/-- A trace whose searches all let the lookup go on satisfies `search_outcome`
whatever is returned with it. -/
theorem search_outcome_of_continue (env : Env) (serverp server : server_rec) (st : Locals)
    (code : Int) (hI : searches_continue env st) :
    search_outcome env serverp server ⟨code, serverp, st.trace⟩ := by
  intro pre h f post htr
  obtain ⟨_, hd, hc⟩ := hI
  have htr' : st.trace = pre ++ Event.search h f :: post := htr
  have hcont := hc pre h f post htr'
  rw [htr'] at hd
  refine ⟨directives_initial pre _ hd, ?_, ?_⟩
  · intro hf
    simp [is_fatal, hcont] at hf
  · intro hs
    rw [hs] at hcont
    simp [continues, is_transient] at hcont

/-- A trace extended by events that are not searches keeps `searches_continue`. -/
theorem searches_continue_quiet (env : Env) (st st' : Locals) (e : Event)
    (he : searched_hostnames [e] = []) (hd : directives [e] = [])
    (hs : st'.searches = st.searches) (ht : st'.trace = st.trace ++ [e])
    (hI : searches_continue env st) : searches_continue env st' := by
  obtain ⟨h1, h2, h3⟩ := hI
  refine ⟨?_, ?_, ?_⟩
  · rw [hs, ht, h1]
    simp [search_count, searched_hostnames_append, he]
  · rw [ht, directives_append, h2, hd]
    rfl
  · intro pre h f post htr
    rw [ht] at htr
    rcases append_split _ _ _ st.trace pre htr with ⟨post', hp⟩ | ⟨pre', _, hp2⟩
    · exact h3 pre h f post' hp
    · exfalso
      cases pre' with
      | nil =>
        simp only [List.nil_append, List.cons.injEq] at hp2
        rw [hp2.1] at he
        simp [searched_hostnames] at he
      | cons x p => simp at hp2

/-- A trace extended by a search with a result that lets the lookup go on, and its
close, keeps `searches_continue`. -/
theorem searches_continue_search (env : Env) (st : Locals) (c f0 : List Char)
    (hres : continues (env.util_ldap_cache_getuserdn st.searches f0).result = true)
    (hI : searches_continue env st) :
    ∀ st' : Locals, st'.searches = st.searches + 1 →
      st'.trace = st.trace ++ [Event.search c f0, Event.connection_close] →
      searches_continue env st' := by
  intro st' hs ht
  obtain ⟨h1, h2, h3⟩ := hI
  refine ⟨?_, ?_, ?_⟩
  · rw [hs, ht, h1]
    simp [search_count, searched_hostnames_append, searched_hostnames]
  · rw [ht, directives_append, h2]
    simp [directives]
  · intro pre h f post htr
    rw [ht] at htr
    rcases search_split st.trace [] pre post c f0 h f (by simp) htr with
      ⟨post', hp⟩ | ⟨rfl, rfl, rfl, _⟩
    · exact h3 pre h f post' hp
    · rw [← h1]; exact hres

/-- The outcome of a lookup that returns right after a search, or after the
configuration that follows it. -/
theorem search_outcome_last (env : Env) (serverp server : server_rec) (st : Locals)
    (c f0 : List Char) (r : lookup_result) (ds : List Event)
    (hI : searches_continue env st) (hds : ∀ e ∈ ds, is_config_event e = true)
    (htrace : r.trace = st.trace ++ (Event.search c f0 :: Event.connection_close :: ds))
    (hfatal : is_fatal (env.util_ldap_cache_getuserdn st.searches f0).result = true →
      ds = [] ∧ r.code = HTTP_INTERNAL_SERVER_ERROR ∧ r.serverp = serverp)
    (hsucc : (env.util_ldap_cache_getuserdn st.searches f0).result = ldap_result.LDAP_SUCCESS →
      r = configure_vhost env serverp server
        (load_request (env.util_ldap_cache_getuserdn st.searches f0).dn
          (env.util_ldap_cache_getuserdn st.searches f0).vals)
        (st.trace ++ [Event.search c f0, Event.connection_close])) :
    search_outcome env serverp server r := by
  intro pre h f post htr
  obtain ⟨h1, h2, h3⟩ := hI
  rw [htrace] at htr
  rcases search_split st.trace ds pre post c f0 h f hds htr with
    ⟨post', hp⟩ | ⟨rfl, rfl, rfl, hpost⟩
  · have hcont := h3 pre h f post' hp
    rw [hp] at h2
    refine ⟨directives_initial pre _ h2, ?_, ?_⟩
    · intro hf
      simp [is_fatal, hcont] at hf
    · intro hs
      rw [hs] at hcont
      simp [continues, is_transient] at hcont
  · rw [← h1]
    refine ⟨h2, ?_, ?_⟩
    · intro hf
      obtain ⟨hd, hc, hsp⟩ := hfatal hf
      exact ⟨by rw [hpost, hd], hc, hsp⟩
    · exact hsucc

/-- A jump keeps the locals of a running lookup in step with its trace. -/
theorem searches_continue_goto (env : Env) (conf : mod_vhost_ldap_config_t)
    (host : Option (List Char)) (serverp server : server_rec)
    (l : Label) (st : Locals) (l' : Label) (st' : Locals)
    (hI : searches_continue env st)
    (hs : lookup_step env conf host serverp server l st = Step.goto l' st') :
    searches_continue env st' := by
  cases l with
  | start_over =>
    simp only [lookup_step] at hs
    cases hh : conf.host with
    | none => simp [hh] at hs
    | some ch =>
      simp only [hh] at hs
      cases host with
      | none =>
        simp only [Step.goto.injEq] at hs
        obtain ⟨_, rfl⟩ := hs
        exact searches_continue_quiet env st _ Event.connection_find rfl rfl rfl rfl hI
      | some hostname =>
        simp only at hs
        split_ifs at hs <;>
        · simp only [Step.goto.injEq] at hs
          obtain ⟨_, rfl⟩ := hs
          exact searches_continue_quiet env st _ Event.connection_find rfl rfl rfl rfl hI
  | fallback c =>
    simp only [lookup_step] at hs
    cases he : env.ldap_bv2escaped_filter_value (cstr c) with
    | none =>
      simp only [he, Step.goto.injEq] at hs
      obtain ⟨_, rfl⟩ := hs
      exact hI
    | some shostname =>
      simp only [he] at hs
      split_ifs at hs with h1 h2 h3 h4
      · simp only [Step.goto.injEq] at hs
        obtain ⟨_, rfl⟩ := hs
        have hmid := searches_continue_search env st c
          (build_filter env.FILTER_LENGTH conf.filter shostname)
          (by simp [continues, h1]) hI
          { st with searches := st.searches + 1,
                    trace := st.trace ++ [Event.search c
                      (build_filter env.FILTER_LENGTH conf.filter shostname),
                      Event.connection_close] } rfl rfl
        exact searches_continue_quiet env
          { st with searches := st.searches + 1,
                    trace := st.trace ++ [Event.search c
                      (build_filter env.FILTER_LENGTH conf.filter shostname),
                      Event.connection_close] } _ (Event.sleep (st.sleep0 + st.sleep1))
          rfl rfl rfl rfl hmid
      · simp only [Step.goto.injEq] at hs
        obtain ⟨_, rfl⟩ := hs
        exact searches_continue_search env st c _ (by simp [continues, h3]) hI _ rfl rfl
      · simp only [Step.goto.injEq] at hs
        obtain ⟨_, rfl⟩ := hs
        exact searches_continue_search env st c _ (by simp [continues, h3]) hI _ rfl rfl
  | null =>
    simp only [lookup_step] at hs
    cases hfb : conf.fallback with
    | none => simp [hfb] at hs
    | some fb =>
      simp only [hfb] at hs
      split_ifs at hs
      simp only [Step.goto.injEq] at hs
      obtain ⟨_, rfl⟩ := hs
      exact searches_continue_quiet env st _ (Event.fallback fb) rfl rfl rfl rfl hI

/-- Invariant of the lookup loop: the result satisfies `search_outcome`. -/
theorem lookup_from_outcome (env : Env) (conf : mod_vhost_ldap_config_t)
    (host : Option (List Char)) (serverp server : server_rec)
    (n : Nat) (l : Label) (st : Locals) (r : lookup_result)
    (hst : searches_continue env st)
    (h : lookup_from env conf host serverp server n l st = some r) :
    search_outcome env serverp server r := by
  refine lookup_from_induct env conf host serverp server
    (fun r => search_outcome env serverp server r) (fun _ st => searches_continue env st)
    ?_ ?_ n l st r hst h
  · intro l st r hI hs
    cases l with
    | start_over =>
      simp only [lookup_step] at hs
      cases hh : conf.host with
      | none =>
        simp only [hh] at hs
        cases hs
        exact search_outcome_of_continue env serverp server st _ hI
      | some ch =>
        simp only [hh] at hs
        cases host with
        | none => simp at hs
        | some hostname =>
          simp only at hs
          split_ifs at hs
    | fallback c =>
      simp only [lookup_step] at hs
      cases he : env.ldap_bv2escaped_filter_value (cstr c) with
      | none => simp [he] at hs
      | some shostname =>
        simp only [he] at hs
        split_ifs at hs with h1 h2 h3 h4 h5
        · cases hs
          exact search_outcome_of_continue env serverp server
            { st with searches := st.searches + 1,
                      trace := st.trace ++ [Event.search c
                        (build_filter env.FILTER_LENGTH conf.filter shostname),
                        Event.connection_close] } _
            (searches_continue_search env st c _ (by simp [continues, h1]) hI _ rfl rfl)
        · cases hs
          refine search_outcome_last env serverp server st c
            (build_filter env.FILTER_LENGTH conf.filter shostname) _ [] hI (by simp) rfl
            (fun _ => ⟨rfl, rfl, rfl⟩) (fun hsucc => absurd hsucc h5)
        · cases hs
          have hsuc : (env.util_ldap_cache_getuserdn st.searches
              (build_filter env.FILTER_LENGTH conf.filter shostname)).result
              = ldap_result.LDAP_SUCCESS := by
            by_contra hne
            exact h5 hne
          obtain ⟨ds, hds, hall⟩ := configure_vhost_trace env serverp server
            (load_request
              (env.util_ldap_cache_getuserdn st.searches
                (build_filter env.FILTER_LENGTH conf.filter shostname)).dn
              (env.util_ldap_cache_getuserdn st.searches
                (build_filter env.FILTER_LENGTH conf.filter shostname)).vals)
            (st.trace ++ [Event.search c
                (build_filter env.FILTER_LENGTH conf.filter shostname), Event.connection_close])
          refine search_outcome_last env serverp server st c
            (build_filter env.FILTER_LENGTH conf.filter shostname) _ ds hI hall
            (by rw [hds]; simp) (fun hf => ?_) (fun _ => rfl)
          rw [hsuc] at hf
          simp [is_fatal] at hf
    | null =>
      simp only [lookup_step] at hs
      cases hfb : conf.fallback with
      | none =>
        simp only [hfb] at hs
        cases hs
        exact search_outcome_of_continue env serverp server st _ hI
      | some fb =>
        simp only [hfb] at hs
        split_ifs at hs
        cases hs
        exact search_outcome_of_continue env serverp server st _ hI
  · intro l st l' st' hI hs
    exact searches_continue_goto env conf host serverp server l st l' st' hI hs

/-- The outcome of every search of a lookup that got past its guards. -/
theorem lookup_outcome (env : Env) (conf : mod_vhost_ldap_config_t)
    (host : Option (List Char)) (serverp : server_rec) (r : lookup_result)
    (hr : mod_vhost_ldap_lookup_vhost env conf host serverp = some r)
    (pre : List Event) (h f : List Char) (post : List Event)
    (htr : r.trace = pre ++ Event.search h f :: post) :
    ∃ server, env.ap_init_virtual_host serverp = some server ∧
      search_outcome env serverp server r := by
  unfold mod_vhost_ldap_lookup_vhost at hr
  split_ifs at hr
  · cases hr; simp at htr
  · cases hi : env.ap_init_virtual_host serverp with
    | none => rw [hi] at hr; cases hr; simp at htr
    | some server =>
      rw [hi] at hr
      have h0 : searches_continue env initial_locals :=
        ⟨rfl, rfl, by intro pre h f post hp; simp [initial_locals] at hp⟩
      exact ⟨server, rfl, lookup_from_outcome env conf host serverp server _ _ _ r h0 hr⟩

theorem is_fatal_of_ne (result : ldap_result)
    (h1 : result ≠ ldap_result.LDAP_SUCCESS) (h2 : result ≠ ldap_result.LDAP_NO_SUCH_OBJECT)
    (h3 : result ≠ ldap_result.LDAP_SERVER_DOWN) (h4 : result ≠ ldap_result.LDAP_TIMEOUT)
    (h5 : result ≠ ldap_result.LDAP_CONNECT_ERROR) : is_fatal result = true := by
  simp [is_fatal, continues, is_transient, h1, h2, h3, h4, h5]

/-- C11: if a search of a lookup returns a result that is neither success, nor
no-such-object, nor a transient failure (server down, timeout, connect error), the
lookup returns `HTTP_INTERNAL_SERVER_ERROR` (500) right after it: the search is followed
by its close and nothing else (no further search, no sleep, no directive), no directive
was processed at all, and `*serverp` is unchanged. -/
theorem fatal_result_ends_lookup (env : Env) (conf : mod_vhost_ldap_config_t)
    (host : Option (List Char)) (serverp : server_rec) (r : lookup_result)
    (pre : List Event) (h f : List Char) (post : List Event)
    (hr : mod_vhost_ldap_lookup_vhost env conf host serverp = some r)
    (htr : r.trace = pre ++ Event.search h f :: post)
    (h1 : (env.util_ldap_cache_getuserdn (search_count pre) f).result
      ≠ ldap_result.LDAP_SUCCESS)
    (h2 : (env.util_ldap_cache_getuserdn (search_count pre) f).result
      ≠ ldap_result.LDAP_NO_SUCH_OBJECT)
    (h3 : (env.util_ldap_cache_getuserdn (search_count pre) f).result
      ≠ ldap_result.LDAP_SERVER_DOWN)
    (h4 : (env.util_ldap_cache_getuserdn (search_count pre) f).result
      ≠ ldap_result.LDAP_TIMEOUT)
    (h5 : (env.util_ldap_cache_getuserdn (search_count pre) f).result
      ≠ ldap_result.LDAP_CONNECT_ERROR) :
    r.code = HTTP_INTERNAL_SERVER_ERROR ∧ r.code = 500 ∧ r.serverp = serverp ∧
      post = [Event.connection_close] ∧ directives r.trace = [] := by
  obtain ⟨server, _, hout⟩ := lookup_outcome env conf host serverp r hr pre h f post htr
  obtain ⟨hd, hf, _⟩ := hout pre h f post htr
  obtain ⟨hp, hc, hs⟩ := hf (is_fatal_of_ne _ h1 h2 h3 h4 h5)
  refine ⟨hc, hc, hs, hp, ?_⟩
  rw [htr, hp, directives_append, hd]
  rfl

/-- C11, witness: `foo.example.com` looked up in a directory that refuses the bind. -/
theorem fatal_result_ends_lookup_witness :
    mod_vhost_ldap_lookup_vhost (example_env fun _ => bind_refused) example_conf_fallback
        (some "foo.example.com".toList) ⟨0⟩
      = some ⟨500, ⟨0⟩, [Event.connection_find,
          Event.search "foo.example.com".toList
            (candidate_filter (example_env fun _ => bind_refused) example_conf_fallback
              "foo.example.com".toList),
          Event.connection_close]⟩ ∧
    (500 : Int) = HTTP_INTERNAL_SERVER_ERROR ∧ (500 : Int) = 500 ∧
      (⟨0⟩ : server_rec) = ⟨0⟩ ∧ [Event.connection_close] = [Event.connection_close] ∧
      directives [Event.connection_find,
          Event.search "foo.example.com".toList
            (candidate_filter (example_env fun _ => bind_refused) example_conf_fallback
              "foo.example.com".toList),
          Event.connection_close] = [] :=
  ⟨by decide,
   fatal_result_ends_lookup (example_env fun _ => bind_refused) example_conf_fallback
    (some "foo.example.com".toList) ⟨0⟩
    ⟨500, ⟨0⟩, [Event.connection_find,
      Event.search "foo.example.com".toList
        (candidate_filter (example_env fun _ => bind_refused) example_conf_fallback
          "foo.example.com".toList),
      Event.connection_close]⟩
    [Event.connection_find] "foo.example.com".toList
    (candidate_filter (example_env fun _ => bind_refused) example_conf_fallback
      "foo.example.com".toList)
    [Event.connection_close] (by decide) rfl (by decide) (by decide) (by decide) (by decide)
    (by decide)⟩

/-- A request record without name, home or directory is refused before any directive. -/
theorem configure_vhost_missing (env : Env) (serverp server : server_rec)
    (reqc : mod_vhost_ldap_request_t) (tr : List Event)
    (h : reqc.name = none ∨ reqc.home = none ∨ reqc.directory = none) :
    configure_vhost env serverp server reqc tr = ⟨HTTP_INTERNAL_SERVER_ERROR, serverp, tr⟩ := by
  unfold configure_vhost
  cases hn : reqc.name with
  | none => rfl
  | some name =>
    cases hh : reqc.home with
    | none => rfl
    | some home =>
      cases hd : reqc.directory with
      | none => rfl
      | some directory =>
        rw [hn, hh, hd] at h
        simp at h

theorem load_request_no_values (dn : Option (List Char)) :
    (load_request dn none).name = none ∧ (load_request dn none).home = none ∧
      (load_request dn none).directory = none := ⟨rfl, rfl, rfl⟩

/-- C17: after a successful search, if the server name, the home directory or the
relative directory is missing from the mapped record, or the search returned no value
array at all, the lookup returns `HTTP_INTERNAL_SERVER_ERROR` (500), no directive has
been processed, the search is followed by its close only, and `*serverp` is unchanged. -/
theorem missing_attribute_returns_500 (env : Env) (conf : mod_vhost_ldap_config_t)
    (host : Option (List Char)) (serverp : server_rec) (r : lookup_result)
    (pre : List Event) (h f : List Char) (post : List Event)
    (hr : mod_vhost_ldap_lookup_vhost env conf host serverp = some r)
    (htr : r.trace = pre ++ Event.search h f :: post)
    (hok : (env.util_ldap_cache_getuserdn (search_count pre) f).result
      = ldap_result.LDAP_SUCCESS)
    (hmiss : (env.util_ldap_cache_getuserdn (search_count pre) f).vals = none ∨
      (load_request (env.util_ldap_cache_getuserdn (search_count pre) f).dn
        (env.util_ldap_cache_getuserdn (search_count pre) f).vals).name = none ∨
      (load_request (env.util_ldap_cache_getuserdn (search_count pre) f).dn
        (env.util_ldap_cache_getuserdn (search_count pre) f).vals).home = none ∨
      (load_request (env.util_ldap_cache_getuserdn (search_count pre) f).dn
        (env.util_ldap_cache_getuserdn (search_count pre) f).vals).directory = none) :
    r.code = HTTP_INTERNAL_SERVER_ERROR ∧ r.code = 500 ∧ directives r.trace = [] ∧
      post = [Event.connection_close] ∧ r.serverp = serverp := by
  obtain ⟨server, _, hout⟩ := lookup_outcome env conf host serverp r hr pre h f post htr
  obtain ⟨hd, _, hs⟩ := hout pre h f post htr
  have hmiss' : (load_request (env.util_ldap_cache_getuserdn (search_count pre) f).dn
        (env.util_ldap_cache_getuserdn (search_count pre) f).vals).name = none ∨
      (load_request (env.util_ldap_cache_getuserdn (search_count pre) f).dn
        (env.util_ldap_cache_getuserdn (search_count pre) f).vals).home = none ∨
      (load_request (env.util_ldap_cache_getuserdn (search_count pre) f).dn
        (env.util_ldap_cache_getuserdn (search_count pre) f).vals).directory = none := by
    rcases hmiss with hv | hm
    · rw [hv]
      exact Or.inl rfl
    · exact hm
  have hreq := hs hok
  rw [configure_vhost_missing env serverp server _ _ hmiss'] at hreq
  have hpost : post = [Event.connection_close] := by
    have ht : r.trace = pre ++ [Event.search h f, Event.connection_close] := by rw [hreq]
    rw [htr] at ht
    simpa using ht
  refine ⟨by rw [hreq], by rw [hreq]; rfl, ?_, hpost, by rw [hreq]⟩
  rw [htr, hpost, directives_append, hd]
  rfl

/-- C17, witness: an entry without `homeDirectory`, found by the second search. -/
theorem missing_attribute_returns_500_witness :
    mod_vhost_ldap_lookup_vhost
        (example_env fun n => if n = 0 then not_found else entry_without_home) example_conf
        (some "a.b".toList) ⟨0⟩
      = some ⟨500, ⟨0⟩, [Event.connection_find,
          Event.search "a.b".toList
            (candidate_filter (example_env fun _ => not_found) example_conf "a.b".toList),
          Event.connection_close,
          Event.search "*.b".toList
            (candidate_filter (example_env fun _ => not_found) example_conf "*.b".toList),
          Event.connection_close]⟩ ∧
    (500 : Int) = HTTP_INTERNAL_SERVER_ERROR ∧ (500 : Int) = 500 ∧
      directives [Event.connection_find,
          Event.search "a.b".toList
            (candidate_filter (example_env fun _ => not_found) example_conf "a.b".toList),
          Event.connection_close,
          Event.search "*.b".toList
            (candidate_filter (example_env fun _ => not_found) example_conf "*.b".toList),
          Event.connection_close] = [] ∧
      [Event.connection_close] = [Event.connection_close] ∧ (⟨0⟩ : server_rec) = ⟨0⟩ :=
  ⟨by decide,
   missing_attribute_returns_500
    (example_env fun n => if n = 0 then not_found else entry_without_home) example_conf
    (some "a.b".toList) ⟨0⟩
    ⟨500, ⟨0⟩, [Event.connection_find,
      Event.search "a.b".toList
        (candidate_filter (example_env fun _ => not_found) example_conf "a.b".toList),
      Event.connection_close,
      Event.search "*.b".toList
        (candidate_filter (example_env fun _ => not_found) example_conf "*.b".toList),
      Event.connection_close]⟩
    [Event.connection_find,
      Event.search "a.b".toList
        (candidate_filter (example_env fun _ => not_found) example_conf "a.b".toList),
      Event.connection_close]
    "*.b".toList
    (candidate_filter (example_env fun _ => not_found) example_conf "*.b".toList)
    [Event.connection_close] (by decide) rfl (by decide) (by decide)⟩

/-- Case rule for one directive that keeps the status the directive returned. -/
theorem apply_directive_status (Q : lookup_result → Prop) (env : Env) (serverp : server_rec)
    (n : Nat) (dir args : List Char) (tr : List Event) (rest : List Event → lookup_result)
    (hfail : reconfigure_directive env n dir args ≠ 0 →
      Q ⟨reconfigure_directive env n dir args, serverp, tr ++ [Event.directive dir args]⟩)
    (hrest : reconfigure_directive env n dir args = 0 →
      Q (rest (tr ++ [Event.directive dir args]))) :
    Q (apply_directive env serverp n dir args tr rest) := by
  unfold apply_directive
  split_ifs with h
  · exact hfail h
  · exact hrest (by simpa using h)

theorem replaced_iff_ok_error (serverp server : server_rec) (code : Int) (tr : List Event)
    (h : code ≠ 0) :
    replaced_iff_ok serverp server (tr.count Event.fixup_virtual_host) ⟨code, serverp, tr⟩ :=
  ⟨fun hc => absurd hc h, fun _ => ⟨rfl, rfl⟩⟩

theorem replaced_iff_ok_directive (serverp server : server_rec) (tr : List Event)
    (dir args : List Char) (r : lookup_result)
    (h : replaced_iff_ok serverp server
      ((tr ++ [Event.directive dir args]).count Event.fixup_virtual_host) r) :
    replaced_iff_ok serverp server (tr.count Event.fixup_virtual_host) r := by
  have e : (tr ++ [Event.directive dir args]).count Event.fixup_virtual_host
      = tr.count Event.fixup_virtual_host := by
    rw [List.count_append]
    simp [List.count_cons]
  rw [e] at h
  exact h

theorem replaced_iff_ok_directive_error (serverp server : server_rec) (code : Int)
    (tr : List Event) (dir args : List Char) (h : code ≠ 0) :
    replaced_iff_ok serverp server (tr.count Event.fixup_virtual_host)
      ⟨code, serverp, tr ++ [Event.directive dir args]⟩ :=
  replaced_iff_ok_directive serverp server tr dir args _
    (replaced_iff_ok_error serverp server code _ h)

theorem finish_vhost_replaced (env : Env) (serverp server : server_rec) (n : Nat)
    (tr : List Event) :
    replaced_iff_ok serverp server (tr.count Event.fixup_virtual_host)
      (finish_vhost env serverp server n tr) := by
  unfold finish_vhost
  apply apply_directive_cases (replaced_iff_ok serverp server _)
  · intro code hc
    exact replaced_iff_ok_directive_error serverp server code tr _ _ hc
  · intro _
    refine ⟨fun _ => ⟨rfl, ?_⟩, fun hc => absurd rfl hc⟩
    simp only [List.count_append]
    simp [List.count_cons]

theorem suexec_directives_replaced (env : Env) (serverp server : server_rec) (uid : List Char)
    (gid username : Option (List Char)) (tr : List Event) :
    replaced_iff_ok serverp server (tr.count Event.fixup_virtual_host)
      (suexec_directives env serverp server uid gid username tr) := by
  unfold suexec_directives
  cases gid with
  | none => exact replaced_iff_ok_error serverp server _ tr (by decide)
  | some gid =>
    simp only
    apply apply_directive_cases (replaced_iff_ok serverp server _)
    · intro code hc
      exact replaced_iff_ok_directive_error serverp server code tr _ _ hc
    · intro _
      apply replaced_iff_ok_directive
      apply apply_directive_cases (replaced_iff_ok serverp server _)
      · intro code hc
        exact replaced_iff_ok_directive_error serverp server code _ _ _ hc
      · intro _
        apply replaced_iff_ok_directive
        apply apply_directive_cases (replaced_iff_ok serverp server _)
        · intro code hc
          exact replaced_iff_ok_directive_error serverp server code _ _ _ hc
        · intro _
          apply replaced_iff_ok_directive
          cases username with
          | none => exact replaced_iff_ok_error serverp server _ _ (by decide)
          | some username =>
            simp only
            apply apply_directive_cases (replaced_iff_ok serverp server _)
            · intro code hc
              exact replaced_iff_ok_directive_error serverp server code _ _ _ hc
            · intro _
              apply replaced_iff_ok_directive
              exact finish_vhost_replaced _ _ _ _ _

theorem configure_vhost_replaced (env : Env) (serverp server : server_rec)
    (reqc : mod_vhost_ldap_request_t) (tr : List Event) :
    replaced_iff_ok serverp server (tr.count Event.fixup_virtual_host)
      (configure_vhost env serverp server reqc tr) := by
  unfold configure_vhost
  cases reqc.name with
  | none => exact replaced_iff_ok_error serverp server _ tr (by decide)
  | some name =>
    cases reqc.home with
    | none => exact replaced_iff_ok_error serverp server _ tr (by decide)
    | some home =>
      cases reqc.directory with
      | none => exact replaced_iff_ok_error serverp server _ tr (by decide)
      | some directory =>
        simp only
        apply apply_directive_cases (replaced_iff_ok serverp server _)
        · intro code hc
          exact replaced_iff_ok_directive_error serverp server code tr _ _ hc
        · intro _
          apply replaced_iff_ok_directive
          apply apply_directive_cases (replaced_iff_ok serverp server _)
          · intro code hc
            exact replaced_iff_ok_directive_error serverp server code _ _ _ hc
          · intro _
            apply replaced_iff_ok_directive
            cases reqc.uid with
            | none => exact finish_vhost_replaced _ _ _ _ _
            | some uid => exact suexec_directives_replaced _ _ _ _ _ _ _

/-- Invariant of the lookup loop: `*serverp` is replaced exactly when `OK` is returned. -/
theorem lookup_from_replaced (env : Env) (conf : mod_vhost_ldap_config_t)
    (host : Option (List Char)) (serverp server : server_rec)
    (n : Nat) (l : Label) (st : Locals) (r : lookup_result)
    (hst : st.trace.count Event.fixup_virtual_host = 0)
    (h : lookup_from env conf host serverp server n l st = some r) :
    replaced_iff_ok serverp server 0 r := by
  refine lookup_from_induct env conf host serverp server
    (fun r => replaced_iff_ok serverp server 0 r)
    (fun _ st => st.trace.count Event.fixup_virtual_host = 0)
    ?_ ?_ n l st r hst h
  · intro l st r hI hs
    cases l with
    | start_over =>
      simp only [lookup_step] at hs
      cases hh : conf.host with
      | none =>
        simp only [hh] at hs
        cases hs
        rw [← hI]
        exact replaced_iff_ok_error serverp server _ _ (by decide)
      | some ch =>
        simp only [hh] at hs
        cases host with
        | none => simp at hs
        | some hostname =>
          simp only at hs
          split_ifs at hs
    | fallback c =>
      simp only [lookup_step] at hs
      cases he : env.ldap_bv2escaped_filter_value (cstr c) with
      | none => simp [he] at hs
      | some shostname =>
        have hc : (st.trace ++ [Event.search c
            (build_filter env.FILTER_LENGTH conf.filter shostname),
            Event.connection_close]).count Event.fixup_virtual_host = 0 := by
          rw [List.count_append, hI]
          simp [List.count_cons]
        simp only [he] at hs
        split_ifs at hs
        · cases hs
          rw [← hc]
          exact replaced_iff_ok_error serverp server _ _ (by decide)
        · cases hs
          rw [← hc]
          exact replaced_iff_ok_error serverp server _ _ (by decide)
        · cases hs
          rw [← hc]
          exact configure_vhost_replaced env serverp server _ _
    | null =>
      simp only [lookup_step] at hs
      cases hfb : conf.fallback with
      | none =>
        simp only [hfb] at hs
        cases hs
        rw [← hI]
        exact replaced_iff_ok_error serverp server _ _ (by decide)
      | some fb =>
        simp only [hfb] at hs
        split_ifs at hs
        cases hs
        rw [← hI]
        exact replaced_iff_ok_error serverp server _ _ (by decide)
  · intro l st l' st' hI hs
    cases l with
    | start_over =>
      simp only [lookup_step] at hs
      cases hh : conf.host with
      | none => simp [hh] at hs
      | some ch =>
        simp only [hh] at hs
        cases host with
        | none =>
          simp only [Step.goto.injEq] at hs
          obtain ⟨_, rfl⟩ := hs
          simp only [List.count_append, hI]
          simp [List.count_cons]
        | some hostname =>
          simp only at hs
          split_ifs at hs <;>
          · simp only [Step.goto.injEq] at hs
            obtain ⟨_, rfl⟩ := hs
            simp only [List.count_append, hI]
            simp [List.count_cons]
    | fallback c =>
      simp only [lookup_step] at hs
      cases he : env.ldap_bv2escaped_filter_value (cstr c) with
      | none =>
        simp only [he, Step.goto.injEq] at hs
        obtain ⟨_, rfl⟩ := hs
        exact hI
      | some shostname =>
        simp only [he] at hs
        split_ifs at hs <;>
        · simp only [Step.goto.injEq] at hs
          obtain ⟨_, rfl⟩ := hs
          simp only [List.count_append, hI]
          simp [List.count_cons]
    | null =>
      simp only [lookup_step] at hs
      cases hfb : conf.fallback with
      | none => simp [hfb] at hs
      | some fb =>
        simp only [hfb] at hs
        split_ifs at hs
        simp only [Step.goto.injEq] at hs
        obtain ⟨_, rfl⟩ := hs
        simp only [List.count_append, hI]
        simp [List.count_cons]

/-- A finished lookup replaced `*serverp` exactly when it returned `OK`. -/
theorem lookup_replaced (env : Env) (conf : mod_vhost_ldap_config_t)
    (host : Option (List Char)) (serverp : server_rec) (r : lookup_result)
    (hr : mod_vhost_ldap_lookup_vhost env conf host serverp = some r) :
    (r.code ≠ OK → r.serverp = serverp ∧ Event.fixup_virtual_host ∉ r.trace) ∧
      (r.code = OK → ∃ server, env.ap_init_virtual_host serverp = some server ∧
        r.serverp = server ∧ Event.fixup_virtual_host ∈ r.trace) := by
  unfold mod_vhost_ldap_lookup_vhost at hr
  split_ifs at hr
  · cases hr
    exact ⟨fun _ => ⟨rfl, by simp⟩, fun h => absurd h (by decide : DECLINED ≠ OK)⟩
  · cases hi : env.ap_init_virtual_host serverp with
    | none =>
      rw [hi] at hr
      cases hr
      exact ⟨fun _ => ⟨rfl, by simp⟩,
        fun h => absurd h (by decide : HTTP_INTERNAL_SERVER_ERROR ≠ OK)⟩
    | some server =>
      rw [hi] at hr
      obtain ⟨h1, h2⟩ := lookup_from_replaced env conf host serverp server _ _ _ r
        (by simp [initial_locals]) hr
      refine ⟨fun hne => ⟨(h2 hne).1, ?_⟩, fun hok => ⟨server, rfl, (h1 hok).1, ?_⟩⟩
      · exact List.count_eq_zero.mp (h2 hne).2
      · have := (h1 hok).2
        exact List.count_pos_iff.mp (by omega)

/-- C14: the caller's server reference is replaced by the new virtual host if and only
if the lookup returns `OK`.  For every environment (directory answers and directive
statuses), configuration, hostname and server the lookup returns, and: when the status
returned is not `OK`, `*serverp` is what it was on entry and nothing was stored in it;
when it is `OK`, `*serverp` is the virtual host built for this lookup, stored by
`fixup_virtual_host`. -/
theorem server_replaced_iff_ok (env : Env) (conf : mod_vhost_ldap_config_t)
    (host : Option (List Char)) (serverp : server_rec) :
    ∃ r, mod_vhost_ldap_lookup_vhost env conf host serverp = some r ∧
      (r.code ≠ OK → r.serverp = serverp ∧ Event.fixup_virtual_host ∉ r.trace) ∧
      (r.code = OK → ∃ server, env.ap_init_virtual_host serverp = some server ∧
        r.serverp = server ∧ Event.fixup_virtual_host ∈ r.trace) := by
  obtain ⟨r, hr⟩ := lookup_returns env conf host serverp
  exact ⟨r, hr, lookup_replaced env conf host serverp r hr⟩

theorem incomplete_status_error (env : Env) (serverp : server_rec) (tr : List Event) :
    incomplete_status env ⟨HTTP_INTERNAL_SERVER_ERROR, serverp, tr⟩ :=
  ⟨(by decide : HTTP_INTERNAL_SERVER_ERROR ≠ OK), fun _ => rfl⟩

theorem incomplete_status_rejected (env : Env) (serverp : server_rec) (n : Nat)
    (dir args : List Char) (tr : List Event) (h : reconfigure_directive env n dir args ≠ 0) :
    incomplete_status env ⟨reconfigure_directive env n dir args, serverp, tr⟩ := by
  refine ⟨h, fun hc => ?_⟩
  rcases hc n dir args with h0 | h5
  · exact absurd h0 h
  · exact h5

/-- With a uid and without a gid or a username, the directives end in an error. -/
theorem configure_vhost_incomplete (env : Env) (serverp server : server_rec)
    (reqc : mod_vhost_ldap_request_t) (tr : List Event)
    (hu : reqc.uid ≠ none) (hm : reqc.gid = none ∨ reqc.username = none) :
    incomplete_status env (configure_vhost env serverp server reqc tr) := by
  unfold configure_vhost
  cases reqc.name with
  | none => exact incomplete_status_error env serverp tr
  | some name =>
    cases reqc.home with
    | none => exact incomplete_status_error env serverp tr
    | some home =>
      cases reqc.directory with
      | none => exact incomplete_status_error env serverp tr
      | some directory =>
        simp only
        apply apply_directive_status (incomplete_status env)
        · exact incomplete_status_rejected env serverp _ _ _ _
        · intro _
          apply apply_directive_status (incomplete_status env)
          · exact incomplete_status_rejected env serverp _ _ _ _
          · intro _
            cases huid : reqc.uid with
            | none => exact absurd huid hu
            | some uid =>
              simp only
              unfold suexec_directives
              cases hg : reqc.gid with
              | none => exact incomplete_status_error env serverp _
              | some gid =>
                cases hun : reqc.username with
                | some username =>
                  rw [hg, hun] at hm
                  simp at hm
                | none =>
                  simp only
                  apply apply_directive_status (incomplete_status env)
                  · exact incomplete_status_rejected env serverp _ _ _ _
                  · intro _
                    apply apply_directive_status (incomplete_status env)
                    · exact incomplete_status_rejected env serverp _ _ _ _
                    · intro _
                      apply apply_directive_status (incomplete_status env)
                      · exact incomplete_status_rejected env serverp _ _ _ _
                      · intro _
                        exact incomplete_status_error env serverp _

/-! ### The search a successful lookup rests on -/

/-- Invariant of the lookup loop: a lookup that returns `OK` is the configuration of an
entry that one of its searches found. -/
theorem lookup_from_found (env : Env) (conf : mod_vhost_ldap_config_t)
    (host : Option (List Char)) (serverp server : server_rec)
    (n : Nat) (l : Label) (st : Locals) (r : lookup_result)
    (hst : searches_continue env st)
    (h : lookup_from env conf host serverp server n l st = some r) :
    r.code = OK → ∃ pre h f, found_by env serverp server r pre h f := by
  refine lookup_from_induct env conf host serverp server
    (fun r => r.code = OK → ∃ pre h f, found_by env serverp server r pre h f)
    (fun _ st => searches_continue env st)
    ?_ (searches_continue_goto env conf host serverp server) n l st r hst h
  intro l st r hI hs
  cases l with
  | start_over =>
    simp only [lookup_step] at hs
    cases hh : conf.host with
    | none =>
      simp only [hh] at hs
      cases hs
      intro hok
      exact absurd hok (by decide : HTTP_INTERNAL_SERVER_ERROR ≠ OK)
    | some ch =>
      simp only [hh] at hs
      cases host with
      | none => simp at hs
      | some hostname =>
        simp only at hs
        split_ifs at hs
  | fallback c =>
    simp only [lookup_step] at hs
    cases he : env.ldap_bv2escaped_filter_value (cstr c) with
    | none => simp [he] at hs
    | some shostname =>
      simp only [he] at hs
      split_ifs at hs with h1 h2 h3 h4 h5
      · cases hs
        intro hok
        exact absurd hok (by decide : HTTP_GATEWAY_TIME_OUT ≠ OK)
      · cases hs
        intro hok
        exact absurd hok (by decide : HTTP_INTERNAL_SERVER_ERROR ≠ OK)
      · cases hs
        intro _
        have hsuc : (env.util_ldap_cache_getuserdn st.searches
            (build_filter env.FILTER_LENGTH conf.filter shostname)).result
            = ldap_result.LDAP_SUCCESS := by
          by_contra hne
          exact h5 hne
        refine ⟨st.trace, c, build_filter env.FILTER_LENGTH conf.filter shostname, ?_⟩
        unfold found_by
        rw [← hI.1]
        exact ⟨hsuc, rfl⟩
  | null =>
    simp only [lookup_step] at hs
    cases hfb : conf.fallback with
    | none =>
      simp only [hfb] at hs
      cases hs
      intro hok
      exact absurd hok (by decide : HTTP_BAD_REQUEST ≠ OK)
    | some fb =>
      simp only [hfb] at hs
      split_ifs at hs
      cases hs
      intro hok
      exact absurd hok (by decide : HTTP_BAD_REQUEST ≠ OK)

/-- A lookup that returns `OK` is the configuration of an entry one of its searches
found. -/
theorem lookup_found (env : Env) (conf : mod_vhost_ldap_config_t)
    (host : Option (List Char)) (serverp : server_rec) (r : lookup_result)
    (hr : mod_vhost_ldap_lookup_vhost env conf host serverp = some r) (hok : r.code = OK) :
    ∃ server pre h f, env.ap_init_virtual_host serverp = some server ∧
      found_by env serverp server r pre h f := by
  unfold mod_vhost_ldap_lookup_vhost at hr
  split_ifs at hr
  · cases hr
    exact absurd hok (by decide : DECLINED ≠ OK)
  · cases hi : env.ap_init_virtual_host serverp with
    | none =>
      rw [hi] at hr
      cases hr
      exact absurd hok (by decide : HTTP_INTERNAL_SERVER_ERROR ≠ OK)
    | some server =>
      rw [hi] at hr
      have h0 : searches_continue env initial_locals :=
        ⟨rfl, rfl, by intro pre h f post hp; simp [initial_locals] at hp⟩
      obtain ⟨pre, h, f, hf⟩ :=
        lookup_from_found env conf host serverp server _ _ _ r h0 hr hok
      exact ⟨server, pre, h, f, rfl, hf⟩

/-! ### The strings of the request record -/

theorem cstr_nul_free (s : List Char) : NUL ∉ cstr s := by
  induction s with
  | nil => simp [cstr]
  | cons c cs ih =>
    unfold cstr
    split_ifs with h
    · simp
    · intro hm
      rcases List.mem_cons.1 hm with e | e
      · exact h e.symm
      · exact ih e

theorem nul_free_map_attribute (reqc : mod_vhost_ldap_request_t) (attr : List Char)
    (val : Option (List Char)) (hv : ∀ s, val = some s → NUL ∉ s)
    (h : nul_free_request reqc) : nul_free_request (map_attribute reqc attr val) := by
  obtain ⟨h1, h2, h3, h4, h5, h6⟩ := h
  unfold map_attribute
  split_ifs
  · exact ⟨h1, h2, h3, hv, h5, h6⟩
  · exact ⟨h1, h2, h3, h4, hv, h6⟩
  · exact ⟨h1, h2, h3, h4, h5, hv⟩
  · exact ⟨h1, hv, h3, h4, h5, h6⟩
  · exact ⟨h1, h2, hv, h4, h5, h6⟩
  · exact ⟨hv, h2, h3, h4, h5, h6⟩
  · exact ⟨h1, h2, h3, h4, h5, h6⟩

theorem nul_free_map_attributes (vals : List (Option (List Char))) (attrs : List (List Char)) :
    ∀ (i : Nat) (reqc : mod_vhost_ldap_request_t), nul_free_request reqc →
      nul_free_request (map_attributes vals i attrs reqc) := by
  induction attrs with
  | nil => intro i reqc h; exact h
  | cons a attrs ih =>
    intro i reqc h
    unfold map_attributes
    apply ih
    apply nul_free_map_attribute _ _ _ _ h
    intro s hs
    cases hj : (vals.get? i).join with
    | none => rw [hj] at hs; simp at hs
    | some v =>
      rw [hj] at hs
      simp only [Option.map_some', Option.some.injEq] at hs
      rw [← hs]
      exact cstr_nul_free v

/-- The strings of a record loaded from a search are C strings. -/
theorem load_request_nul_free (dn : Option (List Char))
    (vals : Option (List (Option (List Char)))) : nul_free_request (load_request dn vals) := by
  have h0 : nul_free_request
      { dn := dn.map cstr, name := none, home := none, directory := none,
        uid := none, username := none, gid := none } := by
    refine ⟨?_, ?_, ?_, ?_, ?_, ?_⟩ <;> intro s hs <;> simp at hs
  unfold load_request
  cases vals with
  | none => exact h0
  | some vals => exact nul_free_map_attributes vals attributes 0 _ h0

theorem escape_spec_nul_free (s : List Char) (h : NUL ∉ s) : NUL ∉ escape_spec s := by
  induction s with
  | nil => simp [escape_spec]
  | cons c cs ih =>
    have hc : NUL ≠ c := fun e => h (by simp [e])
    have hcs : NUL ∉ cs := fun e => h (by simp [e])
    unfold escape_spec
    split_ifs
    · intro hm
      rcases List.mem_cons.1 hm with e | hm
      · exact absurd e (by decide)
      · rcases List.mem_cons.1 hm with e | hm
        · exact hc e
        · exact ih hcs hm
    · intro hm
      rcases List.mem_cons.1 hm with e | hm
      · exact hc e
      · exact ih hcs hm

theorem escape_nul_free (s : List Char) (h : NUL ∉ s) : NUL ∉ escape s := by
  rw [escape_eq_spec s h]
  exact escape_spec_nul_free s h

theorem cstr_escape (s : List Char) (h : NUL ∉ s) : cstr (escape s) = escape s :=
  cstr_of_nul_free _ (escape_nul_free s h)

/-- The document root of the code is the one the specification words. -/
theorem docroot_eq_spec (home directory : List Char) (hh : NUL ∉ home)
    (hd : NUL ∉ directory) : docroot home directory = spec_docroot home directory := by
  have e1 : cstr ".".toList = ".".toList := by decide
  have e2 : cstr "/web_scripts".toList = "/web_scripts".toList := by decide
  have e3 : cstr "/web_scripts/".toList = "/web_scripts/".toList := by decide
  unfold docroot spec_docroot streq apr_pstrcat2 apr_pstrcat3
  rw [cstr_of_nul_free home hh, cstr_of_nul_free directory hd, e1, e2, e3]
  simp

theorem spec_docroot_nul_free (home directory : List Char) (hh : NUL ∉ home)
    (hd : NUL ∉ directory) : NUL ∉ spec_docroot home directory := by
  have e2 : NUL ∉ "/web_scripts".toList := by decide
  have e3 : NUL ∉ "/web_scripts/".toList := by decide
  unfold spec_docroot
  split_ifs
  · simp only [List.mem_append, not_or]
    exact ⟨hh, e2⟩
  · simp only [List.mem_append, not_or]
    exact ⟨⟨hh, e3⟩, hd⟩

/-! ### The directives of a found entry -/

theorem applied_error (code : Int) (serverp : server_rec) (tr : List Event)
    (ds : List (List Char × List Char)) (h : code ≠ OK) : applied tr ds ⟨code, serverp, tr⟩ :=
  ⟨0, by simp, fun hok => absurd hok h⟩

theorem applied_done (server : server_rec) (tr : List Event) :
    applied tr [] ⟨OK, server, tr ++ [Event.fixup_virtual_host]⟩ :=
  ⟨0, by simp [directives_append, directives], fun _ => Nat.le_refl _⟩

/-- One directive of the list: it is processed, and the rest follows if it is accepted. -/
theorem applied_step (env : Env) (serverp : server_rec) (n : Nat) (dir args : List Char)
    (tr : List Event) (rest : List Event → lookup_result) (ds : List (List Char × List Char))
    (h : applied (tr ++ [Event.directive dir args]) ds (rest (tr ++ [Event.directive dir args]))) :
    applied tr ((dir, args) :: ds) (apply_directive env serverp n dir args tr rest) := by
  apply apply_directive_cases (applied tr ((dir, args) :: ds))
  · intro code hc
    exact ⟨1, by simp [directives_append, directives], fun hok => absurd hok hc⟩
  · intro _
    obtain ⟨k, hk, hlen⟩ := h
    refine ⟨k + 1, ?_, fun hok => ?_⟩
    · rw [hk, directives_append]
      simp [directives]
    · have := hlen hok
      simp only [List.length_cons]
      omega

theorem applied_finish (env : Env) (serverp server : server_rec) (n : Nat) (tr : List Event) :
    applied tr [("VhostLDAPEnabled".toList, "off".toList)]
      (finish_vhost env serverp server n tr) := by
  unfold finish_vhost
  exact applied_step env serverp n _ _ tr _ [] (applied_done server _)

theorem pstrcat3_quote (s : List Char) (h : NUL ∉ s) :
    apr_pstrcat3 "'".toList (escape s) "'".toList = "'".toList ++ escape s ++ "'".toList := by
  have e : cstr "'".toList = "'".toList := by decide
  unfold apr_pstrcat3
  rw [cstr_escape s h, e]

theorem pstrcat3_enabled (s : List Char) (h : NUL ∉ s) :
    apr_pstrcat3 "enabled '".toList (escape s) "'".toList
      = "enabled '".toList ++ escape s ++ "'".toList := by
  have e : cstr "'".toList = "'".toList := by decide
  have e2 : cstr "enabled '".toList = "enabled '".toList := by decide
  unfold apr_pstrcat3
  rw [cstr_escape s h, e, e2]

theorem pstrcat5_suexec (uid gid : List Char) (hu : NUL ∉ uid) (hg : NUL ∉ gid) :
    apr_pstrcat5 "'#".toList (escape uid) "' '#".toList (escape gid) "'".toList
      = "'#".toList ++ escape uid ++ "' '#".toList ++ escape gid ++ "'".toList := by
  have e : cstr "'".toList = "'".toList := by decide
  have e2 : cstr "'#".toList = "'#".toList := by decide
  have e3 : cstr "' '#".toList = "' '#".toList := by decide
  unfold apr_pstrcat5
  rw [cstr_escape uid hu, cstr_escape gid hg, e, e2, e3]

theorem pstrcat3_userdir :
    apr_pstrcat3 "'".toList (escape USERDIR) "'".toList = "'web_scripts'".toList := by
  decide

/-- The directives `configure_vhost` processes are, in order, the first ones of the list
of the specification, and the whole list when it returns `OK`. -/
theorem configure_vhost_applied (env : Env) (serverp server : server_rec)
    (reqc : mod_vhost_ldap_request_t) (tr : List Event) (hz : nul_free_request reqc) :
    applied tr (spec_directives reqc) (configure_vhost env serverp server reqc tr) := by
  obtain ⟨z1, z2, z3, z4, z5, z6⟩ := hz
  unfold configure_vhost spec_directives
  cases hn : reqc.name with
  | none => exact applied_error _ _ _ _ (by decide)
  | some name =>
    cases hh : reqc.home with
    | none => exact applied_error _ _ _ _ (by decide)
    | some home =>
      cases hd : reqc.directory with
      | none => exact applied_error _ _ _ _ (by decide)
      | some directory =>
        simp only [Option.getD_some]
        rw [pstrcat3_quote name (z1 name hn),
          docroot_eq_spec home directory (z2 home hh) (z3 directory hd),
          pstrcat3_quote _ (spec_docroot_nul_free home directory (z2 home hh) (z3 directory hd))]
        simp only [List.cons_append, List.nil_append]
        apply applied_step
        apply applied_step
        cases hu : reqc.uid with
        | none => exact applied_finish env serverp server 2 _
        | some uid =>
          simp only
          unfold suexec_directives
          cases hg : reqc.gid with
          | none => exact applied_error _ _ _ _ (by decide)
          | some gid =>
            simp only [Option.getD_some]
            rw [pstrcat5_suexec uid gid (z4 uid hu) (z6 gid hg), pstrcat3_userdir]
            simp only [List.cons_append, List.nil_append]
            apply applied_step
            apply applied_step
            apply applied_step
            cases hun : reqc.username with
            | none => exact applied_error _ _ _ _ (by decide)
            | some username =>
              simp only [Option.getD_some]
              rw [pstrcat3_enabled username (z5 username hun)]
              apply applied_step
              exact applied_finish env serverp server 6 _

/-- The record `configure_vhost` accepts has all a virtual host needs. -/
theorem configure_vhost_ok_valid (env : Env) (serverp server : server_rec)
    (reqc : mod_vhost_ldap_request_t) (tr : List Event)
    (hok : (configure_vhost env serverp server reqc tr).code = OK) : valid_request reqc := by
  by_contra hv
  have hcases : (reqc.name = none ∨ reqc.home = none ∨ reqc.directory = none) ∨
      (reqc.uid ≠ none ∧ (reqc.gid = none ∨ reqc.username = none)) := by
    unfold valid_request at hv
    by_contra hc
    push_neg at hc
    apply hv
    refine ⟨hc.1.1, hc.1.2.1, hc.1.2.2, fun hu => ?_⟩
    by_contra hgu
    have := hc.2 hu
    push_neg at hgu
    by_cases hg : reqc.gid = none
    · exact this.1 hg
    · exact this.2 (hgu (fun h => hg h))
  rcases hcases with hm | ⟨hu, hm⟩
  · rw [configure_vhost_missing env serverp server reqc tr hm] at hok
    exact absurd hok (by decide : HTTP_INTERNAL_SERVER_ERROR ≠ OK)
  · exact (configure_vhost_incomplete env serverp server reqc tr hu hm).1 hok

/-- The directives of a lookup whose search at `pre` succeeded: the first ones of the
list of the specification for the entry found, all of them when the lookup returned
`OK`. -/
theorem lookup_applied (env : Env) (conf : mod_vhost_ldap_config_t)
    (host : Option (List Char)) (serverp : server_rec) (r : lookup_result)
    (pre : List Event) (h f : List Char) (post : List Event)
    (hr : mod_vhost_ldap_lookup_vhost env conf host serverp = some r)
    (htr : r.trace = pre ++ Event.search h f :: post)
    (hok : (env.util_ldap_cache_getuserdn (search_count pre) f).result
      = ldap_result.LDAP_SUCCESS) :
    ∃ k, directives r.trace
        = (spec_directives (load_request (env.util_ldap_cache_getuserdn (search_count pre) f).dn
            (env.util_ldap_cache_getuserdn (search_count pre) f).vals)).take k ∧
      (r.code = OK →
        (spec_directives (load_request (env.util_ldap_cache_getuserdn (search_count pre) f).dn
            (env.util_ldap_cache_getuserdn (search_count pre) f).vals)).length ≤ k) := by
  obtain ⟨server, _, hout⟩ := lookup_outcome env conf host serverp r hr pre h f post htr
  obtain ⟨hd, _, hs⟩ := hout pre h f post htr
  have hreq := hs hok
  obtain ⟨k, hk, hlen⟩ := configure_vhost_applied env serverp server
    (load_request (env.util_ldap_cache_getuserdn (search_count pre) f).dn
      (env.util_ldap_cache_getuserdn (search_count pre) f).vals)
    (pre ++ [Event.search h f, Event.connection_close]) (load_request_nul_free _ _)
  rw [← hreq] at hk hlen
  refine ⟨k, ?_, hlen⟩
  rw [hk, directives_append, hd]
  simp [directives]

/-- C15: a lookup that returns `OK` (so every directive it processed returned 0) found
an entry by one of its searches, the entry has name, home and directory, and with a uid
also gid and username, and the directives processed are exactly, in this order:
`ServerName '<name>'`, `DocumentRoot '<docroot>'`, then only with a uid
`SuexecUserGroup '#<uid>' '#<gid>'`, `UserDir 'web_scripts'`, `UserDir disabled`,
`UserDir enabled '<username>'`, and last `VhostLDAPEnabled off`, every value escaped.
For the entry of the example these are `ServerName 'foo.example.com'`,
`DocumentRoot '/mit/foo/web_scripts'`, `SuexecUserGroup '#1234' '#5678'`,
`UserDir 'web_scripts'`, `UserDir disabled`, `UserDir enabled 'foo'`,
`VhostLDAPEnabled off`. -/
theorem directives_in_order (env : Env) (conf : mod_vhost_ldap_config_t)
    (host : Option (List Char)) (serverp : server_rec) (r : lookup_result)
    (hr : mod_vhost_ldap_lookup_vhost env conf host serverp = some r) (hok : r.code = OK) :
    (∃ pre h f post, r.trace = pre ++ Event.search h f :: post ∧
      (env.util_ldap_cache_getuserdn (search_count pre) f).result = ldap_result.LDAP_SUCCESS ∧
      valid_request (load_request (env.util_ldap_cache_getuserdn (search_count pre) f).dn
        (env.util_ldap_cache_getuserdn (search_count pre) f).vals) ∧
      directives r.trace
        = spec_directives (load_request (env.util_ldap_cache_getuserdn (search_count pre) f).dn
            (env.util_ldap_cache_getuserdn (search_count pre) f).vals)) ∧
    spec_directives (load_request example_entry.dn example_entry.vals)
      = [("ServerName".toList, "'foo.example.com'".toList),
         ("DocumentRoot".toList, "'/mit/foo/web_scripts'".toList),
         ("SuexecUserGroup".toList, "'#1234' '#5678'".toList),
         ("UserDir".toList, "'web_scripts'".toList),
         ("UserDir".toList, "disabled".toList),
         ("UserDir".toList, "enabled 'foo'".toList),
         ("VhostLDAPEnabled".toList, "off".toList)] := by
  refine ⟨?_, by decide⟩
  obtain ⟨server, pre, h, f, _, hres, hreq⟩ := lookup_found env conf host serverp r hr hok
  obtain ⟨ds, hds, _⟩ := configure_vhost_trace env serverp server
    (load_request (env.util_ldap_cache_getuserdn (search_count pre) f).dn
      (env.util_ldap_cache_getuserdn (search_count pre) f).vals)
    (pre ++ [Event.search h f, Event.connection_close])
  rw [← hreq] at hds
  have htr : r.trace = pre ++ Event.search h f :: (Event.connection_close :: ds) := by
    rw [hds]
    simp
  obtain ⟨k, hk, hlen⟩ := lookup_applied env conf host serverp r pre h f _ hr htr hres
  refine ⟨pre, h, f, _, htr, hres, ?_, ?_⟩
  · apply configure_vhost_ok_valid env serverp server _
      (pre ++ [Event.search h f, Event.connection_close])
    rw [← hreq]
    exact hok
  · rw [hk]
    exact List.take_of_length_le (hlen hok)

/-- C15, witness: the lookup of the example. -/
theorem directives_in_order_witness :
    mod_vhost_ldap_lookup_vhost (example_env fun _ => example_entry) example_conf
        (some "foo.example.com".toList) ⟨0⟩
      = some ⟨0, ⟨1⟩, [Event.connection_find,
          Event.search "foo.example.com".toList
            (candidate_filter (example_env fun _ => not_found) example_conf
              "foo.example.com".toList),
          Event.connection_close,
          Event.directive "ServerName".toList "'foo.example.com'".toList,
          Event.directive "DocumentRoot".toList "'/mit/foo/web_scripts'".toList,
          Event.directive "SuexecUserGroup".toList "'#1234' '#5678'".toList,
          Event.directive "UserDir".toList "'web_scripts'".toList,
          Event.directive "UserDir".toList "disabled".toList,
          Event.directive "UserDir".toList "enabled 'foo'".toList,
          Event.directive "VhostLDAPEnabled".toList "off".toList,
          Event.fixup_virtual_host]⟩ ∧
    ((∃ pre h f post, [Event.connection_find,
          Event.search "foo.example.com".toList
            (candidate_filter (example_env fun _ => not_found) example_conf
              "foo.example.com".toList),
          Event.connection_close,
          Event.directive "ServerName".toList "'foo.example.com'".toList,
          Event.directive "DocumentRoot".toList "'/mit/foo/web_scripts'".toList,
          Event.directive "SuexecUserGroup".toList "'#1234' '#5678'".toList,
          Event.directive "UserDir".toList "'web_scripts'".toList,
          Event.directive "UserDir".toList "disabled".toList,
          Event.directive "UserDir".toList "enabled 'foo'".toList,
          Event.directive "VhostLDAPEnabled".toList "off".toList,
          Event.fixup_virtual_host] = pre ++ Event.search h f :: post ∧
      ((example_env fun _ => example_entry).util_ldap_cache_getuserdn (search_count pre) f).result
        = ldap_result.LDAP_SUCCESS ∧
      valid_request (load_request
        ((example_env fun _ => example_entry).util_ldap_cache_getuserdn (search_count pre) f).dn
        ((example_env fun _ => example_entry).util_ldap_cache_getuserdn
          (search_count pre) f).vals) ∧
      directives [Event.connection_find,
          Event.search "foo.example.com".toList
            (candidate_filter (example_env fun _ => not_found) example_conf
              "foo.example.com".toList),
          Event.connection_close,
          Event.directive "ServerName".toList "'foo.example.com'".toList,
          Event.directive "DocumentRoot".toList "'/mit/foo/web_scripts'".toList,
          Event.directive "SuexecUserGroup".toList "'#1234' '#5678'".toList,
          Event.directive "UserDir".toList "'web_scripts'".toList,
          Event.directive "UserDir".toList "disabled".toList,
          Event.directive "UserDir".toList "enabled 'foo'".toList,
          Event.directive "VhostLDAPEnabled".toList "off".toList,
          Event.fixup_virtual_host]
        = spec_directives (load_request
            ((example_env fun _ => example_entry).util_ldap_cache_getuserdn
              (search_count pre) f).dn
            ((example_env fun _ => example_entry).util_ldap_cache_getuserdn
              (search_count pre) f).vals)) ∧
    spec_directives (load_request example_entry.dn example_entry.vals)
      = [("ServerName".toList, "'foo.example.com'".toList),
         ("DocumentRoot".toList, "'/mit/foo/web_scripts'".toList),
         ("SuexecUserGroup".toList, "'#1234' '#5678'".toList),
         ("UserDir".toList, "'web_scripts'".toList),
         ("UserDir".toList, "disabled".toList),
         ("UserDir".toList, "enabled 'foo'".toList),
         ("VhostLDAPEnabled".toList, "off".toList)]) :=
  ⟨by decide,
   directives_in_order (example_env fun _ => example_entry) example_conf
    (some "foo.example.com".toList) ⟨0⟩
    ⟨0, ⟨1⟩, [Event.connection_find,
      Event.search "foo.example.com".toList
        (candidate_filter (example_env fun _ => not_found) example_conf
          "foo.example.com".toList),
      Event.connection_close,
      Event.directive "ServerName".toList "'foo.example.com'".toList,
      Event.directive "DocumentRoot".toList "'/mit/foo/web_scripts'".toList,
      Event.directive "SuexecUserGroup".toList "'#1234' '#5678'".toList,
      Event.directive "UserDir".toList "'web_scripts'".toList,
      Event.directive "UserDir".toList "disabled".toList,
      Event.directive "UserDir".toList "enabled 'foo'".toList,
      Event.directive "VhostLDAPEnabled".toList "off".toList,
      Event.fixup_virtual_host]⟩
    (by decide) rfl⟩

/-- The only `DocumentRoot` of the list of the specification is its second directive. -/
theorem spec_directives_docroot (reqc : mod_vhost_ldap_request_t) (args : List Char)
    (h : ("DocumentRoot".toList, args) ∈ spec_directives reqc) :
    args = "'".toList ++ escape (spec_docroot (reqc.home.getD []) (reqc.directory.getD []))
      ++ "'".toList := by
  have n1 : "DocumentRoot".toList ≠ "ServerName".toList := by decide
  have n2 : "DocumentRoot".toList ≠ "SuexecUserGroup".toList := by decide
  have n3 : "DocumentRoot".toList ≠ "UserDir".toList := by decide
  have n4 : "DocumentRoot".toList ≠ "VhostLDAPEnabled".toList := by decide
  unfold spec_directives at h
  cases hu : reqc.uid with
  | none =>
    rw [hu] at h
    simp only [List.append_nil, List.mem_append, List.mem_cons, Prod.mk.injEq,
      List.mem_singleton, List.not_mem_nil, or_false] at h
    rcases h with (⟨e, _⟩ | ⟨_, e⟩) | ⟨e, _⟩
    · exact absurd e n1
    · exact e
    · exact absurd e n4
  | some uid =>
    rw [hu] at h
    simp only [List.mem_append, List.mem_cons, Prod.mk.injEq,
      List.mem_singleton, List.not_mem_nil, or_false] at h
    rcases h with ((⟨e, _⟩ | ⟨_, e⟩) | (⟨e, _⟩ | ⟨e, _⟩ | ⟨e, _⟩ | ⟨e, _⟩)) | ⟨e, _⟩
    · exact absurd e n1
    · exact e
    · exact absurd e n2
    · exact absurd e n3
    · exact absurd e n3
    · exact absurd e n3
    · exact absurd e n4

theorem spec_directives_has_docroot (reqc : mod_vhost_ldap_request_t) :
    ("DocumentRoot".toList,
      "'".toList ++ escape (spec_docroot (reqc.home.getD []) (reqc.directory.getD []))
        ++ "'".toList) ∈ spec_directives reqc := by
  unfold spec_directives
  simp

theorem spec_docroot_dot (home directory : List Char) :
    spec_docroot home directory = home ++ "/web_scripts".toList ↔ directory = ".".toList := by
  unfold spec_docroot
  constructor
  · intro h
    by_contra hne
    rw [if_neg hne, List.append_assoc] at h
    have hl := congrArg List.length (List.append_cancel_left h)
    simp at hl
  · intro h
    rw [if_pos h]

/-- C16: for the entry a successful search found, with home directory `home` and
relative directory `directory`, every `DocumentRoot` directive of the lookup has the
argument `'` ++ `escape docroot` ++ `'`, and a lookup that returns `OK` has processed it;
`docroot` is `home ++ "/web_scripts"` when `directory` is the one-character string `.`,
and `home ++ "/web_scripts/" ++ directory` for every other directory, so it is
`home ++ "/web_scripts"` exactly when `directory` is `.`. -/
theorem document_root_argument (env : Env) (conf : mod_vhost_ldap_config_t)
    (host : Option (List Char)) (serverp : server_rec) (r : lookup_result)
    (pre : List Event) (h f : List Char) (post : List Event) (home directory : List Char)
    (hr : mod_vhost_ldap_lookup_vhost env conf host serverp = some r)
    (htr : r.trace = pre ++ Event.search h f :: post)
    (hok : (env.util_ldap_cache_getuserdn (search_count pre) f).result
      = ldap_result.LDAP_SUCCESS)
    (hh : (load_request (env.util_ldap_cache_getuserdn (search_count pre) f).dn
        (env.util_ldap_cache_getuserdn (search_count pre) f).vals).home = some home)
    (hd : (load_request (env.util_ldap_cache_getuserdn (search_count pre) f).dn
        (env.util_ldap_cache_getuserdn (search_count pre) f).vals).directory = some directory) :
    (∀ args, ("DocumentRoot".toList, args) ∈ directives r.trace →
      args = "'".toList ++ escape (docroot home directory) ++ "'".toList) ∧
    (r.code = OK →
      ("DocumentRoot".toList, "'".toList ++ escape (docroot home directory) ++ "'".toList)
        ∈ directives r.trace) ∧
    (directory = ".".toList → docroot home directory = home ++ "/web_scripts".toList) ∧
    (directory ≠ ".".toList →
      docroot home directory = home ++ "/web_scripts/".toList ++ directory) ∧
    (docroot home directory = home ++ "/web_scripts".toList ↔ directory = ".".toList) := by
  obtain ⟨_, z2, z3, _⟩ := load_request_nul_free
    (env.util_ldap_cache_getuserdn (search_count pre) f).dn
    (env.util_ldap_cache_getuserdn (search_count pre) f).vals
  have hdoc := docroot_eq_spec home directory (z2 home hh) (z3 directory hd)
  obtain ⟨k, hk, hlen⟩ := lookup_applied env conf host serverp r pre h f post hr htr hok
  refine ⟨fun args hm => ?_, fun hc => ?_, fun hdot => ?_, fun hne => ?_, ?_⟩
  · rw [hk] at hm
    have := spec_directives_docroot _ args (List.mem_of_mem_take hm)
    rw [hh, hd] at this
    rw [hdoc]
    exact this
  · rw [hk, List.take_of_length_le (hlen hc), hdoc]
    have := spec_directives_has_docroot
      (load_request (env.util_ldap_cache_getuserdn (search_count pre) f).dn
        (env.util_ldap_cache_getuserdn (search_count pre) f).vals)
    rw [hh, hd] at this
    exact this
  · rw [hdoc]
    exact (spec_docroot_dot home directory).2 hdot
  · rw [hdoc]
    unfold spec_docroot
    rw [if_neg hne]
  · rw [hdoc]
    exact spec_docroot_dot home directory

/-- C16, witness: the entry of the example, whose relative directory is `.`. -/
theorem document_root_argument_witness :
    mod_vhost_ldap_lookup_vhost (example_env fun _ => example_entry) example_conf
        (some "foo.example.com".toList) ⟨0⟩
      = some ⟨0, ⟨1⟩, [Event.connection_find,
          Event.search "foo.example.com".toList
            (candidate_filter (example_env fun _ => not_found) example_conf
              "foo.example.com".toList),
          Event.connection_close,
          Event.directive "ServerName".toList "'foo.example.com'".toList,
          Event.directive "DocumentRoot".toList "'/mit/foo/web_scripts'".toList,
          Event.directive "SuexecUserGroup".toList "'#1234' '#5678'".toList,
          Event.directive "UserDir".toList "'web_scripts'".toList,
          Event.directive "UserDir".toList "disabled".toList,
          Event.directive "UserDir".toList "enabled 'foo'".toList,
          Event.directive "VhostLDAPEnabled".toList "off".toList,
          Event.fixup_virtual_host]⟩ ∧
    ((∀ args, ("DocumentRoot".toList, args) ∈ directives [Event.connection_find,
          Event.search "foo.example.com".toList
            (candidate_filter (example_env fun _ => not_found) example_conf
              "foo.example.com".toList),
          Event.connection_close,
          Event.directive "ServerName".toList "'foo.example.com'".toList,
          Event.directive "DocumentRoot".toList "'/mit/foo/web_scripts'".toList,
          Event.directive "SuexecUserGroup".toList "'#1234' '#5678'".toList,
          Event.directive "UserDir".toList "'web_scripts'".toList,
          Event.directive "UserDir".toList "disabled".toList,
          Event.directive "UserDir".toList "enabled 'foo'".toList,
          Event.directive "VhostLDAPEnabled".toList "off".toList,
          Event.fixup_virtual_host] →
      args = "'".toList ++ escape (docroot "/mit/foo".toList ".".toList) ++ "'".toList) ∧
    ((0 : Int) = OK →
      ("DocumentRoot".toList,
        "'".toList ++ escape (docroot "/mit/foo".toList ".".toList) ++ "'".toList)
        ∈ directives [Event.connection_find,
          Event.search "foo.example.com".toList
            (candidate_filter (example_env fun _ => not_found) example_conf
              "foo.example.com".toList),
          Event.connection_close,
          Event.directive "ServerName".toList "'foo.example.com'".toList,
          Event.directive "DocumentRoot".toList "'/mit/foo/web_scripts'".toList,
          Event.directive "SuexecUserGroup".toList "'#1234' '#5678'".toList,
          Event.directive "UserDir".toList "'web_scripts'".toList,
          Event.directive "UserDir".toList "disabled".toList,
          Event.directive "UserDir".toList "enabled 'foo'".toList,
          Event.directive "VhostLDAPEnabled".toList "off".toList,
          Event.fixup_virtual_host]) ∧
    (".".toList = ".".toList →
      docroot "/mit/foo".toList ".".toList = "/mit/foo".toList ++ "/web_scripts".toList) ∧
    (".".toList ≠ ".".toList →
      docroot "/mit/foo".toList ".".toList
        = "/mit/foo".toList ++ "/web_scripts/".toList ++ ".".toList) ∧
    (docroot "/mit/foo".toList ".".toList = "/mit/foo".toList ++ "/web_scripts".toList
      ↔ ".".toList = ".".toList)) ∧
    docroot "/mit/foo".toList "blog".toList = "/mit/foo/web_scripts/blog".toList :=
  ⟨by decide,
   document_root_argument (example_env fun _ => example_entry) example_conf
    (some "foo.example.com".toList) ⟨0⟩
    ⟨0, ⟨1⟩, [Event.connection_find,
      Event.search "foo.example.com".toList
        (candidate_filter (example_env fun _ => not_found) example_conf
          "foo.example.com".toList),
      Event.connection_close,
      Event.directive "ServerName".toList "'foo.example.com'".toList,
      Event.directive "DocumentRoot".toList "'/mit/foo/web_scripts'".toList,
      Event.directive "SuexecUserGroup".toList "'#1234' '#5678'".toList,
      Event.directive "UserDir".toList "'web_scripts'".toList,
      Event.directive "UserDir".toList "disabled".toList,
      Event.directive "UserDir".toList "enabled 'foo'".toList,
      Event.directive "VhostLDAPEnabled".toList "off".toList,
      Event.fixup_virtual_host]⟩
    [Event.connection_find]
    "foo.example.com".toList
    (candidate_filter (example_env fun _ => not_found) example_conf "foo.example.com".toList)
    [Event.connection_close,
      Event.directive "ServerName".toList "'foo.example.com'".toList,
      Event.directive "DocumentRoot".toList "'/mit/foo/web_scripts'".toList,
      Event.directive "SuexecUserGroup".toList "'#1234' '#5678'".toList,
      Event.directive "UserDir".toList "'web_scripts'".toList,
      Event.directive "UserDir".toList "disabled".toList,
      Event.directive "UserDir".toList "enabled 'foo'".toList,
      Event.directive "VhostLDAPEnabled".toList "off".toList,
      Event.fixup_virtual_host]
    "/mit/foo".toList ".".toList
    (by decide) rfl (by decide) (by decide) (by decide),
   by decide⟩

/-! ### Merged configurations -/

/-- C18: the merged configuration has the `enabled` status of the child when the child
has one (`MVL_ENABLED` or `MVL_DISABLED`), and that of the parent only when the child
has `MVL_UNSET`.  So a lookup under a merged configuration whose child is
`MVL_DISABLED`, as `VhostLDAPEnabled off` leaves it, returns `DECLINED` whatever the
parent says, without any side effect and with `*serverp` as it was. -/
theorem child_enabled_wins (parent child : mod_vhost_ldap_config_t) :
    (child.enabled ≠ mod_vhost_ldap_status_e.MVL_UNSET →
      (mod_vhost_ldap_merge_server_config parent child).enabled = child.enabled) ∧
    (child.enabled = mod_vhost_ldap_status_e.MVL_UNSET →
      (mod_vhost_ldap_merge_server_config parent child).enabled = parent.enabled) ∧
    ((mod_vhost_ldap_merge_server_config parent child).enabled = parent.enabled →
      child.enabled = mod_vhost_ldap_status_e.MVL_UNSET ∨ child.enabled = parent.enabled) ∧
    (child.enabled = mod_vhost_ldap_status_e.MVL_DISABLED →
      ∀ (env : Env) (host : Option (List Char)) (serverp : server_rec),
        mod_vhost_ldap_lookup_vhost env (mod_vhost_ldap_merge_server_config parent child)
          host serverp = some ⟨DECLINED, serverp, []⟩) ∧
    (∀ (env : Env) (host : Option (List Char)) (serverp : server_rec),
      mod_vhost_ldap_lookup_vhost env
        (mod_vhost_ldap_merge_server_config parent (mod_vhost_ldap_set_enabled child 0))
        host serverp = some ⟨DECLINED, serverp, []⟩) := by
  have hdis : ∀ c : mod_vhost_ldap_config_t,
      c.enabled = mod_vhost_ldap_status_e.MVL_DISABLED →
      ∀ (env : Env) (host : Option (List Char)) (serverp : server_rec),
        mod_vhost_ldap_lookup_vhost env (mod_vhost_ldap_merge_server_config parent c)
          host serverp = some ⟨DECLINED, serverp, []⟩ := by
    intro c hc env host serverp
    unfold mod_vhost_ldap_lookup_vhost
    rw [if_pos]
    left
    simp [mod_vhost_ldap_merge_server_config, hc]
  refine ⟨fun h => ?_, fun h => ?_, fun h => ?_, hdis child, hdis _ rfl⟩
  · simp [mod_vhost_ldap_merge_server_config, h]
  · simp [mod_vhost_ldap_merge_server_config, h]
  · by_cases hu : child.enabled = mod_vhost_ldap_status_e.MVL_UNSET
    · exact Or.inl hu
    · right
      simpa [mod_vhost_ldap_merge_server_config, hu] using h

/-- C18, witness: the parent enables the engine and has the LDAP URL, the child says
`VhostLDAPEnabled off`; the lookup under the merged configuration is declined, while
with a child that says nothing the entry is found under the parent's settings. -/
theorem child_enabled_wins_witness :
    mod_vhost_ldap_lookup_vhost (example_env fun _ => example_entry)
        (mod_vhost_ldap_merge_server_config example_conf
          (mod_vhost_ldap_set_enabled
            { example_conf with enabled := mod_vhost_ldap_status_e.MVL_UNSET,
                                have_ldap_url := 0, url := none, host := none } 0))
        (some "foo.example.com".toList) ⟨0⟩ = some ⟨DECLINED, ⟨0⟩, []⟩ ∧
    (mod_vhost_ldap_lookup_vhost (example_env fun _ => example_entry)
        (mod_vhost_ldap_merge_server_config example_conf
          { example_conf with enabled := mod_vhost_ldap_status_e.MVL_UNSET,
                              have_ldap_url := 0, url := none, host := none })
        (some "foo.example.com".toList) ⟨0⟩).map (fun r => r.code) = some OK :=
  ⟨(child_enabled_wins example_conf
      { example_conf with enabled := mod_vhost_ldap_status_e.MVL_UNSET,
                          have_ldap_url := 0, url := none, host := none }).2.2.2.2
      (example_env fun _ => example_entry) (some "foo.example.com".toList) ⟨0⟩,
   by decide⟩

/-! ### The filter of a search -/

theorem filters_composed_append (env : Env) (conf : mod_vhost_ldap_config_t)
    (a b : List Event) (ha : filters_composed env conf a) (hb : filters_composed env conf b) :
    filters_composed env conf (a ++ b) := by
  intro h f hm
  rcases List.mem_append.1 hm with hm | hm
  · exact ha h f hm
  · exact hb h f hm

theorem filters_composed_quiet (env : Env) (conf : mod_vhost_ldap_config_t)
    (ds : List Event) (hds : searched_hostnames ds = []) : filters_composed env conf ds := by
  intro h f hm
  exfalso
  induction ds with
  | nil => simp at hm
  | cons e ds ih =>
    rcases List.mem_cons.1 hm with rfl | hm
    · simp [searched_hostnames] at hds
    · cases e <;> simp_all [searched_hostnames]

theorem filters_composed_search (env : Env) (conf : mod_vhost_ldap_config_t)
    (c : List Char) (shostname : Option (List Char))
    (he : env.ldap_bv2escaped_filter_value (cstr c) = some shostname) :
    filters_composed env conf
      [Event.search c (build_filter env.FILTER_LENGTH conf.filter shostname),
        Event.connection_close] := by
  intro h f hm
  simp only [List.mem_cons, Event.search.injEq, List.mem_singleton, List.not_mem_nil,
    or_false, reduceCtorEq] at hm
  obtain ⟨rfl, rfl⟩ := hm
  exact ⟨shostname, he, rfl⟩

/-- Invariant of the lookup loop: every search has the composed filter. -/
theorem lookup_from_filters (env : Env) (conf : mod_vhost_ldap_config_t)
    (host : Option (List Char)) (serverp server : server_rec)
    (n : Nat) (l : Label) (st : Locals) (r : lookup_result)
    (hst : filters_composed env conf st.trace)
    (h : lookup_from env conf host serverp server n l st = some r) :
    filters_composed env conf r.trace := by
  refine lookup_from_induct env conf host serverp server
    (fun r => filters_composed env conf r.trace)
    (fun _ st => filters_composed env conf st.trace)
    ?_ ?_ n l st r hst h
  · intro l st r hI hs
    cases l with
    | start_over =>
      simp only [lookup_step] at hs
      cases hh : conf.host with
      | none =>
        simp only [hh] at hs
        cases hs
        exact hI
      | some ch =>
        simp only [hh] at hs
        cases host with
        | none => simp at hs
        | some hostname =>
          simp only at hs
          split_ifs at hs
    | fallback c =>
      simp only [lookup_step] at hs
      cases he : env.ldap_bv2escaped_filter_value (cstr c) with
      | none => simp [he] at hs
      | some shostname =>
        have hnew := filters_composed_append env conf _ _ hI
          (filters_composed_search env conf c shostname he)
        simp only [he] at hs
        split_ifs at hs
        · cases hs
          exact hnew
        · cases hs
          exact hnew
        · cases hs
          obtain ⟨ds, hds, hall⟩ := configure_vhost_trace env serverp server
            (load_request
              (env.util_ldap_cache_getuserdn st.searches
                (build_filter env.FILTER_LENGTH conf.filter shostname)).dn
              (env.util_ldap_cache_getuserdn st.searches
                (build_filter env.FILTER_LENGTH conf.filter shostname)).vals)
            (st.trace ++ [Event.search c
                (build_filter env.FILTER_LENGTH conf.filter shostname), Event.connection_close])
          rw [hds]
          exact filters_composed_append env conf _ _ hnew
            (filters_composed_quiet env conf ds (config_events_observed ds hall).2.1)
    | null =>
      simp only [lookup_step] at hs
      cases hfb : conf.fallback with
      | none =>
        simp only [hfb] at hs
        cases hs
        exact hI
      | some fb =>
        simp only [hfb] at hs
        split_ifs at hs
        cases hs
        exact hI
  · intro l st l' st' hI hs
    cases l with
    | start_over =>
      simp only [lookup_step] at hs
      cases hh : conf.host with
      | none => simp [hh] at hs
      | some ch =>
        simp only [hh] at hs
        cases host with
        | none =>
          simp only [Step.goto.injEq] at hs
          obtain ⟨_, rfl⟩ := hs
          exact filters_composed_append env conf _ _ hI
            (filters_composed_quiet env conf _ rfl)
        | some hostname =>
          simp only at hs
          split_ifs at hs <;>
          · simp only [Step.goto.injEq] at hs
            obtain ⟨_, rfl⟩ := hs
            exact filters_composed_append env conf _ _ hI
              (filters_composed_quiet env conf _ rfl)
    | fallback c =>
      simp only [lookup_step] at hs
      cases he : env.ldap_bv2escaped_filter_value (cstr c) with
      | none =>
        simp only [he, Step.goto.injEq] at hs
        obtain ⟨_, rfl⟩ := hs
        exact hI
      | some shostname =>
        have hnew := filters_composed_append env conf _ _ hI
          (filters_composed_search env conf c shostname he)
        simp only [he] at hs
        split_ifs at hs
        · simp only [Step.goto.injEq] at hs
          obtain ⟨_, rfl⟩ := hs
          exact filters_composed_append env conf _ _ hnew
            (filters_composed_quiet env conf _ rfl)
        · simp only [Step.goto.injEq] at hs
          obtain ⟨_, rfl⟩ := hs
          exact hnew
        · simp only [Step.goto.injEq] at hs
          obtain ⟨_, rfl⟩ := hs
          exact hnew
    | null =>
      simp only [lookup_step] at hs
      cases hfb : conf.fallback with
      | none => simp [hfb] at hs
      | some fb =>
        simp only [hfb] at hs
        split_ifs at hs
        simp only [Step.goto.injEq] at hs
        obtain ⟨_, rfl⟩ := hs
        exact filters_composed_append env conf _ _ hI
          (filters_composed_quiet env conf _ rfl)

/-- Every search of a finished lookup has the composed filter. -/
theorem lookup_filters (env : Env) (conf : mod_vhost_ldap_config_t)
    (host : Option (List Char)) (serverp : server_rec) (r : lookup_result)
    (hr : mod_vhost_ldap_lookup_vhost env conf host serverp = some r) :
    filters_composed env conf r.trace := by
  unfold mod_vhost_ldap_lookup_vhost at hr
  split_ifs at hr
  · cases hr
    exact filters_composed_quiet env conf [] rfl
  · cases hi : env.ap_init_virtual_host serverp with
    | none =>
      rw [hi] at hr
      cases hr
      exact filters_composed_quiet env conf [] rfl
    | some server =>
      rw [hi] at hr
      exact lookup_from_filters env conf host serverp server _ _ _ r
        (filters_composed_quiet env conf [] rfl) hr

/-- A composed filter that fits the buffer is not cut. -/
theorem build_filter_fits (FILTER_LENGTH : Nat) (F e : List Char) (hF : NUL ∉ F)
    (he : NUL ∉ e)
    (hfit : ("(&(".toList ++ F ++ ")(|(scriptsVhostName=".toList ++ e
      ++ ")(scriptsVhostAlias=".toList ++ e ++ ")))".toList).length < FILTER_LENGTH) :
    build_filter FILTER_LENGTH (some F) (some e)
      = "(&(".toList ++ F ++ ")(|(scriptsVhostName=".toList ++ e
        ++ ")(scriptsVhostAlias=".toList ++ e ++ ")))".toList := by
  have e1 : fmt_s (some F) = F := cstr_of_nul_free F hF
  have e2 : fmt_s (some e) = e := cstr_of_nul_free e he
  unfold build_filter
  rw [e1, e2]
  exact List.take_of_length_le (by omega)

/-- C19: every search of a lookup for a candidate `h` whose filter escaping by the
directory library gave `e`, under the configured filter `F`, the composed text fitting
the buffer of `FILTER_LENGTH` bytes with its terminator, is made with exactly the filter
`(&(F)(|(scriptsVhostName=e)(scriptsVhostAlias=e)))`: the same escaped value in both
places, as the directory library returned it, `escape` not applied. -/
theorem search_filter_composed (env : Env) (conf : mod_vhost_ldap_config_t)
    (host : Option (List Char)) (serverp : server_rec) (r : lookup_result)
    (h f F e : List Char)
    (hr : mod_vhost_ldap_lookup_vhost env conf host serverp = some r)
    (hmem : Event.search h f ∈ r.trace)
    (hF : conf.filter = some F) (hnF : NUL ∉ F)
    (he : env.ldap_bv2escaped_filter_value (cstr h) = some (some e)) (hne : NUL ∉ e)
    (hfit : ("(&(".toList ++ F ++ ")(|(scriptsVhostName=".toList ++ e
      ++ ")(scriptsVhostAlias=".toList ++ e ++ ")))".toList).length < env.FILTER_LENGTH) :
    f = "(&(".toList ++ F ++ ")(|(scriptsVhostName=".toList ++ e
      ++ ")(scriptsVhostAlias=".toList ++ e ++ ")))".toList := by
  obtain ⟨sh, hsh, hf⟩ := lookup_filters env conf host serverp r hr h f hmem
  rw [he] at hsh
  cases hsh
  rw [hf, hF]
  exact build_filter_fits env.FILTER_LENGTH F e hnF hne hfit

/-- C19, witness: a hostname with a quote, which the directory library leaves as it is
and `escape` would not. -/
theorem search_filter_composed_witness :
    mod_vhost_ldap_lookup_vhost (example_env fun _ => bind_refused) example_conf
        (some "o'neil.example.com".toList) ⟨0⟩
      = some ⟨500, ⟨0⟩, [Event.connection_find,
          Event.search "o'neil.example.com".toList
            ("(&(objectClass=scriptsVhost)(|(scriptsVhostName=o'neil.example.com)" ++
              "(scriptsVhostAlias=o'neil.example.com)))").toList,
          Event.connection_close]⟩ ∧
    ("(&(objectClass=scriptsVhost)(|(scriptsVhostName=o'neil.example.com)" ++
        "(scriptsVhostAlias=o'neil.example.com)))").toList
      = "(&(".toList ++ "objectClass=scriptsVhost".toList ++ ")(|(scriptsVhostName=".toList
        ++ "o'neil.example.com".toList ++ ")(scriptsVhostAlias=".toList
        ++ "o'neil.example.com".toList ++ ")))".toList ∧
    escape "o'neil.example.com".toList = "o\\'neil.example.com".toList :=
  ⟨by decide,
   search_filter_composed (example_env fun _ => bind_refused) example_conf
    (some "o'neil.example.com".toList) ⟨0⟩
    ⟨500, ⟨0⟩, [Event.connection_find,
      Event.search "o'neil.example.com".toList
        ("(&(objectClass=scriptsVhost)(|(scriptsVhostName=o'neil.example.com)" ++
          "(scriptsVhostAlias=o'neil.example.com)))").toList,
      Event.connection_close]⟩
    "o'neil.example.com".toList
    ("(&(objectClass=scriptsVhost)(|(scriptsVhostName=o'neil.example.com)" ++
      "(scriptsVhostAlias=o'neil.example.com)))").toList
    "objectClass=scriptsVhost".toList "o'neil.example.com".toList
    (by decide) (by decide) rfl (by decide) (by decide) (by decide) (by decide),
   by decide⟩

/-! ### The trace only grows -/

/-- One step of the lookup keeps the trace so far and adds to it. -/
theorem lookup_step_extends (env : Env) (conf : mod_vhost_ldap_config_t)
    (host : Option (List Char)) (serverp server : server_rec) (l : Label) (st : Locals) :
    (∀ r, lookup_step env conf host serverp server l st = Step.ret r →
      ∃ p, r.trace = st.trace ++ p) ∧
    (∀ l' st', lookup_step env conf host serverp server l st = Step.goto l' st' →
      ∃ p, st'.trace = st.trace ++ p) := by
  constructor
  · intro r hs
    cases l with
    | start_over =>
      simp only [lookup_step] at hs
      cases hh : conf.host with
      | none =>
        simp only [hh] at hs
        cases hs
        exact ⟨[], by simp⟩
      | some ch =>
        simp only [hh] at hs
        cases host with
        | none => simp at hs
        | some hostname =>
          simp only at hs
          split_ifs at hs
    | fallback c =>
      simp only [lookup_step] at hs
      cases he : env.ldap_bv2escaped_filter_value (cstr c) with
      | none => simp [he] at hs
      | some shostname =>
        simp only [he] at hs
        split_ifs at hs
        · cases hs
          exact ⟨_, rfl⟩
        · cases hs
          exact ⟨_, rfl⟩
        · cases hs
          obtain ⟨ds, hds, _⟩ := configure_vhost_trace env serverp server
            (load_request
              (env.util_ldap_cache_getuserdn st.searches
                (build_filter env.FILTER_LENGTH conf.filter shostname)).dn
              (env.util_ldap_cache_getuserdn st.searches
                (build_filter env.FILTER_LENGTH conf.filter shostname)).vals)
            (st.trace ++ [Event.search c
                (build_filter env.FILTER_LENGTH conf.filter shostname), Event.connection_close])
          exact ⟨_, by rw [hds, List.append_assoc]⟩
    | null =>
      simp only [lookup_step] at hs
      cases hfb : conf.fallback with
      | none =>
        simp only [hfb] at hs
        cases hs
        exact ⟨[], by simp⟩
      | some fb =>
        simp only [hfb] at hs
        split_ifs at hs
        cases hs
        exact ⟨[], by simp⟩
  · intro l' st' hs
    cases l with
    | start_over =>
      simp only [lookup_step] at hs
      cases hh : conf.host with
      | none => simp [hh] at hs
      | some ch =>
        simp only [hh] at hs
        cases host with
        | none =>
          simp only [Step.goto.injEq] at hs
          obtain ⟨_, rfl⟩ := hs
          exact ⟨_, rfl⟩
        | some hostname =>
          simp only at hs
          split_ifs at hs <;>
          · simp only [Step.goto.injEq] at hs
            obtain ⟨_, rfl⟩ := hs
            exact ⟨_, rfl⟩
    | fallback c =>
      simp only [lookup_step] at hs
      cases he : env.ldap_bv2escaped_filter_value (cstr c) with
      | none =>
        simp only [he, Step.goto.injEq] at hs
        obtain ⟨_, rfl⟩ := hs
        exact ⟨[], by simp⟩
      | some shostname =>
        simp only [he] at hs
        split_ifs at hs
        · simp only [Step.goto.injEq] at hs
          obtain ⟨_, rfl⟩ := hs
          exact ⟨[Event.search c (build_filter env.FILTER_LENGTH conf.filter shostname),
            Event.connection_close, Event.sleep (st.sleep0 + st.sleep1)], by simp⟩
        · simp only [Step.goto.injEq] at hs
          obtain ⟨_, rfl⟩ := hs
          exact ⟨_, rfl⟩
        · simp only [Step.goto.injEq] at hs
          obtain ⟨_, rfl⟩ := hs
          exact ⟨_, rfl⟩
    | null =>
      simp only [lookup_step] at hs
      cases hfb : conf.fallback with
      | none => simp [hfb] at hs
      | some fb =>
        simp only [hfb] at hs
        split_ifs at hs
        simp only [Step.goto.injEq] at hs
        obtain ⟨_, rfl⟩ := hs
        exact ⟨_, rfl⟩

/-- The trace of a run of the loop starts with the trace the run started from. -/
theorem lookup_from_extends (env : Env) (conf : mod_vhost_ldap_config_t)
    (host : Option (List Char)) (serverp server : server_rec)
    (n : Nat) (l : Label) (st : Locals) (r : lookup_result)
    (h : lookup_from env conf host serverp server n l st = some r) :
    ∃ post, r.trace = st.trace ++ post := by
  refine lookup_from_induct env conf host serverp server
    (fun r => ∃ post, r.trace = st.trace ++ post)
    (fun _ st' => ∃ p, st'.trace = st.trace ++ p)
    ?_ ?_ n l st r ⟨[], by simp⟩ h
  · intro l1 st1 r1 hI hs
    obtain ⟨p, hp⟩ := hI
    obtain ⟨q, hq⟩ := (lookup_step_extends env conf host serverp server l1 st1).1 r1 hs
    exact ⟨p ++ q, by rw [hq, hp, List.append_assoc]⟩
  · intro l1 st1 l2 st2 hI hs
    obtain ⟨p, hp⟩ := hI
    obtain ⟨q, hq⟩ := (lookup_step_extends env conf host serverp server l1 st1).2 l2 st2 hs
    exact ⟨p ++ q, by rw [hq, hp, List.append_assoc]⟩

/-- A run from the label `fallback` with a candidate the directory library can escape
begins with the search for that candidate. -/
theorem lookup_from_fallback_extends (env : Env) (conf : mod_vhost_ldap_config_t)
    (host : Option (List Char)) (serverp server : server_rec)
    (n : Nat) (c : List Char) (st : Locals) (r : lookup_result)
    (hesc : env.ldap_bv2escaped_filter_value (cstr c) ≠ none)
    (h : lookup_from env conf host serverp server n (Label.fallback c) st = some r) :
    ∃ post, r.trace = st.trace ++ Event.search c (candidate_filter env conf c)
      :: Event.connection_close :: post := by
  cases he : env.ldap_bv2escaped_filter_value (cstr c) with
  | none => exact absurd he hesc
  | some shostname =>
    have hcf : candidate_filter env conf c
        = build_filter env.FILTER_LENGTH conf.filter shostname := by
      simp [candidate_filter, he]
    rw [hcf]
    cases n with
    | zero => simp [lookup_from] at h
    | succ n =>
      simp only [lookup_from] at h
      cases hs : lookup_step env conf host serverp server (Label.fallback c) st with
      | ret r' =>
        rw [hs] at h
        cases h
        simp only [lookup_step, he] at hs
        split_ifs at hs
        · cases hs
          exact ⟨[], by simp⟩
        · cases hs
          exact ⟨[], by simp⟩
        · cases hs
          obtain ⟨ds, hds, _⟩ := configure_vhost_trace env serverp server
            (load_request
              (env.util_ldap_cache_getuserdn st.searches
                (build_filter env.FILTER_LENGTH conf.filter shostname)).dn
              (env.util_ldap_cache_getuserdn st.searches
                (build_filter env.FILTER_LENGTH conf.filter shostname)).vals)
            (st.trace ++ [Event.search c
                (build_filter env.FILTER_LENGTH conf.filter shostname), Event.connection_close])
          exact ⟨ds, by rw [hds]; simp⟩
      | goto l' st' =>
        rw [hs] at h
        obtain ⟨post, hpost⟩ := lookup_from_extends env conf host serverp server n l' st' r h
        simp only [lookup_step, he] at hs
        split_ifs at hs
        · simp only [Step.goto.injEq] at hs
          obtain ⟨_, rfl⟩ := hs
          exact ⟨Event.sleep (st.sleep0 + st.sleep1) :: post, by rw [hpost]; simp⟩
        · simp only [Step.goto.injEq] at hs
          obtain ⟨_, rfl⟩ := hs
          exact ⟨post, by rw [hpost]; simp⟩
        · simp only [Step.goto.injEq] at hs
          obtain ⟨_, rfl⟩ := hs
          exact ⟨post, by rw [hpost]; simp⟩

/-! ### Hostnames without a dot -/

theorem cstr_drop_dotless (h : List Char) (hdot : '.' ∉ cstr h) :
    cstr (h.drop (strcspn h ".".toList)) = [] := by
  induction h with
  | nil => simp [strcspn, cstr]
  | cons c cs ih =>
    by_cases hc : c = NUL
    · simp [strcspn, hc, cstr]
    · have hc' : c ≠ '.' := by
        intro e
        apply hdot
        subst e
        simp [cstr, hc]
      have hcs : '.' ∉ cstr cs := by
        intro e
        apply hdot
        simp [cstr, hc, e]
      simpa [strcspn, hc, mem_dot, hc'] using ih hcs

/-- The wildcard candidate after a hostname without a dot is `*`. -/
theorem wildcard_dotless (h : List Char) (hdot : '.' ∉ cstr h) : wildcard h = ['*'] := by
  have htake : ¬ (cstr h).take 2 = ['*', '.'] := by
    intro e
    apply hdot
    have hm : '.' ∈ (cstr h).take 2 := by rw [e]; simp
    exact List.mem_of_mem_take hm
  rw [wildcard_eq, if_neg htake, cstr_drop_dotless h hdot]

/-- C20, as amended: for a non-empty requested hostname without a dot, other than `*`,
the wildcard candidate after it is `*`.  When the exact search returns no-such-object,
the next search is the wildcard search for `*`, with no fallback substituted before it;
when that search too returns no-such-object, the configured fallback hostname is
substituted and the next search is for it, and without a fallback hostname the lookup
ends there with `HTTP_BAD_REQUEST`. -/
theorem dotless_host_searches_star (env : Env) (conf : mod_vhost_ldap_config_t)
    (host : List Char) (serverp server : server_rec) (r : lookup_result)
    (hen : conf.enabled = mod_vhost_ldap_status_e.MVL_ENABLED) (hurl : conf.have_ldap_url ≠ 0)
    (hhost : conf.host ≠ none)
    (hinit : env.ap_init_virtual_host serverp = some server)
    (hne : cstr host ≠ []) (hdot : '.' ∉ cstr host) (hstar : cstr host ≠ ['*'])
    (hesc : env.ldap_bv2escaped_filter_value (cstr host) ≠ none)
    (hnf : (env.util_ldap_cache_getuserdn 0 (candidate_filter env conf host)).result
      = ldap_result.LDAP_NO_SUCH_OBJECT)
    (hescs : env.ldap_bv2escaped_filter_value (cstr "*".toList) ≠ none)
    (hr : mod_vhost_ldap_lookup_vhost env conf (some host) serverp = some r) :
    wildcard host = "*".toList ∧
    ∃ post, r.trace = Event.connection_find
        :: Event.search host (candidate_filter env conf host) :: Event.connection_close
        :: Event.search "*".toList (candidate_filter env conf "*".toList)
        :: Event.connection_close :: post ∧
      ((env.util_ldap_cache_getuserdn 1 (candidate_filter env conf "*".toList)).result
          = ldap_result.LDAP_NO_SUCH_OBJECT →
        (∀ fb, conf.fallback = some fb → env.ldap_bv2escaped_filter_value (cstr fb) ≠ none →
          ∃ post', post = Event.fallback fb :: Event.search fb (candidate_filter env conf fb)
            :: Event.connection_close :: post') ∧
        (conf.fallback = none → post = [] ∧ r.code = HTTP_BAD_REQUEST)) := by
  have hw : wildcard host = "*".toList := wildcard_dotless host hdot
  have hat : at_end host = false := by
    cases hb : at_end host with
    | false => rfl
    | true => exact absurd ((at_end_iff host).1 hb) hne
  have hrun := lookup_run_of_eq env conf (some host) serverp server r hen hurl hinit hr
  have h2 := lookup_from_mono env conf (some host) serverp server _ _ _ r hrun 2
  rw [lookup_from_goto env conf (some host) serverp server _ _ _ _ _
    (step_start_over env conf host serverp server initial_locals hhost hat)] at h2
  rw [lookup_from_goto env conf (some host) serverp server _ _ _ _ _
    (step_miss env conf (some host) serverp server host _ hesc
      (by simpa [advance, initial_locals] using hnf) hstar), hw] at h2
  obtain ⟨post, hpost⟩ := lookup_from_fallback_extends env conf (some host) serverp server
    _ "*".toList _ r hescs h2
  have hpost' : r.trace = Event.connection_find
      :: Event.search host (candidate_filter env conf host) :: Event.connection_close
      :: Event.search "*".toList (candidate_filter env conf "*".toList)
      :: Event.connection_close :: post := by
    rw [hpost]
    simp [advance, initial_locals, search_events]
  refine ⟨hw, post, hpost', fun hnf1 => ?_⟩
  have h4 := lookup_from_mono env conf (some host) serverp server _ _ _ r h2 2
  rw [lookup_from_goto env conf (some host) serverp server _ _ _ _ _
    (step_miss_star env conf (some host) serverp server "*".toList _ hescs
      (by simpa [advance, initial_locals] using hnf1) (by decide))] at h4
  constructor
  · intro fb hfb hescf
    rw [lookup_from_goto env conf (some host) serverp server _ _ _ _ _
      (step_null_fallback env conf (some host) serverp server _ fb hfb
        (by simp [advance, initial_locals]))] at h4
    obtain ⟨post', hp'⟩ := lookup_from_fallback_extends env conf (some host) serverp server
      _ fb _ r hescf h4
    refine ⟨post', ?_⟩
    rw [hpost'] at hp'
    simpa [advance, initial_locals, search_events] using hp'
  · intro hfb
    rw [lookup_from_ret env conf (some host) serverp server _ _ _ _
      (step_null_return env conf (some host) serverp server _ (Or.inl hfb))] at h4
    have hr' := Option.some.inj h4
    rw [← hr'] at hpost'
    refine ⟨?_, by rw [← hr']⟩
    have := hpost'
    simp [advance, initial_locals, search_events] at this
    exact this

/-- C20, counterexample: for `localhost`, with the fallback `default.example.com` and
nothing found, the search after the exact one is the wildcard search for `*`, not the
search for the fallback hostname, which comes third. -/
theorem dotless_host_searches_star_counterexample :
    (mod_vhost_ldap_lookup_vhost (example_env fun _ => not_found) example_conf_fallback
        (some "localhost".toList) ⟨0⟩).map (fun r => searched_hostnames r.trace)
      = some ["localhost".toList, "*".toList, "default.example.com".toList,
              "*.example.com".toList, "*.com".toList, "*".toList] ∧
    (mod_vhost_ldap_lookup_vhost (example_env fun _ => not_found) example_conf_fallback
        (some "localhost".toList) ⟨0⟩).map (fun r => (searched_hostnames r.trace).get? 1)
      ≠ some (some "default.example.com".toList) := by
  decide

/-- C20, witness: `localhost` with the fallback `default.example.com`, the first two
searches finding nothing and the third being refused. -/
theorem dotless_host_searches_star_witness :
    mod_vhost_ldap_lookup_vhost
        (example_env fun n => if n < 2 then not_found else bind_refused) example_conf_fallback
        (some "localhost".toList) ⟨0⟩
      = some ⟨500, ⟨0⟩, [Event.connection_find,
          Event.search "localhost".toList
            (candidate_filter (example_env fun _ => not_found) example_conf_fallback
              "localhost".toList),
          Event.connection_close,
          Event.search "*".toList
            (candidate_filter (example_env fun _ => not_found) example_conf_fallback
              "*".toList),
          Event.connection_close,
          Event.fallback "default.example.com".toList,
          Event.search "default.example.com".toList
            (candidate_filter (example_env fun _ => not_found) example_conf_fallback
              "default.example.com".toList),
          Event.connection_close]⟩ ∧
    wildcard "localhost".toList = "*".toList := by
  refine ⟨by decide, ?_⟩
  exact (dotless_host_searches_star
    (example_env fun n => if n < 2 then not_found else bind_refused) example_conf_fallback
    "localhost".toList ⟨0⟩ ⟨1⟩
    ⟨500, ⟨0⟩, [Event.connection_find,
      Event.search "localhost".toList
        (candidate_filter (example_env fun _ => not_found) example_conf_fallback
          "localhost".toList),
      Event.connection_close,
      Event.search "*".toList
        (candidate_filter (example_env fun _ => not_found) example_conf_fallback
          "*".toList),
      Event.connection_close,
      Event.fallback "default.example.com".toList,
      Event.search "default.example.com".toList
        (candidate_filter (example_env fun _ => not_found) example_conf_fallback
          "default.example.com".toList),
      Event.connection_close]⟩
    rfl (by decide) (by decide) rfl (by decide) (by decide) (by decide)
    (example_filter_escape_some (cstr "localhost".toList)) rfl
    (example_filter_escape_some (cstr "*".toList)) (by decide)).1

/-! ### A filter longer than the buffer -/

theorem build_filter_eq (FILTER_LENGTH : Nat) (filter shostname : Option (List Char)) :
    build_filter FILTER_LENGTH filter shostname
      = (filter_text filter shostname).take (FILTER_LENGTH - 1) := rfl

/-- A formatted text that does not fit the buffer is cut to `FILTER_LENGTH - 1` bytes. -/
theorem build_filter_cut (FILTER_LENGTH : Nat) (filter shostname : Option (List Char))
    (h : FILTER_LENGTH ≤ (filter_text filter shostname).length) :
    (build_filter FILTER_LENGTH filter shostname).length = FILTER_LENGTH - 1 ∧
      build_filter FILTER_LENGTH filter shostname ≠ filter_text filter shostname := by
  have hpos : 0 < (filter_text filter shostname).length := by
    unfold filter_text
    simp only [List.length_append]
    have : 0 < "(&(".toList.length := by decide
    omega
  have hlen : (build_filter FILTER_LENGTH filter shostname).length = FILTER_LENGTH - 1 := by
    rw [build_filter_eq, List.length_take]
    omega
  refine ⟨hlen, fun e => ?_⟩
  rw [e] at hlen
  omega

/-- The first search of a lookup for a non-empty requested hostname. -/
theorem first_search (env : Env) (conf : mod_vhost_ldap_config_t)
    (host : List Char) (serverp server : server_rec) (r : lookup_result)
    (hen : conf.enabled = mod_vhost_ldap_status_e.MVL_ENABLED) (hurl : conf.have_ldap_url ≠ 0)
    (hhost : conf.host ≠ none)
    (hinit : env.ap_init_virtual_host serverp = some server)
    (hne : cstr host ≠ [])
    (hesc : env.ldap_bv2escaped_filter_value (cstr host) ≠ none)
    (hr : mod_vhost_ldap_lookup_vhost env conf (some host) serverp = some r) :
    ∃ post, r.trace = Event.connection_find
      :: Event.search host (candidate_filter env conf host) :: Event.connection_close :: post := by
  have hat : at_end host = false := by
    cases hb : at_end host with
    | false => rfl
    | true => exact absurd ((at_end_iff host).1 hb) hne
  have hrun := lookup_run_of_eq env conf (some host) serverp server r hen hurl hinit hr
  have h1 := lookup_from_mono env conf (some host) serverp server _ _ _ r hrun 1
  rw [lookup_from_goto env conf (some host) serverp server _ _ _ _ _
    (step_start_over env conf host serverp server initial_locals hhost hat)] at h1
  obtain ⟨post, hpost⟩ := lookup_from_fallback_extends env conf (some host) serverp server
    _ host _ r hesc h1
  exact ⟨post, by rw [hpost]; simp [advance, initial_locals]⟩

/-- The first search of a lookup, when it succeeds, is followed by the configuration of
the entry it found. -/
theorem first_search_success (env : Env) (conf : mod_vhost_ldap_config_t)
    (host : List Char) (serverp server : server_rec) (r : lookup_result) (f : List Char)
    (post : List Event)
    (hinit : env.ap_init_virtual_host serverp = some server)
    (hr : mod_vhost_ldap_lookup_vhost env conf (some host) serverp = some r)
    (htr : r.trace = Event.connection_find :: Event.search host f
      :: Event.connection_close :: post)
    (hok : (env.util_ldap_cache_getuserdn 0 f).result = ldap_result.LDAP_SUCCESS) :
    r = configure_vhost env serverp server
      (load_request (env.util_ldap_cache_getuserdn 0 f).dn (env.util_ldap_cache_getuserdn 0 f).vals)
      [Event.connection_find, Event.search host f, Event.connection_close] := by
  have htr' : r.trace = [Event.connection_find] ++ Event.search host f
      :: (Event.connection_close :: post) := by rw [htr]; rfl
  obtain ⟨server', hs', hout⟩ := lookup_outcome env conf (some host) serverp r hr
    [Event.connection_find] host f _ htr'
  rw [hinit] at hs'
  cases hs'
  exact (hout [Event.connection_find] host f _ htr').2.2 hok

/-- C12, as amended: the filter of a search is the formatted text cut to the first
`FILTER_LENGTH - 1` bytes, as `apr_snprintf` leaves it in `filtbuf`.  The search for a
non-empty requested hostname is issued whatever the length of the text; when the text
does not fit (`FILTER_LENGTH` or more bytes), the filter searched with has
`FILTER_LENGTH - 1` bytes and is not the text; and the result of that search is handled
as that of any search: on success the entry found is configured.  No search of the
lookup has another filter than the cut text of its candidate. -/
theorem long_filter_is_truncated (env : Env) (conf : mod_vhost_ldap_config_t)
    (host : List Char) (serverp server : server_rec) (r : lookup_result)
    (shostname : Option (List Char))
    (hen : conf.enabled = mod_vhost_ldap_status_e.MVL_ENABLED) (hurl : conf.have_ldap_url ≠ 0)
    (hhost : conf.host ≠ none)
    (hinit : env.ap_init_virtual_host serverp = some server)
    (hne : cstr host ≠ [])
    (hesc : env.ldap_bv2escaped_filter_value (cstr host) = some shostname)
    (hr : mod_vhost_ldap_lookup_vhost env conf (some host) serverp = some r) :
    (∃ post, r.trace = Event.connection_find
      :: Event.search host (build_filter env.FILTER_LENGTH conf.filter shostname)
      :: Event.connection_close :: post) ∧
    build_filter env.FILTER_LENGTH conf.filter shostname
      = (filter_text conf.filter shostname).take (env.FILTER_LENGTH - 1) ∧
    (env.FILTER_LENGTH ≤ (filter_text conf.filter shostname).length →
      (build_filter env.FILTER_LENGTH conf.filter shostname).length = env.FILTER_LENGTH - 1 ∧
      build_filter env.FILTER_LENGTH conf.filter shostname
        ≠ filter_text conf.filter shostname) ∧
    ((env.util_ldap_cache_getuserdn 0
        (build_filter env.FILTER_LENGTH conf.filter shostname)).result
        = ldap_result.LDAP_SUCCESS →
      r = configure_vhost env serverp server
        (load_request
          (env.util_ldap_cache_getuserdn 0
            (build_filter env.FILTER_LENGTH conf.filter shostname)).dn
          (env.util_ldap_cache_getuserdn 0
            (build_filter env.FILTER_LENGTH conf.filter shostname)).vals)
        [Event.connection_find,
          Event.search host (build_filter env.FILTER_LENGTH conf.filter shostname),
          Event.connection_close]) ∧
    (∀ h f, Event.search h f ∈ r.trace →
      ∃ sh, env.ldap_bv2escaped_filter_value (cstr h) = some sh ∧
        f = (filter_text conf.filter sh).take (env.FILTER_LENGTH - 1)) := by
  have hcf : candidate_filter env conf host
      = build_filter env.FILTER_LENGTH conf.filter shostname := by
    simp [candidate_filter, hesc]
  obtain ⟨post, hpost⟩ := first_search env conf host serverp server r hen hurl hhost hinit hne
    (by rw [hesc]; simp) hr
  rw [hcf] at hpost
  refine ⟨⟨post, hpost⟩, rfl, build_filter_cut _ _ _, fun hok => ?_, ?_⟩
  · exact first_search_success env conf host serverp server r _ post hinit hr hpost hok
  · exact lookup_filters env conf (some host) serverp r hr

theorem cstr_replicate (n : Nat) : cstr (List.replicate n 'x') = List.replicate n 'x' := by
  apply cstr_of_nul_free
  intro h
  exact absurd (List.eq_of_mem_replicate h) (by decide)

/-- With a configured filter of `n` bytes the formatted text has more than `n` bytes. -/
theorem long_filter_length (n : Nat) (shostname : Option (List Char)) :
    n ≤ (filter_text (some (List.replicate n 'x')) shostname).length := by
  have e : fmt_s (some (List.replicate n 'x')) = List.replicate n 'x' := cstr_replicate n
  unfold filter_text
  rw [e]
  simp only [List.length_append, List.length_replicate]
  omega

theorem example_escape_foo (answers : Nat → search_result) :
    (example_env answers).ldap_bv2escaped_filter_value (cstr "foo.example.com".toList)
      = some (some "foo.example.com".toList) := by
  show example_filter_escape (cstr "foo.example.com".toList)
    = some (some "foo.example.com".toList)
  decide

/-- C12, counterexample: with a configured filter of 8192 bytes the formatted text does
not fit the buffer of `FILTER_LENGTH` = 8192 bytes; the search for `foo.example.com` is
issued all the same, with the filter cut to 8191 bytes, and the lookup does not fail: it
configures the entry the search returned and returns `OK`. -/
theorem long_filter_is_truncated_counterexample :
    ∃ r, mod_vhost_ldap_lookup_vhost (example_env fun _ => example_entry)
        example_conf_long_filter (some "foo.example.com".toList) ⟨0⟩ = some r ∧
      (example_env fun _ => example_entry).FILTER_LENGTH
        ≤ (filter_text example_conf_long_filter.filter
            (some "foo.example.com".toList)).length ∧
      Event.search "foo.example.com".toList
        (build_filter 8192 example_conf_long_filter.filter (some "foo.example.com".toList))
        ∈ r.trace ∧
      (build_filter 8192 example_conf_long_filter.filter
        (some "foo.example.com".toList)).length = 8191 ∧
      build_filter 8192 example_conf_long_filter.filter (some "foo.example.com".toList)
        ≠ filter_text example_conf_long_filter.filter (some "foo.example.com".toList) ∧
      r.code = OK ∧ r.serverp = ⟨1⟩ := by
  obtain ⟨r, hr⟩ := lookup_returns (example_env fun _ => example_entry)
    example_conf_long_filter (some "foo.example.com".toList) ⟨0⟩
  have hlen : 8192 ≤ (filter_text example_conf_long_filter.filter
      (some "foo.example.com".toList)).length :=
    long_filter_length 8192 (some "foo.example.com".toList)
  have hcf : candidate_filter (example_env fun _ => example_entry) example_conf_long_filter
      "foo.example.com".toList
      = build_filter 8192 example_conf_long_filter.filter (some "foo.example.com".toList) := by
    unfold candidate_filter
    rw [example_escape_foo]
    rfl
  obtain ⟨post, hpost⟩ := first_search (example_env fun _ => example_entry)
    example_conf_long_filter "foo.example.com".toList ⟨0⟩ ⟨1⟩ r rfl (by decide) (by decide) rfl
    (by decide) (example_filter_escape_some (cstr "foo.example.com".toList)) hr
  rw [hcf] at hpost
  have hreq := first_search_success (example_env fun _ => example_entry)
    example_conf_long_filter "foo.example.com".toList ⟨0⟩ ⟨1⟩ r _ post rfl hr hpost rfl
  have hok := configure_vhost_ok (example_env fun _ => example_entry) ⟨0⟩ ⟨1⟩
    (load_request example_entry.dn example_entry.vals)
    [Event.connection_find,
      Event.search "foo.example.com".toList
        (build_filter 8192 example_conf_long_filter.filter (some "foo.example.com".toList)),
      Event.connection_close]
    example_entry_valid (example_env_accepts_all _)
  have hcut := build_filter_cut 8192 example_conf_long_filter.filter
    (some "foo.example.com".toList) hlen
  refine ⟨r, hr, hlen, ?_, hcut.1, hcut.2, ?_, ?_⟩
  · rw [hpost]
    exact List.mem_cons_of_mem _ (List.mem_cons_self _ _)
  · rw [hreq]
    exact hok.1
  · rw [hreq]
    exact hok.2

/-- C12, witness: the configured filter of 8192 bytes; the filter searched with has
8191 bytes. -/
theorem long_filter_is_truncated_witness :
    ∃ r, mod_vhost_ldap_lookup_vhost (example_env fun _ => bind_refused)
        example_conf_long_filter (some "foo.example.com".toList) ⟨0⟩ = some r ∧
      (∃ post, r.trace = Event.connection_find
        :: Event.search "foo.example.com".toList
            (build_filter 8192 example_conf_long_filter.filter (some "foo.example.com".toList))
        :: Event.connection_close :: post) ∧
      (build_filter 8192 example_conf_long_filter.filter
        (some "foo.example.com".toList)).length = 8191 := by
  obtain ⟨r, hr⟩ := lookup_returns (example_env fun _ => bind_refused)
    example_conf_long_filter (some "foo.example.com".toList) ⟨0⟩
  have h := long_filter_is_truncated (example_env fun _ => bind_refused)
    example_conf_long_filter "foo.example.com".toList ⟨0⟩ ⟨1⟩ r
    (some "foo.example.com".toList) rfl (by decide) (by decide) rfl (by decide)
    (example_escape_foo _) hr
  exact ⟨r, hr, h.1,
    (h.2.2.1 (long_filter_length 8192 (some "foo.example.com".toList))).1⟩

/-! ### The two passes of `escape` agree -/

theorem escape_occurrences_cons (c : Char) (cs : List Char) :
    escape_occurrences (c :: cs)
      = escape_occurrences cs + if c = '\'' ∨ c = '\\' then 1 else 0 := by
  unfold escape_occurrences
  rw [List.countP_cons]
  simp

theorem escape_spec_length (s : List Char) :
    (escape_spec s).length = s.length + escape_occurrences s := by
  induction s with
  | nil => simp [escape_spec, escape_occurrences]
  | cons c cs ih =>
    rw [escape_occurrences_cons]
    unfold escape_spec
    split_ifs
    · simp only [List.length_cons, ih]
      omega
    · simp only [List.length_cons, ih]
      omega

/-- The run `strcspn` skips holds no byte to escape. -/
theorem escape_occurrences_drop (s : List Char) (h : NUL ∉ s) :
    escape_occurrences (s.drop (strcspn s to_escape)) = escape_occurrences s := by
  induction s with
  | nil => simp [strcspn]
  | cons c cs ih =>
    have hc : c ≠ NUL := fun e => h (by simp [e])
    have hcs : NUL ∉ cs := fun e => h (by simp [e])
    by_cases hm : c = '\'' ∨ c = '\\'
    · have : c = NUL ∨ c ∈ to_escape := Or.inr ((mem_to_escape c).2 hm)
      simp [strcspn, this]
    · have hn : ¬ (c = NUL ∨ c ∈ to_escape) := by
        rw [mem_to_escape]; tauto
      rw [escape_occurrences_cons, if_neg hm]
      simpa [strcspn, hn] using ih hcs

/-- The counting loop, started at the end or at a byte to escape with enough fuel, ends
at the terminator with one more in `extra` for every byte to escape. -/
theorem escape_count_spec (fuel : Nat) : ∀ (y : List Char) (extra : Nat), NUL ∉ y →
    y.length ≤ fuel →
    (y = [] ∨ ∃ c rest, y = c :: rest ∧ (c = '\'' ∨ c = '\\')) →
    escape_count fuel y extra = ([], extra + escape_occurrences y) := by
  induction fuel with
  | zero =>
    intro y extra _ hl _
    have : y = [] := List.length_eq_zero.mp (Nat.le_zero.mp hl)
    subst this
    simp [escape_count, escape_occurrences]
  | succ n ih =>
    intro y extra hy hl hs
    rcases hs with rfl | ⟨c, rest, rfl, hm⟩
    · simp [escape_count, escape_occurrences]
    · have hc : c ≠ NUL := fun e => hy (by simp [e])
      have hrest : NUL ∉ rest := fun e => hy (by simp [e])
      have hlen : (rest.drop (strcspn rest to_escape)).length ≤ n := by
        simp only [List.length_cons] at hl
        simp only [List.length_drop]
        omega
      simp only [escape_count, hc, if_false, List.drop_succ_cons]
      rw [ih _ _ (nul_free_drop _ _ hrest) hlen (strcspn_stop rest hrest),
        escape_occurrences_drop rest hrest, escape_occurrences_cons, if_pos hm]
      simp only [Prod.mk.injEq, true_and]
      omega

/-- The copying loop, started at offset `z` at the end or at a byte to escape with
enough fuel, writes every offset from `z` up to that of the terminator once, in order. -/
theorem escape_loop_writes_spec (fuel : Nat) : ∀ (x : List Char) (z : Nat), NUL ∉ x →
    x.length ≤ fuel →
    (x = [] ∨ ∃ c rest, x = c :: rest ∧ (c = '\'' ∨ c = '\\')) →
    escape_loop_writes fuel x z = List.range' z (x.length + escape_occurrences x + 1) := by
  induction fuel with
  | zero =>
    intro x z _ hl _
    have : x = [] := List.length_eq_zero.mp (Nat.le_zero.mp hl)
    subst this
    simp [escape_loop_writes, escape_occurrences]
  | succ n ih =>
    intro x z hx hl hs
    rcases hs with rfl | ⟨c, rest, rfl, hm⟩
    · simp [escape_loop_writes, escape_occurrences]
    · have hc : c ≠ NUL := fun e => hx (by simp [e])
      have hrest : NUL ∉ rest := fun e => hx (by simp [e])
      have hle := strcspn_le rest to_escape
      have hlen : (rest.drop (strcspn rest to_escape)).length ≤ n := by
        simp only [List.length_cons] at hl
        simp only [List.length_drop]
        omega
      simp only [escape_loop_writes, hc, if_false, List.drop_succ_cons]
      rw [ih _ _ (nul_free_drop _ _ hrest) hlen (strcspn_stop rest hrest),
        escape_occurrences_drop rest hrest, escape_occurrences_cons, if_pos hm,
        List.length_drop, List.length_cons]
      have e1 : z :: List.range' (z + 1) (strcspn rest to_escape + 1)
          = List.range' z (strcspn rest to_escape + 2) := by
        rw [List.range'_succ z (strcspn rest to_escape + 1)]
      rw [e1]
      have e2 : z + 1 + (strcspn rest to_escape + 1) = z + 1 * (strcspn rest to_escape + 2) := by
        omega
      rw [e2, List.range'_append]
      congr 1
      omega

/-- C23: for a NUL-free string `s` with `k` bytes to escape, `escape s` has
`s.length + k` bytes.  With `k = 0` the input is returned as it is, nothing is allocated
and nothing written.  With `k > 0` the counting pass asks `apr_palloc` for
`s.length + k + 1` bytes, the length of the result and one for the terminator, and the
writes of `escape` go to the offsets `0, 1, ..., s.length + k` of that buffer, each once
and in this order, the terminator last: the copy fills the allocation and never writes
past it. -/
theorem escape_fills_allocation (s : List Char) (h : NUL ∉ s) :
    (escape s).length = s.length + escape_occurrences s ∧
    (escape_occurrences s = 0 →
      escape_alloc s = none ∧ escape_writes s = none ∧ escape s = s) ∧
    (0 < escape_occurrences s →
      escape_alloc s = some ((escape s).length + 1) ∧
      escape_alloc s = some (s.length + escape_occurrences s + 1) ∧
      escape_writes s = some (List.range (s.length + escape_occurrences s + 1))) := by
  have hlen : (escape s).length = s.length + escape_occurrences s := by
    rw [escape_eq_spec s h, escape_spec_length]
  have hocc := escape_occurrences_drop s h
  refine ⟨hlen, ?_, ?_⟩
  · intro h0
    rcases strcspn_stop s h with hd | ⟨c, rest, hd, hm⟩
    · refine ⟨by simp [escape_alloc, hd, at_end], by simp [escape_writes, hd, at_end], ?_⟩
      rw [escape_eq_spec s h]
      have hs := escape_spec_split s h
      have ht : s.take (strcspn s to_escape) = s := by
        have := List.take_append_drop (strcspn s to_escape) s
        rw [hd, List.append_nil] at this
        exact this
      rw [hd, ht] at hs
      simpa [escape_spec] using hs
    · rw [hd, escape_occurrences_cons, if_pos hm] at hocc
      omega
  · intro hpos
    rcases strcspn_stop s h with hd | ⟨c, rest, hd, hm⟩
    · have h0 : escape_occurrences ([] : List Char) = 0 := rfl
      rw [hd, h0] at hocc
      omega
    · have hc : c ≠ NUL := by
        rcases hm with rfl | rfl
        · exact fun e => NUL_ne_quote e.symm
        · exact fun e => NUL_ne_backslash e.symm
      have hx : NUL ∉ c :: rest := hd ▸ nul_free_drop s _ h
      have hle := strcspn_le s to_escape
      have hl : (c :: rest).length = s.length - strcspn s to_escape := by
        rw [← hd, List.length_drop]
      have hl' : (c :: rest).length ≤ s.length := by omega
      have hocc' : escape_occurrences (c :: rest) = escape_occurrences s := by
        rw [← hd]
        exact hocc
      have halloc : escape_alloc s = some (s.length + escape_occurrences s + 1) := by
        simp only [escape_alloc, hd, at_end, hc, decide_False, Bool.false_eq_true, if_false]
        rw [escape_count_spec s.length (c :: rest) 0 hx hl' (Or.inr ⟨c, rest, rfl, hm⟩), hocc']
        simp
      refine ⟨by rw [halloc, hlen], halloc, ?_⟩
      simp only [escape_writes, hd, at_end, hc, decide_False, Bool.false_eq_true, if_false]
      rw [escape_loop_writes_spec s.length (c :: rest) _ hx hl' (Or.inr ⟨c, rest, rfl, hm⟩),
        hocc', hl, List.range_eq_range']
      have e : strcspn s to_escape = 0 + 1 * strcspn s to_escape := by omega
      nth_rewrite 2 [e]
      rw [List.range'_append]
      have e3 : s.length - strcspn s to_escape + escape_occurrences s + 1 + strcspn s to_escape
          = s.length + escape_occurrences s + 1 := by omega
      rw [e3, List.range_eq_range']

/-- C23, witness: `it's\path` has 9 bytes, 2 of them to escape; 12 bytes are allocated
and the offsets 0 to 11 are written, in order. -/
theorem escape_fills_allocation_witness :
    NUL ∉ "it's\\path".toList ∧
    ((escape "it's\\path".toList).length
        = "it's\\path".toList.length + escape_occurrences "it's\\path".toList ∧
      (escape_occurrences "it's\\path".toList = 0 →
        escape_alloc "it's\\path".toList = none ∧ escape_writes "it's\\path".toList = none ∧
          escape "it's\\path".toList = "it's\\path".toList) ∧
      (0 < escape_occurrences "it's\\path".toList →
        escape_alloc "it's\\path".toList = some ((escape "it's\\path".toList).length + 1) ∧
        escape_alloc "it's\\path".toList
          = some ("it's\\path".toList.length + escape_occurrences "it's\\path".toList + 1) ∧
        escape_writes "it's\\path".toList
          = some (List.range
              ("it's\\path".toList.length + escape_occurrences "it's\\path".toList + 1)))) ∧
    escape_occurrences "it's\\path".toList = 2 ∧
    (escape "it's\\path".toList).length = 11 ∧
    escape_alloc "it's\\path".toList = some 12 ∧
    escape_writes "it's\\path".toList = some [0, 1, 2, 3, 4, 5, 6, 7, 8, 9, 10, 11] ∧
    escape_alloc "web_scripts".toList = none :=
  ⟨by decide, escape_fills_allocation "it's\\path".toList (by decide),
   by decide, by decide, by decide, by decide, by decide⟩

/-! ### The retry budget of a lookup -/

theorem transient_failures_append (env : Env) (a b : List Event) :
    ∀ i, transient_failures env i (a ++ b)
      = transient_failures env i a + transient_failures env (i + search_count a) b := by
  induction a with
  | nil => intro i; simp [transient_failures, search_count, searched_hostnames]
  | cons e a ih =>
    intro i
    have hq : ∀ e', searched_hostnames (e' :: a) = searched_hostnames a →
        transient_failures env i (e' :: (a ++ b)) = transient_failures env i (a ++ b) →
        transient_failures env i (e' :: a) = transient_failures env i a →
        transient_failures env i (e' :: a ++ b)
          = transient_failures env i (e' :: a)
            + transient_failures env (i + search_count (e' :: a)) b := by
      intro e' h1 h2 h3
      rw [List.cons_append, h2, h3, ih i]
      simp only [search_count, h1]
    cases e with
    | search h f =>
      have e1 : i + 1 + search_count a = i + search_count (Event.search h f :: a) := by
        simp only [search_count, searched_hostnames, List.length_cons]
        omega
      simp only [List.cons_append, transient_failures, List.append_eq]
      rw [ih (i + 1), e1]
      omega
    | connection_find => exact hq _ rfl rfl rfl
    | connection_close => exact hq _ rfl rfl rfl
    | sleep n => exact hq _ rfl rfl rfl
    | fallback h => exact hq _ rfl rfl rfl
    | directive d x => exact hq _ rfl rfl rfl
    | fixup_virtual_host => exact hq _ rfl rfl rfl

theorem transient_failures_quiet (env : Env) (ds : List Event)
    (h : searched_hostnames ds = []) : ∀ i, transient_failures env i ds = 0 := by
  induction ds with
  | nil => intro i; rfl
  | cons e ds ih =>
    intro i
    cases e <;> simp_all [searched_hostnames, transient_failures]

theorem search_count_append (a b : List Event) :
    search_count (a ++ b) = search_count a + search_count b := by
  simp [search_count, searched_hostnames_append]

/-- The budget is kept by a step that adds one event which is neither a search nor a
sleep. -/
theorem within_budget_quiet (env : Env) (st st' : Locals) (e : Event)
    (he : searched_hostnames [e] = []) (hsl : sleeps [e] = [])
    (hs : st'.searches = st.searches) (hf : st'.failures = st.failures)
    (ht : st'.trace = st.trace ++ [e])
    (hI : within_budget env st) : within_budget env st' := by
  obtain ⟨h1, h2, h3, h4⟩ := hI
  refine ⟨?_, ?_, ?_, ?_⟩
  · rw [hs, ht, search_count_append, h1]
    simp [search_count, he]
  · rw [hf, ht, transient_failures_append, transient_failures_quiet env [e] he, h2]
    rfl
  · rw [hf]
    exact h3
  · rw [ht, sleeps_append, hsl, hf, List.append_nil]
    exact h4

/-- The transient failures of a trace extended by one search. -/
theorem transient_failures_search (env : Env) (st : Locals) (c f : List Char)
    (tail : List Event) (htail : searched_hostnames tail = [])
    (hI : within_budget env st) :
    transient_failures env 0 (st.trace ++ Event.search c f :: tail)
      = st.failures
        + if is_transient (env.util_ldap_cache_getuserdn st.searches f).result then 1 else 0 := by
  obtain ⟨h1, h2, _, _⟩ := hI
  rw [transient_failures_append, ← h2, Nat.zero_add, ← h1]
  simp [transient_failures, transient_failures_quiet env tail htail]

/-- The statuses `configure_vhost` returns under the contract of the directives. -/
theorem configure_vhost_status (env : Env) (serverp server : server_rec)
    (reqc : mod_vhost_ldap_request_t) (tr : List Event) (hc : directive_contract env) :
    (configure_vhost env serverp server reqc tr).code = OK ∨
      (configure_vhost env serverp server reqc tr).code = HTTP_INTERNAL_SERVER_ERROR := by
  unfold configure_vhost
  cases reqc.name with
  | none => exact Or.inr rfl
  | some name =>
    cases reqc.home with
    | none => exact Or.inr rfl
    | some home =>
      cases reqc.directory with
      | none => exact Or.inr rfl
      | some directory =>
        simp only
        apply apply_directive_status
          (fun r => r.code = OK ∨ r.code = HTTP_INTERNAL_SERVER_ERROR)
        · intro _; exact hc _ _ _
        · intro _
          apply apply_directive_status
            (fun r => r.code = OK ∨ r.code = HTTP_INTERNAL_SERVER_ERROR)
          · intro _; exact hc _ _ _
          · intro _
            have hfin : ∀ n tr', (finish_vhost env serverp server n tr').code = OK ∨
                (finish_vhost env serverp server n tr').code = HTTP_INTERNAL_SERVER_ERROR := by
              intro n tr'
              unfold finish_vhost
              apply apply_directive_status
                (fun r => r.code = OK ∨ r.code = HTTP_INTERNAL_SERVER_ERROR)
              · intro _; exact hc _ _ _
              · intro _; exact Or.inl rfl
            cases reqc.uid with
            | none => exact hfin _ _
            | some uid =>
              simp only
              unfold suexec_directives
              cases reqc.gid with
              | none => exact Or.inr rfl
              | some gid =>
                simp only
                apply apply_directive_status
                  (fun r => r.code = OK ∨ r.code = HTTP_INTERNAL_SERVER_ERROR)
                · intro _; exact hc _ _ _
                · intro _
                  apply apply_directive_status
                    (fun r => r.code = OK ∨ r.code = HTTP_INTERNAL_SERVER_ERROR)
                  · intro _; exact hc _ _ _
                  · intro _
                    apply apply_directive_status
                      (fun r => r.code = OK ∨ r.code = HTTP_INTERNAL_SERVER_ERROR)
                    · intro _; exact hc _ _ _
                    · intro _
                      cases reqc.username with
                      | none => exact Or.inr rfl
                      | some username =>
                        simp only
                        apply apply_directive_status
                          (fun r => r.code = OK ∨ r.code = HTTP_INTERNAL_SERVER_ERROR)
                        · intro _; exact hc _ _ _
                        · intro _; exact hfin _ _

/-- The budget is kept by a search that did not fail transiently. -/
theorem within_budget_search (env : Env) (st st' : Locals) (c f : List Char)
    (hres : is_transient (env.util_ldap_cache_getuserdn st.searches f).result = false)
    (hs : st'.searches = st.searches + 1) (hf : st'.failures = st.failures)
    (ht : st'.trace = st.trace ++ [Event.search c f, Event.connection_close])
    (hI : within_budget env st) : within_budget env st' := by
  have htf := transient_failures_search env st c f [Event.connection_close] rfl hI
  obtain ⟨h1, h2, h3, h4⟩ := hI
  refine ⟨?_, ?_, ?_, ?_⟩
  · rw [hs, ht, search_count_append, h1]
    rfl
  · rw [hf, ht, htf, hres]
    simp
  · rw [hf]
    exact h3
  · rw [ht, sleeps_append, hf, ← h4]
    simp [sleeps]

/-- The budget is kept by a transient failure that is retried: one more failure, one more
sleep. -/
theorem within_budget_retry (env : Env) (st st' : Locals) (c f : List Char) (s : Nat)
    (hres : is_transient (env.util_ldap_cache_getuserdn st.searches f).result = true)
    (hlt : st.failures < MAX_FAILURES)
    (hs : st'.searches = st.searches + 1) (hf : st'.failures = st.failures + 1)
    (ht : st'.trace = st.trace ++ [Event.search c f, Event.connection_close] ++ [Event.sleep s])
    (hI : within_budget env st) : within_budget env st' := by
  have htf := transient_failures_search env st c f
    [Event.connection_close, Event.sleep s] rfl hI
  obtain ⟨h1, h2, h3, h4⟩ := hI
  refine ⟨?_, ?_, ?_, ?_⟩
  · rw [hs, ht, search_count_append, search_count_append, h1]
    rfl
  · rw [hf, ht]
    simp only [List.append_assoc, List.cons_append, List.nil_append]
    rw [htf, hres]
    simp
  · rw [hf]
    omega
  · rw [ht, sleeps_append, sleeps_append, hf, ← h4]
    simp [sleeps]

/-- A refused directive ends the lookup with its status. -/
theorem refused_of_status (env : Env) (serverp : server_rec) (n : Nat) (dir args : List Char)
    (tr : List Event) (hlen : (directives tr).length = n)
    (h : reconfigure_directive env n dir args ≠ 0) :
    refused_last env
      ⟨reconfigure_directive env n dir args, serverp, tr ++ [Event.directive dir args]⟩ := by
  refine ⟨dir, args, by simp, ?_, h⟩
  simp only [directives_append, directives, List.length_append, List.length_singleton, hlen,
    Nat.add_sub_cancel]

/-- The statuses `configure_vhost` returns: `OK`, `HTTP_INTERNAL_SERVER_ERROR`, or the
status of the directive that was refused. -/
theorem configure_vhost_code (env : Env) (serverp server : server_rec)
    (reqc : mod_vhost_ldap_request_t) (tr : List Event) (h0 : directives tr = []) :
    (configure_vhost env serverp server reqc tr).code = OK ∨
      (configure_vhost env serverp server reqc tr).code = HTTP_INTERNAL_SERVER_ERROR ∨
      refused_last env (configure_vhost env serverp server reqc tr) := by
  have hfin : ∀ n tr', (directives tr').length = n →
      ((finish_vhost env serverp server n tr').code = OK ∨
        (finish_vhost env serverp server n tr').code = HTTP_INTERNAL_SERVER_ERROR ∨
        refused_last env (finish_vhost env serverp server n tr')) := by
    intro n tr' hlen
    unfold finish_vhost
    apply apply_directive_status
      (fun r => r.code = OK ∨ r.code = HTTP_INTERNAL_SERVER_ERROR ∨ refused_last env r)
    · intro hne
      exact Or.inr (Or.inr (refused_of_status env serverp _ _ _ _ hlen hne))
    · intro _
      exact Or.inl rfl
  unfold configure_vhost
  cases reqc.name with
  | none => exact Or.inr (Or.inl rfl)
  | some name =>
    cases reqc.home with
    | none => exact Or.inr (Or.inl rfl)
    | some home =>
      cases reqc.directory with
      | none => exact Or.inr (Or.inl rfl)
      | some directory =>
        simp only
        apply apply_directive_status
          (fun r => r.code = OK ∨ r.code = HTTP_INTERNAL_SERVER_ERROR ∨ refused_last env r)
        · intro hne
          exact Or.inr (Or.inr (refused_of_status env serverp _ _ _ _ (by simp [h0]) hne))
        · intro _
          apply apply_directive_status
            (fun r => r.code = OK ∨ r.code = HTTP_INTERNAL_SERVER_ERROR ∨ refused_last env r)
          · intro hne
            exact Or.inr (Or.inr (refused_of_status env serverp _ _ _ _
              (by simp [directives_append, directives, h0]) hne))
          · intro _
            cases reqc.uid with
            | none => exact hfin _ _ (by simp [directives_append, directives, h0])
            | some uid =>
              simp only
              unfold suexec_directives
              cases reqc.gid with
              | none => exact Or.inr (Or.inl rfl)
              | some gid =>
                simp only
                apply apply_directive_status (fun r =>
                  r.code = OK ∨ r.code = HTTP_INTERNAL_SERVER_ERROR ∨ refused_last env r)
                · intro hne
                  exact Or.inr (Or.inr (refused_of_status env serverp _ _ _ _
                    (by simp [directives_append, directives, h0]) hne))
                · intro _
                  apply apply_directive_status (fun r =>
                    r.code = OK ∨ r.code = HTTP_INTERNAL_SERVER_ERROR ∨ refused_last env r)
                  · intro hne
                    exact Or.inr (Or.inr (refused_of_status env serverp _ _ _ _
                      (by simp [directives_append, directives, h0]) hne))
                  · intro _
                    apply apply_directive_status (fun r =>
                      r.code = OK ∨ r.code = HTTP_INTERNAL_SERVER_ERROR ∨ refused_last env r)
                    · intro hne
                      exact Or.inr (Or.inr (refused_of_status env serverp _ _ _ _
                        (by simp [directives_append, directives, h0]) hne))
                    · intro _
                      cases reqc.username with
                      | none => exact Or.inr (Or.inl rfl)
                      | some username =>
                        simp only
                        apply apply_directive_status (fun r =>
                          r.code = OK ∨ r.code = HTTP_INTERNAL_SERVER_ERROR ∨
                            refused_last env r)
                        · intro hne
                          exact Or.inr (Or.inr (refused_of_status env serverp _ _ _ _
                            (by simp [directives_append, directives, h0]) hne))
                        · intro _
                          exact hfin _ _ (by simp [directives_append, directives, h0])

/-- A jump keeps the locals sound. -/
theorem sound_locals_goto (env : Env) (conf : mod_vhost_ldap_config_t)
    (host : Option (List Char)) (serverp server : server_rec)
    (l : Label) (st : Locals) (l' : Label) (st' : Locals)
    (hI : sound_locals env conf l st)
    (hs : lookup_step env conf host serverp server l st = Step.goto l' st') :
    sound_locals env conf l' st' := by
  obtain ⟨hb, hd, h0, h1, hsl, hh⟩ := hI
  cases l with
  | start_over =>
    simp only [lookup_step] at hs
    cases hc : conf.host with
    | none => simp [hc] at hs
    | some ch =>
      have hne : conf.host ≠ none := by rw [hc]; simp
      simp only [hc] at hs
      cases host with
      | none =>
        simp only [Step.goto.injEq] at hs
        obtain ⟨_, rfl⟩ := hs
        exact ⟨within_budget_quiet env st _ Event.connection_find rfl rfl rfl rfl rfl hb,
          by simp [directives_append, directives, hd], h0, h1,
          by simp [sleeps_append, sleeps, hsl], fun _ => hne⟩
      | some hostname =>
        simp only at hs
        split_ifs at hs <;>
        · simp only [Step.goto.injEq] at hs
          obtain ⟨_, rfl⟩ := hs
          exact ⟨within_budget_quiet env st _ Event.connection_find rfl rfl rfl rfl rfl hb,
            by simp [directives_append, directives, hd], h0, h1,
            by simp [sleeps_append, sleeps, hsl], fun _ => hne⟩
  | fallback c =>
    have hne : conf.host ≠ none := hh (by simp)
    simp only [lookup_step] at hs
    cases he : env.ldap_bv2escaped_filter_value (cstr c) with
    | none =>
      simp only [he, Step.goto.injEq] at hs
      obtain ⟨_, rfl⟩ := hs
      exact ⟨hb, hd, h0, h1, hsl, fun _ => hne⟩
    | some shostname =>
      simp only [he] at hs
      split_ifs at hs with t1 t2 t3 t4
      · simp only [Step.goto.injEq] at hs
        obtain ⟨_, rfl⟩ := hs
        refine ⟨within_budget_retry env st _ c
            (build_filter env.FILTER_LENGTH conf.filter shostname) (st.sleep0 + st.sleep1)
            t1 t2 rfl rfl rfl hb,
          by simp [directives_append, directives, hd], h1, ?_, ?_, fun _ => hne⟩
        · show st.sleep0 + st.sleep1 = Nat.fib (st.failures + 1 + 1)
          rw [Nat.fib_add_two, h0, h1]
        · simp only [MAX_FAILURES] at t2
          simp only [sleeps_append, sleeps, hsl, h0, h1, List.append_nil]
          generalize st.failures = f at t2 ⊢
          interval_cases f <;> simp [Nat.fib_add_two]
      · simp only [Step.goto.injEq] at hs
        obtain ⟨_, rfl⟩ := hs
        exact ⟨within_budget_search env st _ c
            (build_filter env.FILTER_LENGTH conf.filter shostname)
            (by simpa using t1) rfl rfl rfl hb,
          by simp [directives_append, directives, hd], h0, h1,
          by simp [sleeps_append, sleeps, hsl], fun _ => hne⟩
      · simp only [Step.goto.injEq] at hs
        obtain ⟨_, rfl⟩ := hs
        exact ⟨within_budget_search env st _ c
            (build_filter env.FILTER_LENGTH conf.filter shostname)
            (by simpa using t1) rfl rfl rfl hb,
          by simp [directives_append, directives, hd], h0, h1,
          by simp [sleeps_append, sleeps, hsl], fun _ => hne⟩
  | null =>
    have hne : conf.host ≠ none := hh (by simp)
    simp only [lookup_step] at hs
    cases hfb : conf.fallback with
    | none => simp [hfb] at hs
    | some fb =>
      simp only [hfb] at hs
      split_ifs at hs
      simp only [Step.goto.injEq] at hs
      obtain ⟨_, rfl⟩ := hs
      exact ⟨within_budget_quiet env st _ (Event.fallback fb) rfl rfl rfl rfl rfl hb,
        by simp [directives_append, directives, hd], h0, h1,
        by simp [sleeps_append, sleeps, hsl], fun _ => hne⟩

theorem sound_locals_initial (env : Env) (conf : mod_vhost_ldap_config_t) :
    sound_locals env conf Label.start_over initial_locals :=
  ⟨⟨rfl, rfl, by decide, rfl⟩, rfl, rfl, rfl, rfl, fun h => absurd rfl h⟩

/-- A lookup that returns with its budget kept, after configuration events or none. -/
theorem budget_outcome_config (env : Env) (st : Locals) (r : lookup_result) (ds : List Event)
    (hI : within_budget env st) (htr : r.trace = st.trace ++ ds)
    (hds : ∀ e ∈ ds, is_config_event e = true)
    (hcode : r.code = HTTP_GATEWAY_TIME_OUT → refused_last env r) :
    budget_outcome env r := by
  obtain ⟨_, h2, h3, h4⟩ := hI
  obtain ⟨a, b, _⟩ := config_events_observed ds hds
  have htf : transient_failures env 0 r.trace = st.failures := by
    rw [htr, transient_failures_append, transient_failures_quiet env ds b, ← h2]
    rfl
  right
  refine ⟨by rw [htf]; exact h3, ?_, hcode⟩
  rw [htf, htr, sleeps_append, a, List.append_nil]
  exact h4

/-- A lookup that returns on its sixth transient failure. -/
theorem budget_outcome_timeout (env : Env) (st : Locals) (serverp : server_rec)
    (c f : List Char)
    (hres : is_transient (env.util_ldap_cache_getuserdn st.searches f).result = true)
    (hge : ¬ st.failures < MAX_FAILURES) (hI : within_budget env st) :
    budget_outcome env ⟨HTTP_GATEWAY_TIME_OUT, serverp,
      st.trace ++ [Event.search c f, Event.connection_close]⟩ := by
  have htf := transient_failures_search env st c f [Event.connection_close] rfl hI
  obtain ⟨_, _, h3, h4⟩ := hI
  have h5 : st.failures = MAX_FAILURES := by omega
  left
  refine ⟨?_, rfl, ?_⟩
  · show transient_failures env 0 (st.trace ++ [Event.search c f, Event.connection_close]) = _
    rw [htf, hres, h5]
    simp
  · show (sleeps (st.trace ++ [Event.search c f, Event.connection_close])).length = _
    rw [sleeps_append, ← h5, ← h4]
    simp [sleeps]

/-- Invariant of the lookup loop: the retry budget is spent as `budget_outcome` says. -/
theorem lookup_from_budget (env : Env) (conf : mod_vhost_ldap_config_t)
    (host : Option (List Char)) (serverp server : server_rec)
    (n : Nat) (l : Label) (st : Locals) (r : lookup_result)
    (hst : sound_locals env conf l st)
    (h : lookup_from env conf host serverp server n l st = some r) :
    budget_outcome env r := by
  refine lookup_from_induct env conf host serverp server
    (fun r => budget_outcome env r) (fun l st => sound_locals env conf l st)
    ?_ (sound_locals_goto env conf host serverp server) n l st r hst h
  intro l st r hS hs
  have hI := hS.1
  have hd := hS.2.1
  cases l with
  | start_over =>
    simp only [lookup_step] at hs
    cases hh : conf.host with
    | none =>
      simp only [hh] at hs
      cases hs
      exact budget_outcome_config env st _ [] hI (by simp) (by simp)
        (fun e => absurd e (by decide : HTTP_INTERNAL_SERVER_ERROR ≠ HTTP_GATEWAY_TIME_OUT))
    | some ch =>
      simp only [hh] at hs
      cases host with
      | none => simp at hs
      | some hostname =>
        simp only at hs
        split_ifs at hs
  | fallback c =>
    simp only [lookup_step] at hs
    cases he : env.ldap_bv2escaped_filter_value (cstr c) with
    | none => simp [he] at hs
    | some shostname =>
      simp only [he] at hs
      split_ifs at hs with h1 h2 h3 h4 h5
      · cases hs
        exact budget_outcome_timeout env st serverp c _ h1 h2 hI
      · cases hs
        have hmid := within_budget_search env st
          { st with searches := st.searches + 1,
                    trace := st.trace ++ [Event.search c
                      (build_filter env.FILTER_LENGTH conf.filter shostname),
                      Event.connection_close] } c
          (build_filter env.FILTER_LENGTH conf.filter shostname)
          (by simpa using h1) rfl rfl rfl hI
        exact budget_outcome_config env _ _ [] hmid (by simp) (by simp)
          (fun e => absurd e (by decide : HTTP_INTERNAL_SERVER_ERROR ≠ HTTP_GATEWAY_TIME_OUT))
      · cases hs
        have hmid := within_budget_search env st
          { st with searches := st.searches + 1,
                    trace := st.trace ++ [Event.search c
                      (build_filter env.FILTER_LENGTH conf.filter shostname),
                      Event.connection_close] } c
          (build_filter env.FILTER_LENGTH conf.filter shostname)
          (by simpa using h1) rfl rfl rfl hI
        obtain ⟨ds, hds, hall⟩ := configure_vhost_trace env serverp server
          (load_request
            (env.util_ldap_cache_getuserdn st.searches
              (build_filter env.FILTER_LENGTH conf.filter shostname)).dn
            (env.util_ldap_cache_getuserdn st.searches
              (build_filter env.FILTER_LENGTH conf.filter shostname)).vals)
          (st.trace ++ [Event.search c
              (build_filter env.FILTER_LENGTH conf.filter shostname), Event.connection_close])
        refine budget_outcome_config env _ _ ds hmid hds hall (fun e504 => ?_)
        rcases configure_vhost_code env serverp server
          (load_request
            (env.util_ldap_cache_getuserdn st.searches
              (build_filter env.FILTER_LENGTH conf.filter shostname)).dn
            (env.util_ldap_cache_getuserdn st.searches
              (build_filter env.FILTER_LENGTH conf.filter shostname)).vals)
          (st.trace ++ [Event.search c
              (build_filter env.FILTER_LENGTH conf.filter shostname), Event.connection_close])
          (by simp [directives_append, directives, hd]) with e | e | e
        · rw [e] at e504
          exact absurd e504 (by decide)
        · rw [e] at e504
          exact absurd e504 (by decide)
        · exact e
  | null =>
    simp only [lookup_step] at hs
    cases hfb : conf.fallback with
    | none =>
      simp only [hfb] at hs
      cases hs
      exact budget_outcome_config env st _ [] hI (by simp) (by simp)
        (fun e => absurd e (by decide : HTTP_BAD_REQUEST ≠ HTTP_GATEWAY_TIME_OUT))
    | some fb =>
      simp only [hfb] at hs
      split_ifs at hs
      cases hs
      exact budget_outcome_config env st _ [] hI (by simp) (by simp)
        (fun e => absurd e (by decide : HTTP_BAD_REQUEST ≠ HTTP_GATEWAY_TIME_OUT))

/-- How a finished lookup spent its retry budget. -/
theorem lookup_budget (env : Env) (conf : mod_vhost_ldap_config_t)
    (host : Option (List Char)) (serverp : server_rec) (r : lookup_result)
    (hr : mod_vhost_ldap_lookup_vhost env conf host serverp = some r) :
    budget_outcome env r := by
  have h0 := sound_locals_initial env conf
  have hnone : ∀ code : Int, code ≠ HTTP_GATEWAY_TIME_OUT →
      budget_outcome env ⟨code, serverp, []⟩ := fun code hc =>
    budget_outcome_config env initial_locals _ [] h0.1 rfl (by simp) (fun e => absurd e hc)
  unfold mod_vhost_ldap_lookup_vhost at hr
  split_ifs at hr
  · cases hr
    exact hnone _ (by decide)
  · cases hi : env.ap_init_virtual_host serverp with
    | none =>
      rw [hi] at hr
      cases hr
      exact hnone _ (by decide)
    | some server =>
      rw [hi] at hr
      exact lookup_from_budget env conf host serverp server _ _ _ r h0 hr

/-- The sleeps of a finished lookup are the first ones of 1, 2, 3, 5, 8. -/
theorem lookup_sleeps (env : Env) (conf : mod_vhost_ldap_config_t)
    (host : Option (List Char)) (serverp : server_rec) (r : lookup_result)
    (hr : mod_vhost_ldap_lookup_vhost env conf host serverp = some r) :
    sleeps r.trace = ([1, 2, 3, 5, 8] : List Nat).take (sleeps r.trace).length := by
  have hk : ∃ k, k ≤ 5 ∧ sleeps r.trace = ([1, 2, 3, 5, 8] : List Nat).take k := by
    unfold mod_vhost_ldap_lookup_vhost at hr
    split_ifs at hr
    · cases hr
      exact ⟨0, by simp, by simp [sleeps]⟩
    · cases hi : env.ap_init_virtual_host serverp with
      | none =>
        rw [hi] at hr
        cases hr
        exact ⟨0, by simp, by simp [sleeps]⟩
      | some server =>
        rw [hi] at hr
        exact lookup_from_sleeps env conf host serverp server _ _ _ r
          (by simp [initial_locals, sleeps]) hr
  obtain ⟨k, hk5, hs⟩ := hk
  have hlen : (sleeps r.trace).length = k := by
    rw [hs, List.length_take]
    simp only [List.length_cons, List.length_nil]
    omega
  rw [hlen]
  exact hs

/-- A jump to another candidate, or to the label `null`, leaves the failure counter and
the two delays of the backoff as they are. -/
theorem lookup_step_keeps_budget (env : Env) (conf : mod_vhost_ldap_config_t)
    (host : Option (List Char)) (serverp server : server_rec) (l : Label) (st : Locals)
    (l' : Label) (st' : Locals)
    (hs : lookup_step env conf host serverp server l st = Step.goto l' st')
    (hl : l' ≠ Label.start_over) :
    st'.failures = st.failures ∧ st'.sleep0 = st.sleep0 ∧ st'.sleep1 = st.sleep1 := by
  cases l with
  | start_over =>
    simp only [lookup_step] at hs
    cases hh : conf.host with
    | none => simp [hh] at hs
    | some ch =>
      simp only [hh] at hs
      cases host with
      | none =>
        simp only [Step.goto.injEq] at hs
        obtain ⟨_, rfl⟩ := hs
        exact ⟨rfl, rfl, rfl⟩
      | some hostname =>
        simp only at hs
        split_ifs at hs <;>
        · simp only [Step.goto.injEq] at hs
          obtain ⟨_, rfl⟩ := hs
          exact ⟨rfl, rfl, rfl⟩
  | fallback c =>
    simp only [lookup_step] at hs
    cases he : env.ldap_bv2escaped_filter_value (cstr c) with
    | none =>
      simp only [he, Step.goto.injEq] at hs
      obtain ⟨_, rfl⟩ := hs
      exact ⟨rfl, rfl, rfl⟩
    | some shostname =>
      simp only [he] at hs
      split_ifs at hs
      · simp only [Step.goto.injEq] at hs
        exact absurd hs.1.symm hl
      · simp only [Step.goto.injEq] at hs
        obtain ⟨_, rfl⟩ := hs
        exact ⟨rfl, rfl, rfl⟩
      · simp only [Step.goto.injEq] at hs
        obtain ⟨_, rfl⟩ := hs
        exact ⟨rfl, rfl, rfl⟩
  | null =>
    simp only [lookup_step] at hs
    cases hfb : conf.fallback with
    | none => simp [hfb] at hs
    | some fb =>
      simp only [hfb] at hs
      split_ifs at hs
      simp only [Step.goto.injEq] at hs
      obtain ⟨_, rfl⟩ := hs
      exact ⟨rfl, rfl, rfl⟩

/-! ### The wildcard step decreases the number of dots -/

theorem dot_measure_eq (h : List Char) :
    dot_measure h = if cstr h = ['*'] then 0
      else if (cstr h).take 2 = ['*', '.'] then dots h else dots h + 1 := by
  unfold dot_measure
  rw [streq_star, strneq_star_dot]
  simp

/-- Dropping the run before the first dot drops no dot. -/
theorem count_drop_strcspn (s : List Char) :
    (cstr (s.drop (strcspn s ".".toList))).count '.' = (cstr s).count '.' := by
  induction s with
  | nil => simp [strcspn, cstr]
  | cons c cs ih =>
    by_cases hc : c = NUL
    · simp [strcspn, hc, cstr]
    · by_cases hm : c = '.'
      · simp [strcspn, hc, mem_dot, hm]
      · have hm' : ¬ ('.' = c) := fun e => hm e.symm
        simp only [strcspn, hc, mem_dot, hm, or_self, if_false, List.drop_succ_cons, cstr]
        rw [ih, List.count_cons]
        simp [hm]

/-- The measure of `'*' :: cstr q` where `q` is where `strcspn` stopped looking for a
dot: the number of dots that are left. -/
theorem dot_measure_wild (p : List Char) :
    dot_measure ('*' :: cstr (p.drop (strcspn p ".".toList))) = dots p := by
  have hs : ('*' : Char) ≠ NUL := by decide
  have hsd : ('*' : Char) ≠ '.' := by decide
  have hidem := cstr_idem (p.drop (strcspn p ".".toList))
  have hcount := count_drop_strcspn p
  rcases cstr_drop_strcspn p ".".toList with he | ⟨c, t, he, hc⟩
  · rw [he] at hcount
    rw [he, dot_measure_eq]
    unfold dots
    rw [← hcount]
    simp [cstr, hs]
  · have hc' : c = '.' := (mem_dot c).1 hc
    subst hc'
    rw [he] at hcount hidem
    rw [he, dot_measure_eq]
    have hcs : cstr ('*' :: '.' :: t) = '*' :: '.' :: t := by
      rw [cstr, if_neg hs, hidem]
    unfold dots
    rw [hcs, ← hcount]
    simp [List.count_cons, hsd]

/-- A hostname that starts with `*.`. -/
theorem cstr_star_dot (h : List Char) (hs : (cstr h).take 2 = ['*', '.']) :
    cstr h = '*' :: '.' :: cstr (h.drop 2) := by
  cases h with
  | nil => simp [cstr] at hs
  | cons a h1 =>
    by_cases ha : a = NUL
    · simp [cstr, ha] at hs
    · cases h1 with
      | nil => simp [cstr, ha] at hs
      | cons b h2 =>
        by_cases hb : b = NUL
        · simp [cstr, ha, hb] at hs
        · simp only [cstr, ha, hb, if_false, List.take_succ_cons, List.take_zero,
            List.cons.injEq, and_true] at hs
          obtain ⟨rfl, rfl⟩ := hs
          simp [cstr, ha, hb]

/-- The wildcard step takes the measure down by one. -/
theorem wildcard_dot_measure (h : List Char) (hne : cstr h ≠ ['*']) :
    dot_measure (wildcard h) + 1 = dot_measure h := by
  rw [wildcard_eq]
  by_cases hs : (cstr h).take 2 = ['*', '.']
  · have hsd : ('*' : Char) ≠ '.' := by decide
    have hd : dots h = dots (h.drop 2) + 1 := by
      unfold dots
      rw [cstr_star_dot h hs]
      simp [List.count_cons, hsd]
    rw [if_pos hs, dot_measure_wild, dot_measure_eq h, if_neg hne, if_pos hs, hd]
  · rw [if_neg hs, dot_measure_wild, dot_measure_eq h, if_neg hne, if_neg hs]

theorem dot_measure_congr (a b : List Char) (h : cstr a = cstr b) :
    dot_measure a = dot_measure b := by
  rw [dot_measure_eq, dot_measure_eq]
  unfold dots
  rw [h]

/-- The wildcard step never returns the hostname it was given. -/
theorem wildcard_ne (h : List Char) (hne : cstr h ≠ ['*']) : cstr (wildcard h) ≠ cstr h := by
  intro e
  have h1 := dot_measure_congr _ _ e
  have h2 := wildcard_dot_measure h hne
  omega

theorem dot_measure_le (h : List Char) : dot_measure h ≤ dots h + 1 := by
  rw [dot_measure_eq]
  split_ifs <;> omega

/-- The candidates from `c` on: `c` and as many more as its measure says, `*` last. -/
theorem wildcard_chain_dots (fuel : Nat) : ∀ (c : List Char), dot_measure c < fuel →
    (wildcard_chain fuel c).length = dot_measure c + 1 ∧
      ∃ pre last, wildcard_chain fuel c = pre ++ [last] ∧ cstr last = ['*'] := by
  induction fuel with
  | zero => intro c h; omega
  | succ fuel ih =>
    intro c hm
    rw [wildcard_chain_succ]
    by_cases hstar : cstr c = ['*']
    · refine ⟨?_, [], c, by simp [hstar], hstar⟩
      rw [dot_measure_eq, if_pos hstar]
      simp [hstar]
    · have hw := wildcard_dot_measure c hstar
      obtain ⟨hlen, pre, last, h1, h2⟩ := ih (wildcard c) (by omega)
      refine ⟨?_, c :: pre, last, by simp [hstar, h1], h2⟩
      simp only [hstar, if_false, List.length_cons, hlen]
      omega

/-! ### Termination -/

/-- One step of the lookup makes at most one search. -/
theorem lookup_step_searches (env : Env) (conf : mod_vhost_ldap_config_t)
    (host : Option (List Char)) (serverp server : server_rec) (l : Label) (st : Locals) :
    (∀ r, lookup_step env conf host serverp server l st = Step.ret r →
      search_count r.trace ≤ search_count st.trace + 1) ∧
    (∀ l' st', lookup_step env conf host serverp server l st = Step.goto l' st' →
      search_count st'.trace ≤ search_count st.trace + 1) := by
  constructor
  · intro r hs
    cases l with
    | start_over =>
      simp only [lookup_step] at hs
      cases hh : conf.host with
      | none =>
        simp only [hh] at hs
        cases hs
        exact Nat.le_succ _
      | some ch =>
        simp only [hh] at hs
        cases host with
        | none => simp at hs
        | some hostname =>
          simp only at hs
          split_ifs at hs
    | fallback c =>
      simp only [lookup_step] at hs
      cases he : env.ldap_bv2escaped_filter_value (cstr c) with
      | none => simp [he] at hs
      | some shostname =>
        have hone : search_count (st.trace ++ [Event.search c
            (build_filter env.FILTER_LENGTH conf.filter shostname), Event.connection_close])
            = search_count st.trace + 1 := by
          rw [search_count_append]
          rfl
        simp only [he] at hs
        split_ifs at hs
        · cases hs
          exact Nat.le_of_eq hone
        · cases hs
          exact Nat.le_of_eq hone
        · cases hs
          have := config_extends_observed _ _ (configure_vhost_trace env serverp server
            (load_request
              (env.util_ldap_cache_getuserdn st.searches
                (build_filter env.FILTER_LENGTH conf.filter shostname)).dn
              (env.util_ldap_cache_getuserdn st.searches
                (build_filter env.FILTER_LENGTH conf.filter shostname)).vals)
            (st.trace ++ [Event.search c
                (build_filter env.FILTER_LENGTH conf.filter shostname), Event.connection_close]))
          unfold search_count at hone ⊢
          rw [this.2.1, hone]
    | null =>
      simp only [lookup_step] at hs
      cases hfb : conf.fallback with
      | none =>
        simp only [hfb] at hs
        cases hs
        exact Nat.le_succ _
      | some fb =>
        simp only [hfb] at hs
        split_ifs at hs
        cases hs
        exact Nat.le_succ _
  · intro l' st' hs
    cases l with
    | start_over =>
      simp only [lookup_step] at hs
      cases hh : conf.host with
      | none => simp [hh] at hs
      | some ch =>
        simp only [hh] at hs
        cases host with
        | none =>
          simp only [Step.goto.injEq] at hs
          obtain ⟨_, rfl⟩ := hs
          simp [search_count, searched_hostnames_append, searched_hostnames]
        | some hostname =>
          simp only at hs
          split_ifs at hs <;>
          · simp only [Step.goto.injEq] at hs
            obtain ⟨_, rfl⟩ := hs
            simp [search_count, searched_hostnames_append, searched_hostnames]
    | fallback c =>
      simp only [lookup_step] at hs
      cases he : env.ldap_bv2escaped_filter_value (cstr c) with
      | none =>
        simp only [he, Step.goto.injEq] at hs
        obtain ⟨_, rfl⟩ := hs
        exact Nat.le_succ _
      | some shostname =>
        simp only [he] at hs
        split_ifs at hs <;>
        · simp only [Step.goto.injEq] at hs
          obtain ⟨_, rfl⟩ := hs
          simp [search_count, searched_hostnames_append, searched_hostnames]
    | null =>
      simp only [lookup_step] at hs
      cases hfb : conf.fallback with
      | none => simp [hfb] at hs
      | some fb =>
        simp only [hfb] at hs
        split_ifs at hs
        simp only [Step.goto.injEq] at hs
        obtain ⟨_, rfl⟩ := hs
        simp [search_count, searched_hostnames_append, searched_hostnames]

/-- A run of the loop makes at most as many searches as it has fuel. -/
theorem lookup_from_search_bound (env : Env) (conf : mod_vhost_ldap_config_t)
    (host : Option (List Char)) (serverp server : server_rec) (n : Nat) :
    ∀ (l : Label) (st : Locals) (r : lookup_result),
      lookup_from env conf host serverp server n l st = some r →
      search_count r.trace ≤ search_count st.trace + n := by
  induction n with
  | zero => intro l st r h; simp [lookup_from] at h
  | succ n ih =>
    intro l st r h
    simp only [lookup_from] at h
    cases hs : lookup_step env conf host serverp server l st with
    | ret r' =>
      rw [hs] at h
      have : r' = r := Option.some.inj h
      subst this
      have := (lookup_step_searches env conf host serverp server l st).1 r' hs
      omega
    | goto l' st' =>
      rw [hs] at h
      have h1 := ih l' st' r h
      have h2 := (lookup_step_searches env conf host serverp server l st).2 l' st' hs
      omega

/-- A jump from a candidate to another candidate is the wildcard step, taken from a
candidate other than `*`. -/
theorem lookup_step_wildcard (env : Env) (conf : mod_vhost_ldap_config_t)
    (host : Option (List Char)) (serverp server : server_rec) (c : List Char) (st : Locals)
    (c' : List Char) (st' : Locals)
    (hs : lookup_step env conf host serverp server (Label.fallback c) st
      = Step.goto (Label.fallback c') st') :
    c' = wildcard c ∧ cstr c ≠ ['*'] := by
  simp only [lookup_step] at hs
  cases he : env.ldap_bv2escaped_filter_value (cstr c) with
  | none => simp [he] at hs
  | some shostname =>
    simp only [he] at hs
    split_ifs at hs with h1 h2 h3 h4
    · simp at hs
    · simp only [Step.goto.injEq, Label.fallback.injEq] at hs
      refine ⟨hs.1.symm, ?_⟩
      rw [streq_star] at h4
      simpa using h4
    · simp at hs

/-- C22: termination.  For every environment (directory answers included), configuration
and requested hostname the lookup returns, after at most `lookup_fuel` searches, with the
fallback hostname substituted at most once and at most 6 searches failed transiently.
A jump from a candidate to the next one is the wildcard step, which takes the measure
`dot_measure` down; the wildcard step of a candidate other than `*` decreases the measure
and never returns the candidate it was given; the measure of a candidate with `d` dots
is at most `d + 1`, and the candidate is followed by exactly that many wildcard
candidates, `*` being the last. -/
theorem lookup_terminates (env : Env) (conf : mod_vhost_ldap_config_t)
    (host : Option (List Char)) (serverp : server_rec) :
    (∃ r, mod_vhost_ldap_lookup_vhost env conf host serverp = some r ∧
      search_count r.trace ≤ lookup_fuel conf host ∧
      (fallbacks r.trace).length ≤ 1 ∧
      transient_failures env 0 r.trace ≤ 6) ∧
    (∀ (server : server_rec) (c : List Char) (st : Locals) (c' : List Char) (st' : Locals),
      lookup_step env conf host serverp server (Label.fallback c) st
        = Step.goto (Label.fallback c') st' →
      c' = wildcard c ∧ dot_measure c' < dot_measure c) ∧
    (∀ c : List Char, cstr c ≠ ['*'] →
      dot_measure (wildcard c) < dot_measure c ∧ cstr (wildcard c) ≠ cstr c) ∧
    (∀ c : List Char, dot_measure c ≤ dots c + 1 ∧
      (wildcard_chain (dot_measure c + 1) c).length = dot_measure c + 1 ∧
      (wildcard_chain (dot_measure c + 1) c).length ≤ dots c + 2 ∧
      ∃ pre last, wildcard_chain (dot_measure c + 1) c = pre ++ [last] ∧ cstr last = ['*']) := by
  refine ⟨?_, ?_, ?_, ?_⟩
  · obtain ⟨r, hr⟩ := lookup_returns env conf host serverp
    have hb := lookup_budget env conf host serverp r hr
    have htf : transient_failures env 0 r.trace ≤ 6 := by
      simp only [budget_outcome, MAX_FAILURES] at hb
      rcases hb with ⟨h6, _, _⟩ | ⟨hle, _, _⟩ <;> omega
    obtain ⟨r', hr', hfb⟩ := lookup_fallback_once env conf host serverp
    rw [hr] at hr'
    cases hr'
    refine ⟨r, hr, ?_, hfb, htf⟩
    unfold mod_vhost_ldap_lookup_vhost at hr
    split_ifs at hr
    · cases hr
      exact Nat.zero_le _
    · cases hi : env.ap_init_virtual_host serverp with
      | none =>
        rw [hi] at hr
        cases hr
        exact Nat.zero_le _
      | some server =>
        rw [hi] at hr
        have := lookup_from_search_bound env conf host serverp server _ _ _ r hr
        simpa [initial_locals, search_count, searched_hostnames] using this
  · intro server c st c' st' hs
    obtain ⟨hc, hne⟩ := lookup_step_wildcard env conf host serverp server c st c' st' hs
    have := wildcard_dot_measure c hne
    rw [hc]
    exact ⟨rfl, by omega⟩
  · intro c hne
    have := wildcard_dot_measure c hne
    exact ⟨by omega, wildcard_ne c hne⟩
  · intro c
    obtain ⟨hlen, hlast⟩ := wildcard_chain_dots (dot_measure c + 1) c (Nat.lt_succ_self _)
    have hle := dot_measure_le c
    exact ⟨hle, hlen, by omega, hlast⟩

/-- C22, witness: `a.b.example.com` has 3 dots and measure 4, and is followed by the 4
candidates `*.b.example.com`, `*.example.com`, `*.com` and `*`. -/
theorem lookup_terminates_witness :
    cstr "a.b.example.com".toList ≠ ['*'] ∧
    (dot_measure (wildcard "a.b.example.com".toList) < dot_measure "a.b.example.com".toList ∧
      cstr (wildcard "a.b.example.com".toList) ≠ cstr "a.b.example.com".toList) ∧
    dots "a.b.example.com".toList = 3 ∧ dot_measure "a.b.example.com".toList = 4 ∧
    wildcard_chain (dot_measure "a.b.example.com".toList + 1) "a.b.example.com".toList
      = ["a.b.example.com".toList, "*.b.example.com".toList, "*.example.com".toList,
          "*.com".toList, "*".toList] :=
  ⟨by decide,
   (lookup_terminates (example_env fun _ => not_found) example_conf
      (some "a.b.example.com".toList) ⟨0⟩).2.2.1 "a.b.example.com".toList (by decide),
   by decide, by decide, by decide⟩

/-! ### The directory connection -/

/-- C21, at the failing inputs.  For `a.b` in a directory without an entry for it, the
connection acquired at `start_over` is released after the search for `a.b`, and the
searches for `*.b` and `*` are made after that release without a connection acquired
for them.  For an empty hostname without a fallback hostname the connection acquired
is never released.  The discipline is kept where the first search of every pass
decides: an entry found at once, or a directory server that is down. -/
theorem connection_discipline_broken :
    (mod_vhost_ldap_lookup_vhost (example_env fun _ => not_found) example_conf
        (some "a.b".toList) ⟨0⟩).map
        (fun r => (r.code, connection_events r.trace,
          acquire_search_release connection_state.idle r.trace))
      = some (400,
          [Event.connection_find,
            Event.search "a.b".toList
              (candidate_filter (example_env fun _ => not_found) example_conf "a.b".toList),
            Event.connection_close,
            Event.search "*.b".toList
              (candidate_filter (example_env fun _ => not_found) example_conf "*.b".toList),
            Event.connection_close,
            Event.search "*".toList
              (candidate_filter (example_env fun _ => not_found) example_conf "*".toList),
            Event.connection_close],
          false) ∧
    (mod_vhost_ldap_lookup_vhost (example_env fun _ => not_found) example_conf
        (some []) ⟨0⟩).map
        (fun r => (r.code, r.trace, acquire_search_release connection_state.idle r.trace))
      = some (400, [Event.connection_find], false) ∧
    (mod_vhost_ldap_lookup_vhost (example_env fun _ => example_entry) example_conf
        (some "foo.example.com".toList) ⟨0⟩).map
        (fun r => (r.code, acquire_search_release connection_state.idle r.trace))
      = some (0, true) ∧
    (mod_vhost_ldap_lookup_vhost (example_env fun _ => server_down) example_conf
        (some "foo.example.com".toList) ⟨0⟩).map
        (fun r => (r.code, acquire_search_release connection_state.idle r.trace))
      = some (504, true) := by
  decide

/-! ### An entry with a uid and without gid or username -/

/-- C13, as amended: after a successful search whose entry has a `uidNumber` (uid) but
lacks `gidNumber` (gid) or `uid` (username), the lookup never returns `OK`, stores
nothing in `*serverp` and leaves it as it was on entry.  It returns
`HTTP_INTERNAL_SERVER_ERROR` (500), unless a directive processed before the check was
refused: then the lookup ended on that directive and returns the status the directive
got.  So it returns 500 whenever the configuration system accepts the directives, or
refuses them with 500 only. -/
theorem incomplete_suexec_returns_error (env : Env) (conf : mod_vhost_ldap_config_t)
    (host : Option (List Char)) (serverp : server_rec) (r : lookup_result)
    (pre : List Event) (h f : List Char) (post : List Event)
    (hr : mod_vhost_ldap_lookup_vhost env conf host serverp = some r)
    (htr : r.trace = pre ++ Event.search h f :: post)
    (hok : (env.util_ldap_cache_getuserdn (search_count pre) f).result
      = ldap_result.LDAP_SUCCESS)
    (huid : (load_request (env.util_ldap_cache_getuserdn (search_count pre) f).dn
        (env.util_ldap_cache_getuserdn (search_count pre) f).vals).uid ≠ none)
    (hmiss : (load_request (env.util_ldap_cache_getuserdn (search_count pre) f).dn
        (env.util_ldap_cache_getuserdn (search_count pre) f).vals).gid = none ∨
      (load_request (env.util_ldap_cache_getuserdn (search_count pre) f).dn
        (env.util_ldap_cache_getuserdn (search_count pre) f).vals).username = none) :
    r.code ≠ OK ∧ r.serverp = serverp ∧ Event.fixup_virtual_host ∉ r.trace ∧
      (r.code = HTTP_INTERNAL_SERVER_ERROR ∨ refused_last env r) ∧
      (accepts_all env → r.code = HTTP_INTERNAL_SERVER_ERROR ∧ r.code = 500) ∧
      (directive_contract env → r.code = HTTP_INTERNAL_SERVER_ERROR ∧ r.code = 500) := by
  obtain ⟨server, _, hout⟩ := lookup_outcome env conf host serverp r hr pre h f post htr
  obtain ⟨hd, _, hs⟩ := hout pre h f post htr
  have hreq := hs hok
  have hi := configure_vhost_incomplete env serverp server _
    (pre ++ [Event.search h f, Event.connection_close]) huid hmiss
  have hcode := configure_vhost_code env serverp server
    (load_request (env.util_ldap_cache_getuserdn (search_count pre) f).dn
      (env.util_ldap_cache_getuserdn (search_count pre) f).vals)
    (pre ++ [Event.search h f, Event.connection_close])
    (by simp [directives_append, directives, hd])
  rw [← hreq] at hi hcode
  obtain ⟨hne, _⟩ := lookup_replaced env conf host serverp r hr
  have hor : r.code = HTTP_INTERNAL_SERVER_ERROR ∨ refused_last env r := by
    rcases hcode with e | e | e
    · exact absurd e hi.1
    · exact Or.inl e
    · exact Or.inr e
  refine ⟨hi.1, (hne hi.1).1, (hne hi.1).2, hor, fun ha => ?_, fun hc => ⟨hi.2 hc, hi.2 hc⟩⟩
  rcases hor with e | ⟨dir, args, _, e1, e2⟩
  · exact ⟨e, e⟩
  · exfalso
    apply e2
    rw [e1]
    exact ha _ _ _

/-- C13, counterexample: the entry has `uidNumber` and no `gidNumber`, and the
configuration system refuses `ServerName`, the first directive, with 403: the lookup
returns 403, not 500. -/
theorem incomplete_suexec_returns_error_counterexample :
    mod_vhost_ldap_lookup_vhost (refusing_env (fun _ => entry_without_gid) 0 403) example_conf
        (some "foo.example.com".toList) ⟨0⟩
      = some ⟨403, ⟨0⟩, [Event.connection_find,
          Event.search "foo.example.com".toList
            (candidate_filter (example_env fun _ => not_found) example_conf
              "foo.example.com".toList),
          Event.connection_close,
          Event.directive "ServerName".toList "'foo.example.com'".toList]⟩ ∧
    (load_request entry_without_gid.dn entry_without_gid.vals).uid
      = some "1234".toList ∧
    (load_request entry_without_gid.dn entry_without_gid.vals).gid = none ∧
    (403 : Int) ≠ HTTP_INTERNAL_SERVER_ERROR := by
  decide

/-- C13, witness: an entry with `uidNumber` and `gidNumber` but without `uid`, every
directive accepted. -/
theorem incomplete_suexec_returns_error_witness :
    mod_vhost_ldap_lookup_vhost (example_env fun _ => entry_without_username) example_conf
        (some "foo.example.com".toList) ⟨0⟩
      = some ⟨500, ⟨0⟩, [Event.connection_find,
          Event.search "foo.example.com".toList
            (candidate_filter (example_env fun _ => not_found) example_conf
              "foo.example.com".toList),
          Event.connection_close,
          Event.directive "ServerName".toList "'foo.example.com'".toList,
          Event.directive "DocumentRoot".toList "'/mit/foo/web_scripts'".toList,
          Event.directive "SuexecUserGroup".toList "'#1234' '#5678'".toList,
          Event.directive "UserDir".toList "'web_scripts'".toList,
          Event.directive "UserDir".toList "disabled".toList]⟩ ∧
    ((500 : Int) = HTTP_INTERNAL_SERVER_ERROR ∧ (500 : Int) = 500) := by
  refine ⟨by decide, ?_⟩
  exact (incomplete_suexec_returns_error
    (example_env fun _ => entry_without_username) example_conf
    (some "foo.example.com".toList) ⟨0⟩
    ⟨500, ⟨0⟩, [Event.connection_find,
      Event.search "foo.example.com".toList
        (candidate_filter (example_env fun _ => not_found) example_conf
          "foo.example.com".toList),
      Event.connection_close,
      Event.directive "ServerName".toList "'foo.example.com'".toList,
      Event.directive "DocumentRoot".toList "'/mit/foo/web_scripts'".toList,
      Event.directive "SuexecUserGroup".toList "'#1234' '#5678'".toList,
      Event.directive "UserDir".toList "'web_scripts'".toList,
      Event.directive "UserDir".toList "disabled".toList]⟩
    [Event.connection_find]
    "foo.example.com".toList
    (candidate_filter (example_env fun _ => not_found) example_conf "foo.example.com".toList)
    [Event.connection_close,
      Event.directive "ServerName".toList "'foo.example.com'".toList,
      Event.directive "DocumentRoot".toList "'/mit/foo/web_scripts'".toList,
      Event.directive "SuexecUserGroup".toList "'#1234' '#5678'".toList,
      Event.directive "UserDir".toList "'web_scripts'".toList,
      Event.directive "UserDir".toList "disabled".toList]
    (by decide) rfl (by decide) (by decide) (by decide)).2.2.2.2.1
    (example_env_accepts_all _)
/-! ### The retry budget is one per lookup -/

/-- C24, as amended: the retry budget is one per lookup.  A jump to a wildcard candidate,
to the fallback hostname or to the label `null` leaves `failures`, `sleep0` and `sleep1`
as they are.  Every lookup returns, and over it: at most 5 sleeps are taken, one after
each of the first five transient failures, lasting the first ones of 1, 2, 3, 5, 8
seconds, so never less than the sleep before; at most 6 searches fail transiently,
whatever their candidates; the lookup that sees a sixth transient failure returns
`HTTP_GATEWAY_TIME_OUT`; and a lookup that returns `HTTP_GATEWAY_TIME_OUT` has seen a
sixth transient failure, or ended on a refused directive whose status was that one (so
none does when the configuration system returns `OK` and `HTTP_INTERNAL_SERVER_ERROR`
only). -/
theorem retry_budget_per_lookup (env : Env) (conf : mod_vhost_ldap_config_t)
    (host : Option (List Char)) (serverp : server_rec) :
    (∀ (server : server_rec) (l : Label) (st : Locals) (l' : Label) (st' : Locals),
      lookup_step env conf host serverp server l st = Step.goto l' st' →
      l' ≠ Label.start_over →
      st'.failures = st.failures ∧ st'.sleep0 = st.sleep0 ∧ st'.sleep1 = st.sleep1) ∧
    ∃ r, mod_vhost_ldap_lookup_vhost env conf host serverp = some r ∧
      (sleeps r.trace).length ≤ 5 ∧
      (sleeps r.trace).length = min (transient_failures env 0 r.trace) 5 ∧
      sleeps r.trace = ([1, 2, 3, 5, 8] : List Nat).take (sleeps r.trace).length ∧
      List.Pairwise (fun a b => a ≤ b) (sleeps r.trace) ∧
      transient_failures env 0 r.trace ≤ 6 ∧
      (transient_failures env 0 r.trace = 6 → r.code = HTTP_GATEWAY_TIME_OUT) ∧
      (r.code = HTTP_GATEWAY_TIME_OUT →
        transient_failures env 0 r.trace = 6 ∨ refused_last env r) ∧
      (directive_contract env → r.code = HTTP_GATEWAY_TIME_OUT →
        transient_failures env 0 r.trace = 6) := by
  refine ⟨fun server l st l' st' => lookup_step_keeps_budget env conf host serverp server
    l st l' st', ?_⟩
  obtain ⟨r, hr⟩ := lookup_returns env conf host serverp
  have hsl := lookup_sleeps env conf host serverp r hr
  have hb := lookup_budget env conf host serverp r hr
  have hsorted : ∀ k, List.Pairwise (fun a b => a ≤ b) (([1, 2, 3, 5, 8] : List Nat).take k) := by
    intro k
    exact List.Pairwise.sublist (List.take_sublist k _) (by decide)
  have hpair : List.Pairwise (fun a b => a ≤ b) (sleeps r.trace) := by
    rw [hsl]
    exact hsorted _
  simp only [budget_outcome, MAX_FAILURES] at hb
  rcases hb with ⟨h6, hcode, h5⟩ | ⟨hle, hlen, hcode⟩
  · exact ⟨r, hr, by omega, by omega, hsl, hpair, by omega, fun _ => hcode,
      fun _ => Or.inl h6, fun _ _ => h6⟩
  · refine ⟨r, hr, by omega, by omega, hsl, hpair, by omega, fun h6 => by omega,
      fun h504 => Or.inr (hcode h504), fun hc h504 => ?_⟩
    obtain ⟨dir, args, _, e1, _⟩ := hcode h504
    rw [h504] at e1
    rcases hc ((directives r.trace).length - 1) dir args with e | e
    · rw [reconfigure_directive, e] at e1
      exact absurd e1 (by decide)
    · rw [reconfigure_directive, e] at e1
      exact absurd e1 (by decide)

/-- C24, counterexample: the first search finds the entry of the example and the
configuration system refuses `DocumentRoot`, the second directive, with 504: the lookup
returns `HTTP_GATEWAY_TIME_OUT` without a single transient failure. -/
theorem retry_budget_per_lookup_counterexample :
    mod_vhost_ldap_lookup_vhost (refusing_env (fun _ => example_entry) 1 504) example_conf
        (some "foo.example.com".toList) ⟨0⟩
      = some ⟨HTTP_GATEWAY_TIME_OUT, ⟨0⟩, [Event.connection_find,
          Event.search "foo.example.com".toList
            (candidate_filter (example_env fun _ => not_found) example_conf
              "foo.example.com".toList),
          Event.connection_close,
          Event.directive "ServerName".toList "'foo.example.com'".toList,
          Event.directive "DocumentRoot".toList "'/mit/foo/web_scripts'".toList]⟩ ∧
    (mod_vhost_ldap_lookup_vhost (refusing_env (fun _ => example_entry) 1 504) example_conf
        (some "foo.example.com".toList) ⟨0⟩).map
        (fun r => transient_failures (refusing_env (fun _ => example_entry) 1 504) 0 r.trace)
      = some 0 := by
  decide

/-- C24, witness: for `a.b`, with every search for `a.b` answered no-such-object and
every search for `*.b` failing transiently, the six transient failures all happen on the
wildcard candidate; the lookup sleeps 1, 2, 3, 5 and 8 seconds and returns
`HTTP_GATEWAY_TIME_OUT` on the sixth. -/
theorem retry_budget_per_lookup_witness :
    (mod_vhost_ldap_lookup_vhost
        (example_env fun n => if n % 2 = 1 then server_down else not_found) example_conf
        (some "a.b".toList) ⟨0⟩).map (fun r => searched_hostnames r.trace)
      = some ["a.b".toList, "*.b".toList, "a.b".toList, "*.b".toList, "a.b".toList,
          "*.b".toList, "a.b".toList, "*.b".toList, "a.b".toList, "*.b".toList,
          "a.b".toList, "*.b".toList] ∧
    ∃ r, mod_vhost_ldap_lookup_vhost
        (example_env fun n => if n % 2 = 1 then server_down else not_found) example_conf
        (some "a.b".toList) ⟨0⟩ = some r ∧
      transient_failures (example_env fun n => if n % 2 = 1 then server_down else not_found)
        0 r.trace = 6 ∧
      r.code = HTTP_GATEWAY_TIME_OUT ∧ (sleeps r.trace).length = 5 ∧
      sleeps r.trace = ([1, 2, 3, 5, 8] : List Nat).take (sleeps r.trace).length := by
  refine ⟨by decide, ?_⟩
  obtain ⟨_, r, hr, _, hmin, hsl, _, _, h6, _, _⟩ := retry_budget_per_lookup
    (example_env fun n => if n % 2 = 1 then server_down else not_found) example_conf
    (some "a.b".toList) ⟨0⟩
  have htf : (mod_vhost_ldap_lookup_vhost
      (example_env fun n => if n % 2 = 1 then server_down else not_found) example_conf
      (some "a.b".toList) ⟨0⟩).map (fun r => transient_failures
        (example_env fun n => if n % 2 = 1 then server_down else not_found) 0 r.trace)
      = some 6 := by decide
  rw [hr] at htf
  have htf' : transient_failures
      (example_env fun n => if n % 2 = 1 then server_down else not_found) 0 r.trace = 6 := by
    simpa using htf
  exact ⟨r, hr, htf', h6 htf', by rw [hmin, htf']; rfl, hsl⟩

/-! ### The label at which an event was produced -/

/-- The events one step of the lookup adds to the trace.  A search is added only at the
label `fallback`, for its candidate, first and followed by its close; a fallback
substitution only at the label `null`, alone, the first time there. -/
theorem lookup_step_appends (env : Env) (conf : mod_vhost_ldap_config_t)
    (host : Option (List Char)) (serverp server : server_rec) (l : Label) (st : Locals) :
    ∃ evs,
      (∀ r, lookup_step env conf host serverp server l st = Step.ret r →
        r.trace = st.trace ++ evs) ∧
      (∀ l' st', lookup_step env conf host serverp server l st = Step.goto l' st' →
        st'.trace = st.trace ++ evs) ∧
      (searched_hostnames evs = [] ∨
        ∃ c sh ds, l = Label.fallback c ∧ env.ldap_bv2escaped_filter_value (cstr c) = some sh ∧
          evs = Event.search c (build_filter env.FILTER_LENGTH conf.filter sh)
            :: Event.connection_close :: ds ∧ searched_hostnames ds = []) ∧
      (fallbacks evs = [] ∨
        ∃ fb, l = Label.null ∧ conf.fallback = some fb ∧ st.is_fallback = 0 ∧
          evs = [Event.fallback fb]) := by
  cases l with
  | start_over =>
    cases hh : conf.host with
    | none =>
      refine ⟨[], ?_, ?_, Or.inl rfl, Or.inl rfl⟩
      · intro r hs
        simp only [lookup_step, hh] at hs
        cases hs
        simp
      · intro l' st' hs
        simp [lookup_step, hh] at hs
    | some ch =>
      refine ⟨[Event.connection_find], ?_, ?_, Or.inl rfl, Or.inl rfl⟩
      · intro r hs
        simp only [lookup_step, hh] at hs
        cases host with
        | none => simp at hs
        | some hostname =>
          simp only at hs
          split_ifs at hs
      · intro l' st' hs
        simp only [lookup_step, hh] at hs
        cases host with
        | none =>
          simp only [Step.goto.injEq] at hs
          obtain ⟨_, rfl⟩ := hs
          rfl
        | some hostname =>
          simp only at hs
          split_ifs at hs <;>
          · simp only [Step.goto.injEq] at hs
            obtain ⟨_, rfl⟩ := hs
            rfl
  | fallback c =>
    cases he : env.ldap_bv2escaped_filter_value (cstr c) with
    | none =>
      refine ⟨[], ?_, ?_, Or.inl rfl, Or.inl rfl⟩
      · intro r hs
        simp [lookup_step, he] at hs
      · intro l' st' hs
        simp only [lookup_step, he, Step.goto.injEq] at hs
        obtain ⟨_, rfl⟩ := hs
        simp
    | some sh =>
      cases hstep : lookup_step env conf host serverp server (Label.fallback c) st with
      | ret r =>
        have hs := hstep
        simp only [lookup_step, he] at hs
        split_ifs at hs
        · cases hs
          exact ⟨[Event.search c (build_filter env.FILTER_LENGTH conf.filter sh),
            Event.connection_close], fun r' e => (by cases e; rfl),
            fun l' st' e => (by cases e),
            Or.inr ⟨c, sh, [], rfl, he, rfl, rfl⟩, Or.inl rfl⟩
        · cases hs
          exact ⟨[Event.search c (build_filter env.FILTER_LENGTH conf.filter sh),
            Event.connection_close], fun r' e => (by cases e; rfl),
            fun l' st' e => (by cases e),
            Or.inr ⟨c, sh, [], rfl, he, rfl, rfl⟩, Or.inl rfl⟩
        · cases hs
          obtain ⟨ds, hds, hall⟩ := configure_vhost_trace env serverp server
            (load_request
              (env.util_ldap_cache_getuserdn st.searches
                (build_filter env.FILTER_LENGTH conf.filter sh)).dn
              (env.util_ldap_cache_getuserdn st.searches
                (build_filter env.FILTER_LENGTH conf.filter sh)).vals)
            (st.trace ++ [Event.search c
                (build_filter env.FILTER_LENGTH conf.filter sh), Event.connection_close])
          obtain ⟨_, hq, hf⟩ := config_events_observed ds hall
          refine ⟨Event.search c (build_filter env.FILTER_LENGTH conf.filter sh)
            :: Event.connection_close :: ds, fun r' e => ?_, fun l' st' e => (by cases e),
            Or.inr ⟨c, sh, ds, rfl, he, rfl, hq⟩, Or.inl (by simpa [fallbacks] using hf)⟩
          cases e
          rw [hds]
          simp
      | goto l' st' =>
        have hs := hstep
        simp only [lookup_step, he] at hs
        split_ifs at hs
        · simp only [Step.goto.injEq] at hs
          obtain ⟨_, rfl⟩ := hs
          exact ⟨[Event.search c (build_filter env.FILTER_LENGTH conf.filter sh),
            Event.connection_close, Event.sleep (st.sleep0 + st.sleep1)],
            fun r' e => (by cases e),
            fun l'' st'' e => (by cases e; simp),
            Or.inr ⟨c, sh, [Event.sleep (st.sleep0 + st.sleep1)], rfl, he, rfl, rfl⟩,
            Or.inl rfl⟩
        · simp only [Step.goto.injEq] at hs
          obtain ⟨_, rfl⟩ := hs
          exact ⟨[Event.search c (build_filter env.FILTER_LENGTH conf.filter sh),
            Event.connection_close], fun r' e => (by cases e),
            fun l'' st'' e => (by cases e; rfl),
            Or.inr ⟨c, sh, [], rfl, he, rfl, rfl⟩, Or.inl rfl⟩
        · simp only [Step.goto.injEq] at hs
          obtain ⟨_, rfl⟩ := hs
          exact ⟨[Event.search c (build_filter env.FILTER_LENGTH conf.filter sh),
            Event.connection_close], fun r' e => (by cases e),
            fun l'' st'' e => (by cases e; rfl),
            Or.inr ⟨c, sh, [], rfl, he, rfl, rfl⟩, Or.inl rfl⟩
  | null =>
    cases hfb : conf.fallback with
    | none =>
      refine ⟨[], ?_, ?_, Or.inl rfl, Or.inl rfl⟩
      · intro r hs
        simp only [lookup_step, hfb] at hs
        cases hs
        simp
      · intro l' st' hs
        simp [lookup_step, hfb] at hs
    | some fb =>
      by_cases h0 : st.is_fallback ≤ 0
      · refine ⟨[Event.fallback fb], ?_, ?_, Or.inl rfl,
          Or.inr ⟨fb, rfl, rfl, by omega, rfl⟩⟩
        · intro r hs
          simp [lookup_step, hfb, h0] at hs
        · intro l' st' hs
          simp only [lookup_step, hfb, h0, if_true, Step.goto.injEq] at hs
          obtain ⟨_, rfl⟩ := hs
          rfl
      · refine ⟨[], ?_, ?_, Or.inl rfl, Or.inl rfl⟩
        · intro r hs
          simp only [lookup_step, hfb, h0, if_false] at hs
          cases hs
          simp
        · intro l' st' hs
          simp [lookup_step, hfb, h0] at hs

/-- Every event of the trace of a run was added by a step of the run: either it was in
the trace the run started with, or the run came by a label and locals whose step added
it, and from which the run returns what it returns. -/
theorem event_visit (env : Env) (conf : mod_vhost_ldap_config_t)
    (host : Option (List Char)) (serverp server : server_rec) (e : Event) (n : Nat) :
    ∀ (l : Label) (st : Locals) (r : lookup_result), sound_locals env conf l st →
    lookup_from env conf host serverp server n l st = some r →
    ∀ pre post, r.trace = pre ++ e :: post →
    (∃ post', st.trace = pre ++ e :: post') ∨
    (∃ m l' st' pre' post', sound_locals env conf l' st' ∧
      lookup_from env conf host serverp server m l' st' = some r ∧
      pre = st'.trace ++ pre' ∧
      (searched_hostnames (pre' ++ e :: post') = [] ∨
        ∃ c sh ds, l' = Label.fallback c ∧ env.ldap_bv2escaped_filter_value (cstr c) = some sh ∧
          pre' ++ e :: post' = Event.search c (build_filter env.FILTER_LENGTH conf.filter sh)
            :: Event.connection_close :: ds ∧ searched_hostnames ds = []) ∧
      (fallbacks (pre' ++ e :: post') = [] ∨
        ∃ fb, l' = Label.null ∧ conf.fallback = some fb ∧ st'.is_fallback = 0 ∧
          pre' ++ e :: post' = [Event.fallback fb])) := by
  induction n with
  | zero => intro l st r _ h; simp [lookup_from] at h
  | succ n ih =>
    intro l st r hS h pre post htr
    obtain ⟨evs, hret, hgoto, hsh1, hsh2⟩ :=
      lookup_step_appends env conf host serverp server l st
    have here : ∀ post0, st.trace ++ evs = pre ++ e :: post0 →
        (∃ post', st.trace = pre ++ e :: post') ∨
        (∃ m l' st' pre' post', sound_locals env conf l' st' ∧
          lookup_from env conf host serverp server m l' st' = some r ∧
          pre = st'.trace ++ pre' ∧
          (searched_hostnames (pre' ++ e :: post') = [] ∨
            ∃ c sh ds, l' = Label.fallback c ∧
              env.ldap_bv2escaped_filter_value (cstr c) = some sh ∧
              pre' ++ e :: post' = Event.search c (build_filter env.FILTER_LENGTH conf.filter sh)
                :: Event.connection_close :: ds ∧ searched_hostnames ds = []) ∧
          (fallbacks (pre' ++ e :: post') = [] ∨
            ∃ fb, l' = Label.null ∧ conf.fallback = some fb ∧ st'.is_fallback = 0 ∧
              pre' ++ e :: post' = [Event.fallback fb])) := by
      intro post0 heq
      rcases append_split e evs post0 st.trace pre heq with hl | ⟨pre', hp1, hp2⟩
      · exact Or.inl hl
      · right
        refine ⟨n + 1, l, st, pre', post0, hS, h, hp1, ?_, ?_⟩
        · rw [← hp2]
          exact hsh1
        · rw [← hp2]
          exact hsh2
    have h' := h
    simp only [lookup_from] at h'
    cases hs : lookup_step env conf host serverp server l st with
    | ret r' =>
      rw [hs] at h'
      have : r' = r := Option.some.inj h'
      subst this
      have ht := hret r' hs
      rw [ht] at htr
      exact here post htr
    | goto l' st' =>
      rw [hs] at h'
      have hS' := sound_locals_goto env conf host serverp server l st l' st' hS hs
      rcases ih l' st' r hS' h' pre post htr with ⟨post', hp⟩ | hright
      · have ht := hgoto l' st' hs
        rw [ht] at hp
        exact here post' hp
      · exact Or.inr hright

theorem searched_hostnames_search (pre post : List Event) (h f : List Char) :
    searched_hostnames (pre ++ Event.search h f :: post) ≠ [] := by
  rw [searched_hostnames_append]
  simp [searched_hostnames]

theorem fallbacks_fallback (pre post : List Event) (fb : List Char) :
    fallbacks (pre ++ Event.fallback fb :: post) ≠ [] := by
  rw [fallbacks_append]
  simp [fallbacks]

/-- Every search of a finished lookup was made at the label `fallback` for its candidate,
with sound locals whose trace is what comes before the search; the filter is the one
composed for the candidate. -/
theorem search_visit (env : Env) (conf : mod_vhost_ldap_config_t)
    (host : Option (List Char)) (serverp : server_rec) (r : lookup_result)
    (pre : List Event) (h f : List Char) (post : List Event)
    (hr : mod_vhost_ldap_lookup_vhost env conf host serverp = some r)
    (htr : r.trace = pre ++ Event.search h f :: post) :
    ∃ server m st, env.ap_init_virtual_host serverp = some server ∧
      sound_locals env conf (Label.fallback h) st ∧ st.trace = pre ∧
      env.ldap_bv2escaped_filter_value (cstr h) ≠ none ∧ f = candidate_filter env conf h ∧
      lookup_from env conf host serverp server m (Label.fallback h) st = some r := by
  unfold mod_vhost_ldap_lookup_vhost at hr
  split_ifs at hr
  · cases hr; simp at htr
  · cases hi : env.ap_init_virtual_host serverp with
    | none => rw [hi] at hr; cases hr; simp at htr
    | some server =>
      rw [hi] at hr
      rcases event_visit env conf host serverp server (Event.search h f) _ _ _ r
        (sound_locals_initial env conf) hr pre post htr with ⟨post', hp⟩ | hright
      · simp [initial_locals] at hp
      · obtain ⟨m, l', st', pre', post', hS, hrun, hpre, hsh, _⟩ := hright
        rcases hsh with hq | ⟨c, sh, ds, hl, he, hev, hds⟩
        · exact absurd hq (searched_hostnames_search pre' post' h f)
        · cases pre' with
          | nil =>
            simp only [List.nil_append, List.cons.injEq, Event.search.injEq] at hev
            obtain ⟨⟨rfl, rfl⟩, _⟩ := hev
            subst hl
            refine ⟨server, m, st', rfl, hS, by simpa using hpre.symm, by rw [he]; simp, ?_,
              hrun⟩
            simp [candidate_filter, he]
          | cons x pre'' =>
            exfalso
            simp only [List.cons_append, List.cons.injEq] at hev
            have hq : searched_hostnames (Event.connection_close :: ds) = [] := by
              simpa [searched_hostnames] using hds
            rw [← hev.2] at hq
            exact searched_hostnames_search pre'' post' h f hq

/-- Every substitution of the fallback hostname in a finished lookup was made at the
label `null`, the first time the lookup came there, with sound locals whose trace is
what comes before the substitution. -/
theorem fallback_visit (env : Env) (conf : mod_vhost_ldap_config_t)
    (host : Option (List Char)) (serverp : server_rec) (r : lookup_result)
    (pre : List Event) (fb : List Char) (post : List Event)
    (hr : mod_vhost_ldap_lookup_vhost env conf host serverp = some r)
    (htr : r.trace = pre ++ Event.fallback fb :: post) :
    ∃ server m st, env.ap_init_virtual_host serverp = some server ∧
      sound_locals env conf Label.null st ∧ st.trace = pre ∧
      conf.fallback = some fb ∧ st.is_fallback = 0 ∧
      lookup_from env conf host serverp server m Label.null st = some r := by
  unfold mod_vhost_ldap_lookup_vhost at hr
  split_ifs at hr
  · cases hr; simp at htr
  · cases hi : env.ap_init_virtual_host serverp with
    | none => rw [hi] at hr; cases hr; simp at htr
    | some server =>
      rw [hi] at hr
      rcases event_visit env conf host serverp server (Event.fallback fb) _ _ _ r
        (sound_locals_initial env conf) hr pre post htr with ⟨post', hp⟩ | hright
      · simp [initial_locals] at hp
      · obtain ⟨m, l', st', pre', post', hS, hrun, hpre, _, hsh⟩ := hright
        rcases hsh with hq | ⟨fb', hl, hfb, h0, hev⟩
        · exact absurd hq (fallbacks_fallback pre' post' fb)
        · cases pre' with
          | nil =>
            simp only [List.nil_append, List.cons.injEq, Event.fallback.injEq] at hev
            obtain ⟨rfl, _⟩ := hev
            subst hl
            exact ⟨server, m, st', rfl, hS, by simpa using hpre.symm, hfb, h0, hrun⟩
          | cons x pre'' =>
            exfalso
            simp only [List.cons_append, List.cons.injEq] at hev
            have := hev.2
            simp at this

/-! ### What follows a transient failure -/

theorem backoff_table (n : Nat) (h : n < 5) :
    ([1, 2, 3, 5, 8] : List Nat).get? n = some (Nat.fib (n + 2)) := by
  interval_cases n <;> rfl

/-- From the label `fallback`, when the search fails transiently and a retry is left:
the search and the release are followed by a sleep of `sleep0 + sleep1` seconds and by a
new connection, acquired at `start_over`; for a non-empty requested hostname the
directory library can escape, the next search is for the requested hostname. -/
theorem run_retry (env : Env) (conf : mod_vhost_ldap_config_t) (host : Option (List Char))
    (serverp server : server_rec) (m : Nat) (c : List Char) (st : Locals) (r : lookup_result)
    (hS : sound_locals env conf (Label.fallback c) st)
    (hesc : env.ldap_bv2escaped_filter_value (cstr c) ≠ none)
    (htr : is_transient (env.util_ldap_cache_getuserdn st.searches
      (candidate_filter env conf c)).result = true)
    (hlt : st.failures < MAX_FAILURES)
    (h : lookup_from env conf host serverp server m (Label.fallback c) st = some r) :
    ∃ post, r.trace = st.trace ++ Event.search c (candidate_filter env conf c)
        :: Event.connection_close :: Event.sleep (Nat.fib (st.failures + 2))
        :: Event.connection_find :: post ∧
      ∀ h0, host = some h0 → cstr h0 ≠ [] →
        env.ldap_bv2escaped_filter_value (cstr h0) ≠ none →
        ∃ post', post = Event.search h0 (candidate_filter env conf h0)
          :: Event.connection_close :: post' := by
  obtain ⟨_, _, hs0, hs1, _, hhost⟩ := hS
  have hhost : conf.host ≠ none := hhost (by simp)
  have hfib : st.sleep0 + st.sleep1 = Nat.fib (st.failures + 2) := by
    rw [hs0, hs1, Nat.fib_add_two]
  cases m with
  | zero => simp [lookup_from] at h
  | succ k =>
    rw [lookup_from_goto env conf host serverp server _ _ _ _ _
      (step_retry env conf host serverp server c st hesc htr hlt)] at h
    cases k with
    | zero => simp [lookup_from] at h
    | succ k =>
      have hempty : (∀ h0, host = some h0 → at_end h0 = true) →
          ∃ post, r.trace = st.trace ++ Event.search c (candidate_filter env conf c)
              :: Event.connection_close :: Event.sleep (Nat.fib (st.failures + 2))
              :: Event.connection_find :: post ∧
            ∀ h0, host = some h0 → cstr h0 ≠ [] →
              env.ldap_bv2escaped_filter_value (cstr h0) ≠ none →
              ∃ post', post = Event.search h0 (candidate_filter env conf h0)
                :: Event.connection_close :: post' := by
        intro he
        rw [lookup_from_goto env conf host serverp server _ _ _ _ _
          (step_start_over_empty env conf host serverp server _ hhost he)] at h
        obtain ⟨post, hp⟩ := lookup_from_extends env conf host serverp server _ _ _ r h
        refine ⟨post, ?_, fun h0 hh hne _ => absurd ((at_end_iff h0).1 (he h0 hh)) hne⟩
        rw [hp, hfib]
        simp [advance, search_events]
      cases host with
      | none => exact hempty (fun h0 hh => by cases hh)
      | some h0 =>
        cases hat : at_end h0 with
        | true => exact hempty (fun h1 hh => by cases hh; exact hat)
        | false =>
          rw [lookup_from_goto env conf (some h0) serverp server _ _ _ _ _
            (step_start_over env conf h0 serverp server _ hhost hat)] at h
          obtain ⟨post, hp⟩ := lookup_from_extends env conf (some h0) serverp server _ _ _ r h
          refine ⟨post, ?_, fun h1 hh _ hesc0 => ?_⟩
          · rw [hp, hfib]
            simp [advance, search_events]
          · cases hh
            obtain ⟨post', hp'⟩ := lookup_from_fallback_extends env conf (some h0) serverp
              server _ h0 _ r hesc0 h
            rw [hp] at hp'
            exact ⟨post', List.append_cancel_left hp'⟩

/-- From the label `fallback`, when the search fails transiently and no retry is left,
the lookup returns `HTTP_GATEWAY_TIME_OUT` right after the release. -/
theorem run_timeout (env : Env) (conf : mod_vhost_ldap_config_t) (host : Option (List Char))
    (serverp server : server_rec) (m : Nat) (c : List Char) (st : Locals) (r : lookup_result)
    (hesc : env.ldap_bv2escaped_filter_value (cstr c) ≠ none)
    (htr : is_transient (env.util_ldap_cache_getuserdn st.searches
      (candidate_filter env conf c)).result = true)
    (hge : MAX_FAILURES ≤ st.failures)
    (h : lookup_from env conf host serverp server m (Label.fallback c) st = some r) :
    r = ⟨HTTP_GATEWAY_TIME_OUT, serverp, st.trace ++ [Event.search c (candidate_filter env conf c),
      Event.connection_close]⟩ := by
  cases m with
  | zero => simp [lookup_from] at h
  | succ k =>
    rw [lookup_from_ret env conf host serverp server _ _ _ _
      (step_timeout env conf host serverp server c st hesc htr hge)] at h
    rw [← Option.some.inj h]
    simp [search_events]

/-- C5, as amended: the sleeps before the 1st, 2nd, 3rd, 4th and 5th retry of a lookup
last 1, 2, 3, 5 and 8 seconds.  Every lookup returns, and in its trace: the sleeps taken
are the first ones of 1, 2, 3, 5, 8, as many as searches failed transiently (five after a
sixth failure); every search that fails transiently after `k < 5` earlier transient
failures is followed by the release of the connection, then by a sleep of the `k`-th
length of 1, 2, 3, 5, 8 counted from 0, which is the Fibonacci number `fib (k + 2)`, and
then by the retry, which acquires a connection at `start_over`; and a search that fails
transiently after five earlier failures is followed by the release only, the lookup
returning `HTTP_GATEWAY_TIME_OUT` without a sleep. -/
theorem backoff_sleeps (env : Env) (conf : mod_vhost_ldap_config_t)
    (host : Option (List Char)) (serverp : server_rec) :
    ∃ r, mod_vhost_ldap_lookup_vhost env conf host serverp = some r ∧
      sleeps r.trace
        = ([1, 2, 3, 5, 8] : List Nat).take (transient_failures env 0 r.trace) ∧
      ∀ pre h f post, r.trace = pre ++ Event.search h f :: post →
        is_transient (env.util_ldap_cache_getuserdn (search_count pre) f).result = true →
        (transient_failures env 0 pre < MAX_FAILURES →
          ∃ s post', ([1, 2, 3, 5, 8] : List Nat).get? (transient_failures env 0 pre) = some s ∧
            s = Nat.fib (transient_failures env 0 pre + 2) ∧
            post = Event.connection_close :: Event.sleep s :: Event.connection_find :: post') ∧
        (MAX_FAILURES ≤ transient_failures env 0 pre →
          post = [Event.connection_close] ∧ r.code = HTTP_GATEWAY_TIME_OUT) := by
  obtain ⟨r, hr⟩ := lookup_returns env conf host serverp
  refine ⟨r, hr, ?_, ?_⟩
  · have hsl := lookup_sleeps env conf host serverp r hr
    have hb := lookup_budget env conf host serverp r hr
    simp only [budget_outcome, MAX_FAILURES] at hb
    rcases hb with ⟨h6, _, h5⟩ | ⟨_, hlen, _⟩
    · rw [hsl, h5, h6]
      rfl
    · rw [hsl, hlen]
  · intro pre h f post htr hfail
    obtain ⟨server, m, st, _, hS, hpre, hesc, hf, hrun⟩ :=
      search_visit env conf host serverp r pre h f post hr htr
    have hB := hS.1
    obtain ⟨hsearches, hfailures, _, _⟩ := hB
    rw [hpre] at hsearches hfailures
    rw [← hsearches, hf] at hfail
    rw [← hfailures]
    constructor
    · intro hlt
      obtain ⟨post', hp, _⟩ := run_retry env conf host serverp server m h st r hS hesc hfail
        hlt hrun
      refine ⟨Nat.fib (st.failures + 2), post', backoff_table _ hlt, rfl, ?_⟩
      rw [htr, hpre, hf] at hp
      have := List.append_cancel_left hp
      simp only [List.cons.injEq, true_and] at this
      rw [this]
    · intro hge
      have hret := run_timeout env conf host serverp server m h st r hesc hfail hge hrun
      have ht : r.trace = st.trace ++ [Event.search h (candidate_filter env conf h),
          Event.connection_close] := by rw [hret]
      rw [htr, hpre, hf] at ht
      have := List.append_cancel_left ht
      simp only [List.cons.injEq, true_and] at this
      exact ⟨this, by rw [hret]⟩

/-- C5, witness: with the directory server down the lookup for `foo.example.com` meets
six transient failures and sleeps 1, 2, 3, 5 and 8 seconds. -/
theorem backoff_sleeps_witness :
    ∃ r, mod_vhost_ldap_lookup_vhost (example_env fun _ => server_down) example_conf
        (some "foo.example.com".toList) ⟨0⟩ = some r ∧
      transient_failures (example_env fun _ => server_down) 0 r.trace = 6 ∧
      sleeps r.trace = [1, 2, 3, 5, 8] := by
  obtain ⟨r, hr, hs, _⟩ := backoff_sleeps (example_env fun _ => server_down) example_conf
    (some "foo.example.com".toList) ⟨0⟩
  have htf : (mod_vhost_ldap_lookup_vhost (example_env fun _ => server_down) example_conf
      (some "foo.example.com".toList) ⟨0⟩).map
        (fun r => transient_failures (example_env fun _ => server_down) 0 r.trace)
      = some 6 := by decide
  rw [hr] at htf
  have htf' : transient_failures (example_env fun _ => server_down) 0 r.trace = 6 := by
    simpa using htf
  refine ⟨r, hr, htf', ?_⟩
  rw [hs, htf']
  rfl

/-- C10, as amended: a retry starts the chain over.  When the search for a candidate `h`
(exact, wildcard or fallback) fails transiently after fewer than `MAX_FAILURES` earlier
transient failures, the lookup releases the connection, sleeps (a positive number of
seconds), acquires a connection again at `start_over` and resets the search hostname to
the requested hostname: for a non-empty requested hostname the directory library can
escape, the next search is for the requested hostname, so it is for `h` again only
when `h` is the requested hostname. -/
theorem retry_starts_over (env : Env) (conf : mod_vhost_ldap_config_t)
    (host : Option (List Char)) (serverp : server_rec) (r : lookup_result)
    (pre : List Event) (h f : List Char) (post : List Event)
    (hr : mod_vhost_ldap_lookup_vhost env conf host serverp = some r)
    (htr : r.trace = pre ++ Event.search h f :: post)
    (hfail : is_transient (env.util_ldap_cache_getuserdn (search_count pre) f).result = true)
    (hleft : transient_failures env 0 pre < MAX_FAILURES) :
    ∃ s post', 0 < s ∧
      post = Event.connection_close :: Event.sleep s :: Event.connection_find :: post' ∧
      ∀ h0, host = some h0 → cstr h0 ≠ [] →
        env.ldap_bv2escaped_filter_value (cstr h0) ≠ none →
        (∃ post'', post' = Event.search h0 (candidate_filter env conf h0)
          :: Event.connection_close :: post'') ∧
        ∀ h1, (searched_hostnames post').head? = some h1 → (h1 = h ↔ h = h0) := by
  obtain ⟨server, m, st, _, hS, hpre, hesc, hf, hrun⟩ :=
    search_visit env conf host serverp r pre h f post hr htr
  have hB := hS.1
  obtain ⟨hsearches, hfailures, _, _⟩ := hB
  rw [hpre] at hsearches hfailures
  rw [← hsearches, hf] at hfail
  rw [← hfailures] at hleft
  obtain ⟨post', hp, hnext⟩ := run_retry env conf host serverp server m h st r hS hesc hfail
    hleft hrun
  refine ⟨Nat.fib (st.failures + 2), post', Nat.fib_pos.2 (by omega), ?_, ?_⟩
  · rw [htr, hpre, hf] at hp
    have := List.append_cancel_left hp
    simp only [List.cons.injEq, true_and] at this
    exact this
  · intro h0 hh hne hesc0
    obtain ⟨post'', hp''⟩ := hnext h0 hh hne hesc0
    refine ⟨⟨post'', hp''⟩, fun h1 hh1 => ?_⟩
    rw [hp''] at hh1
    simp only [searched_hostnames, List.head?_cons, Option.some.injEq] at hh1
    rw [← hh1]
    exact ⟨fun e => e.symm, fun e => e.symm⟩

/-- C10, witness: for `a.b`, the second search, the one for `*.b`, fails transiently; the
lookup releases the connection, sleeps 1 second, acquires a connection and searches
`a.b`, not `*.b`. -/
theorem retry_starts_over_witness :
    transient_failures (example_env fun n => if n = 1 then server_down else not_found) 0
        [Event.connection_find,
          Event.search "a.b".toList (candidate_filter
            (example_env fun n => if n = 1 then server_down else not_found) example_conf
            "a.b".toList),
          Event.connection_close] < MAX_FAILURES ∧
    ∃ s post', 0 < s ∧
      [Event.connection_close, Event.sleep 1, Event.connection_find,
        Event.search "a.b".toList (candidate_filter
          (example_env fun n => if n = 1 then server_down else not_found) example_conf
          "a.b".toList),
        Event.connection_close,
        Event.search "*.b".toList (candidate_filter
          (example_env fun n => if n = 1 then server_down else not_found) example_conf
          "*.b".toList),
        Event.connection_close,
        Event.search "*".toList (candidate_filter
          (example_env fun n => if n = 1 then server_down else not_found) example_conf
          "*".toList),
        Event.connection_close]
        = Event.connection_close :: Event.sleep s :: Event.connection_find :: post' ∧
      ∀ h0, some "a.b".toList = some h0 → cstr h0 ≠ [] →
        (example_env fun n => if n = 1 then server_down else not_found).ldap_bv2escaped_filter_value
          (cstr h0) ≠ none →
        (∃ post'', post' = Event.search h0 (candidate_filter
            (example_env fun n => if n = 1 then server_down else not_found) example_conf h0)
          :: Event.connection_close :: post'') ∧
        ∀ h1, (searched_hostnames post').head? = some h1 →
          (h1 = "*.b".toList ↔ "*.b".toList = h0) :=
  ⟨by decide,
   retry_starts_over (example_env fun n => if n = 1 then server_down else not_found)
    example_conf (some "a.b".toList) ⟨0⟩
    ⟨HTTP_BAD_REQUEST, ⟨0⟩,
      [Event.connection_find,
        Event.search "a.b".toList (candidate_filter
          (example_env fun n => if n = 1 then server_down else not_found) example_conf
          "a.b".toList),
        Event.connection_close,
        Event.search "*.b".toList (candidate_filter
          (example_env fun n => if n = 1 then server_down else not_found) example_conf
          "*.b".toList),
        Event.connection_close, Event.sleep 1, Event.connection_find,
        Event.search "a.b".toList (candidate_filter
          (example_env fun n => if n = 1 then server_down else not_found) example_conf
          "a.b".toList),
        Event.connection_close,
        Event.search "*.b".toList (candidate_filter
          (example_env fun n => if n = 1 then server_down else not_found) example_conf
          "*.b".toList),
        Event.connection_close,
        Event.search "*".toList (candidate_filter
          (example_env fun n => if n = 1 then server_down else not_found) example_conf
          "*".toList),
        Event.connection_close]⟩
    [Event.connection_find,
      Event.search "a.b".toList (candidate_filter
        (example_env fun n => if n = 1 then server_down else not_found) example_conf
        "a.b".toList),
      Event.connection_close]
    "*.b".toList
    (candidate_filter (example_env fun n => if n = 1 then server_down else not_found)
      example_conf "*.b".toList)
    _ (by decide) rfl (by decide) (by decide)⟩

/-! ### The chain of the fallback hostname -/

/-- From the label `fallback`, once the fallback hostname has been substituted, in a run
whose searches from here on all answer no-such-object: the candidates of the wildcard
chain are searched one after the other, as far as the directory library can escape them,
and the lookup returns `HTTP_BAD_REQUEST`. -/
theorem run_chain (env : Env) (conf : mod_vhost_ldap_config_t) (host : Option (List Char))
    (serverp server : server_rec) (fuel : Nat) :
    ∀ (c : List Char) (st : Locals) (n : Nat) (r : lookup_result),
    host_measure c < fuel → 0 < st.is_fallback → st.searches = search_count st.trace →
    lookup_from env conf host serverp server n (Label.fallback c) st = some r →
    (∀ mid h f post, r.trace = st.trace ++ (mid ++ Event.search h f :: post) →
      (env.util_ldap_cache_getuserdn (search_count (st.trace ++ mid)) f).result
        = ldap_result.LDAP_NO_SUCH_OBJECT) →
    ∃ k, r = ⟨HTTP_BAD_REQUEST, serverp,
        st.trace ++ search_events env conf ((wildcard_chain fuel c).take k)⟩ ∧
      (k = (wildcard_chain fuel c).length ∨
        ∃ c', (wildcard_chain fuel c).get? k = some c' ∧
          env.ldap_bv2escaped_filter_value (cstr c') = none) := by
  induction fuel with
  | zero => intro c st n r h; omega
  | succ fuel ih =>
    intro c st n r hm hfb hcnt hrun hnf
    rw [wildcard_chain_succ]
    cases n with
    | zero => simp [lookup_from] at hrun
    | succ n =>
      cases he : env.ldap_bv2escaped_filter_value (cstr c) with
      | none =>
        have hstep : lookup_step env conf host serverp server (Label.fallback c) st
            = Step.goto Label.null st := by simp [lookup_step, he]
        rw [lookup_from_goto env conf host serverp server _ _ _ _ _ hstep] at hrun
        cases n with
        | zero => simp [lookup_from] at hrun
        | succ n =>
          rw [lookup_from_ret env conf host serverp server _ _ _ _
            (step_null_return env conf host serverp server st (Or.inr hfb))] at hrun
          refine ⟨0, ?_, Or.inr ⟨c, by simp, he⟩⟩
          rw [← Option.some.inj hrun]
          simp [search_events]
      | some sh =>
        have hesc : env.ldap_bv2escaped_filter_value (cstr c) ≠ none := by rw [he]; simp
        obtain ⟨post, hp⟩ := lookup_from_fallback_extends env conf host serverp server _ c st r
          hesc hrun
        have hres := hnf [] c (candidate_filter env conf c) (Event.connection_close :: post)
          (by simpa using hp)
        rw [List.append_nil, ← hcnt] at hres
        by_cases hstar : cstr c = ['*']
        · rw [lookup_from_goto env conf host serverp server _ _ _ _ _
            (step_miss_star env conf host serverp server c st hesc hres hstar)] at hrun
          cases n with
          | zero => simp [lookup_from] at hrun
          | succ n =>
            rw [lookup_from_ret env conf host serverp server _ _ _ _
              (step_null_return env conf host serverp server _
                (Or.inr (by simpa [advance] using hfb)))] at hrun
            refine ⟨1, ?_, Or.inl (by simp [hstar])⟩
            rw [← Option.some.inj hrun]
            simp [hstar, advance]
        · rw [lookup_from_goto env conf host serverp server _ _ _ _ _
            (step_miss env conf host serverp server c st hesc hres hstar)] at hrun
          have hw := wildcard_measure c hstar
          obtain ⟨k, hk, hor⟩ := ih (wildcard c) (advance st 1 (search_events env conf [c])) n r
            (by omega) (by simpa [advance] using hfb)
            (by
              simp only [advance, search_count_append, hcnt]
              simp [search_count, search_events, searched_hostnames])
            hrun
            (fun mid h f post' hx => by
              have := hnf (search_events env conf [c] ++ mid) h f post'
                (by simpa [advance, List.append_assoc] using hx)
              simpa [advance, List.append_assoc] using this)
          refine ⟨k + 1, ?_, ?_⟩
          · rw [hk]
            simp [hstar, advance, search_events]
          · rcases hor with hl | ⟨c', hc', hn⟩
            · exact Or.inl (by simp [hstar, hl])
            · exact Or.inr ⟨c', by simpa [hstar] using hc', hn⟩

/-- C9, as amended: once the search hostname has been replaced by the configured
fallback hostname, the fallback hostname is searched (the directory library escaping it
for the filter), and it is substituted this once only.  If every search made from then
on answers no-such-object, the candidates searched from then on are the fallback
hostname and its wildcard candidates in turn, as far as the directory library can escape
them, then the lookup returns `HTTP_BAD_REQUEST` (400) and leaves `*serverp` as it was.
When the directory library can escape every candidate of the chain, the whole chain is
searched, from the fallback hostname down to `*`: one search exactly when the fallback
hostname is `*`. -/
theorem fallback_chain_not_found (env : Env) (conf : mod_vhost_ldap_config_t)
    (host : Option (List Char)) (serverp : server_rec) (r : lookup_result)
    (pre : List Event) (fb : List Char) (post : List Event)
    (hr : mod_vhost_ldap_lookup_vhost env conf host serverp = some r)
    (htr : r.trace = pre ++ Event.fallback fb :: post) :
    conf.fallback = some fb ∧ fallbacks pre = [] ∧ fallbacks post = [] ∧
      (env.ldap_bv2escaped_filter_value (cstr fb) ≠ none →
        ∃ post', post = Event.search fb (candidate_filter env conf fb)
          :: Event.connection_close :: post') ∧
      ((∀ mid h f post', post = mid ++ Event.search h f :: post' →
          (env.util_ldap_cache_getuserdn
            (search_count (pre ++ Event.fallback fb :: mid)) f).result
            = ldap_result.LDAP_NO_SUCH_OBJECT) →
        r.code = HTTP_BAD_REQUEST ∧ r.code = 400 ∧ r.serverp = serverp ∧
        (∃ k, post
            = search_events env conf ((wildcard_chain (host_measure fb + 1) fb).take k) ∧
          (k = (wildcard_chain (host_measure fb + 1) fb).length ∨
            ∃ c, (wildcard_chain (host_measure fb + 1) fb).get? k = some c ∧
              env.ldap_bv2escaped_filter_value (cstr c) = none)) ∧
        ((∀ c ∈ wildcard_chain (host_measure fb + 1) fb,
            env.ldap_bv2escaped_filter_value (cstr c) ≠ none) →
          post = search_events env conf (wildcard_chain (host_measure fb + 1) fb) ∧
          searched_hostnames post = wildcard_chain (host_measure fb + 1) fb ∧
          (∃ rest last, wildcard_chain (host_measure fb + 1) fb = fb :: rest ∧
            (fb :: rest).getLast? = some last ∧ cstr last = ['*']) ∧
          ((searched_hostnames post).length = 1 ↔ cstr fb = ['*']))) := by
  obtain ⟨server, m, st, _, hS, hpre, hfb, h0, hrun⟩ :=
    fallback_visit env conf host serverp r pre fb post hr htr
  have honce : (fallbacks r.trace).length ≤ 1 := by
    obtain ⟨r', hr', hle⟩ := lookup_fallback_once env conf host serverp
    rw [hr] at hr'
    rw [Option.some.inj hr']
    exact hle
  rw [htr, fallbacks_append] at honce
  simp only [fallbacks, List.length_append, List.length_cons] at honce
  have hpre0 : fallbacks pre = [] := List.length_eq_zero.1 (by omega)
  have hpost0 : fallbacks post = [] := List.length_eq_zero.1 (by omega)
  cases m with
  | zero => simp [lookup_from] at hrun
  | succ m =>
    rw [lookup_from_goto env conf host serverp server _ _ _ _ _
      (step_null_fallback env conf host serverp server st fb hfb h0)] at hrun
    refine ⟨hfb, hpre0, hpost0, fun hesc0 => ?_, fun hnf => ?_⟩
    · obtain ⟨post', hp⟩ := lookup_from_fallback_extends env conf host serverp server _ fb _ r
        hesc0 hrun
      rw [htr, ← hpre] at hp
      simp only [List.append_assoc, List.singleton_append] at hp
      exact ⟨post', by simpa using List.append_cancel_left hp⟩
    · obtain ⟨k, hk, hor⟩ := run_chain env conf host serverp server (host_measure fb + 1) fb
        { st with is_fallback := 1, trace := st.trace ++ [Event.fallback fb] } m r
        (Nat.lt_succ_self _) (by simp)
        (by
          simp only [search_count_append, ← hS.1.1]
          simp [search_count, searched_hostnames])
        hrun
        (fun mid h f post' hx => by
          have hx' : post = mid ++ Event.search h f :: post' := by
            rw [htr, ← hpre] at hx
            simp only [List.append_assoc, List.singleton_append] at hx
            have := List.append_cancel_left hx
            simpa using this
          have := hnf mid h f post' hx'
          simpa [hpre, List.append_assoc] using this)
      have hpost : post
          = search_events env conf ((wildcard_chain (host_measure fb + 1) fb).take k) := by
        have ht : r.trace = (st.trace ++ [Event.fallback fb])
            ++ search_events env conf ((wildcard_chain (host_measure fb + 1) fb).take k) := by
          rw [hk]
        rw [htr, ← hpre] at ht
        simp only [List.append_assoc, List.singleton_append] at ht
        have := List.append_cancel_left ht
        simpa using this
      refine ⟨by rw [hk], by rw [hk]; rfl, by rw [hk], ⟨k, hpost, hor⟩, fun hesc => ?_⟩
      have hall : k = (wildcard_chain (host_measure fb + 1) fb).length := by
        rcases hor with hl | ⟨c, hc, hn⟩
        · exact hl
        · exact absurd hn (hesc c (List.get?_mem hc))
      have hwhole : post
          = search_events env conf (wildcard_chain (host_measure fb + 1) fb) := by
        rw [hpost, hall, List.take_length]
      have hsearched : searched_hostnames post
          = wildcard_chain (host_measure fb + 1) fb := by
        rw [hwhole, searched_search_events]
      refine ⟨hwhole, hsearched, ?_, ?_⟩
      · obtain ⟨p, last, h1, h2⟩ := wildcard_chain_complete (host_measure fb + 1) fb
          (Nat.lt_succ_self _)
        have h3 := wildcard_chain_succ (host_measure fb) fb
        refine ⟨_, last, h3, ?_, h2⟩
        rw [← h3, h1]
        simp
      · rw [hsearched]
        exact wildcard_chain_length_one fb

/-- C9, witness: for the host `a` with the fallback `default.example.com`, the first
search fails transiently and every later one answers no-such-object; after the retry
the fallback hostname is substituted, then `default.example.com`, `*.example.com`,
`*.com` and `*` are searched and the lookup returns `HTTP_BAD_REQUEST`. -/
theorem fallback_chain_not_found_witness :
    mod_vhost_ldap_lookup_vhost
        (example_env fun n => if n = 0 then server_down else not_found) example_conf_fallback
        (some "a".toList) ⟨0⟩
      = some ⟨HTTP_BAD_REQUEST, ⟨0⟩,
        [Event.connection_find,
          Event.search "a".toList (candidate_filter
            (example_env fun _ => not_found) example_conf_fallback "a".toList),
          Event.connection_close, Event.sleep 1, Event.connection_find,
          Event.search "a".toList (candidate_filter
            (example_env fun _ => not_found) example_conf_fallback "a".toList),
          Event.connection_close,
          Event.search "*".toList (candidate_filter
            (example_env fun _ => not_found) example_conf_fallback "*".toList),
          Event.connection_close]
        ++ Event.fallback "default.example.com".toList
        :: search_events (example_env fun _ => not_found) example_conf_fallback
          ["default.example.com".toList, "*.example.com".toList, "*.com".toList,
            "*".toList]⟩ ∧
    searched_hostnames (search_events (example_env fun _ => not_found) example_conf_fallback
        ["default.example.com".toList, "*.example.com".toList, "*.com".toList, "*".toList])
      = wildcard_chain (host_measure "default.example.com".toList + 1)
          "default.example.com".toList ∧
    ((searched_hostnames (search_events (example_env fun _ => not_found)
        example_conf_fallback ["default.example.com".toList, "*.example.com".toList,
          "*.com".toList, "*".toList])).length = 1
      ↔ cstr "default.example.com".toList = ['*']) := by
  have hr : mod_vhost_ldap_lookup_vhost
      (example_env fun n => if n = 0 then server_down else not_found) example_conf_fallback
      (some "a".toList) ⟨0⟩
    = some ⟨HTTP_BAD_REQUEST, ⟨0⟩,
      [Event.connection_find,
        Event.search "a".toList (candidate_filter
          (example_env fun _ => not_found) example_conf_fallback "a".toList),
        Event.connection_close, Event.sleep 1, Event.connection_find,
        Event.search "a".toList (candidate_filter
          (example_env fun _ => not_found) example_conf_fallback "a".toList),
        Event.connection_close,
        Event.search "*".toList (candidate_filter
          (example_env fun _ => not_found) example_conf_fallback "*".toList),
        Event.connection_close]
      ++ Event.fallback "default.example.com".toList
      :: search_events (example_env fun _ => not_found) example_conf_fallback
        ["default.example.com".toList, "*.example.com".toList, "*.com".toList,
          "*".toList]⟩ := by decide
  have h := fallback_chain_not_found
    (example_env fun n => if n = 0 then server_down else not_found) example_conf_fallback
    (some "a".toList) ⟨0⟩ _ _ "default.example.com".toList _ hr rfl
  obtain ⟨_, _, _, _, hchain⟩ := h
  obtain ⟨_, _, _, _, hfull⟩ := hchain
    (fun mid h f post' _ => by
      have h3 : search_count ([Event.connection_find,
          Event.search "a".toList (candidate_filter
            (example_env fun _ => not_found) example_conf_fallback "a".toList),
          Event.connection_close, Event.sleep 1, Event.connection_find,
          Event.search "a".toList (candidate_filter
            (example_env fun _ => not_found) example_conf_fallback "a".toList),
          Event.connection_close,
          Event.search "*".toList (candidate_filter
            (example_env fun _ => not_found) example_conf_fallback "*".toList),
          Event.connection_close] ++ Event.fallback "default.example.com".toList :: mid)
          = 3 + search_count (Event.fallback "default.example.com".toList :: mid) := by
        rw [search_count_append]
        rfl
      rw [h3]
      have hne : 3 + search_count (Event.fallback "default.example.com".toList :: mid) ≠ 0 := by
        omega
      simp only [example_env, hne, if_false]
      rfl)
  obtain ⟨_, hs, _, hone⟩ := hfull (fun c _ => example_filter_escape_some (cstr c))
  exact ⟨hr, hs, hone⟩

end ModVhostLdap
